import Mathlib

/-!
Shallow embedding of the regular-expression engine in
`src/packages/core/regexp.cc` (Henry Spencer's library as modified for this
code base): the bytecode program representation, the backtracking matcher
(`regexec` / `regtry` / `regmatch` / `regrepeat`), the two-pass compiler
(`regcomp` and friends) and the substitution routine (`regsub`).

Modelling conventions:
* A byte is a `Nat` (0..255); a C string is a `List Nat` that contains no
  interior `0`, and reading past its end yields the terminating NUL, so
  `byteAt l i = l.getD i 0`.
* The compiled program is the raw byte buffer (`List Nat`), index 0 holding
  the MAGIC byte, exactly as in the source.  Node pointers are indices.
* The C matcher recurses and loops without a structural bound, so the Lean
  functions take an explicit fuel argument; `none` means the fuel ran out
  (an artifact of the embedding, never of the C code), `some r` is the
  result the C code computes.
* The fields `startp`/`endp` live in `struct regexp` in `regexp.h`, which is
  not part of the sources given; following the spec they are two tables of
  10 slots (`NSUBEXP = 10`), unset slots being null.  The matcher state
  (`reginput`, `regstartp`, `regendp` globals in C) is threaded explicitly
  as `MState`.
-/

namespace Spencer

/-! ## Bytes, opcodes, and program access -/

/-- Read byte `i` of a NUL-terminated buffer: past the end we read `0`,
like C reading the terminator. -/
def byteAt (l : List Nat) (i : Nat) : Nat := l.getD i 0

/-- Length of the C string stored in `l`: number of bytes before the first
NUL (the whole list if none). -/
def cstrlen (l : List Nat) : Nat := (l.takeWhile (· ≠ 0)).length

/-- The NUL-terminated string starting at offset `q` of buffer `l`
(`OPERAND` strings are read this way). -/
def strFrom (l : List Nat) (q : Nat) : List Nat := (l.drop q).takeWhile (· ≠ 0)

-- Opcodes, from the `#define` table in regexp.cc.
def ENDOP : Nat := 0
def BOL : Nat := 1
def EOL : Nat := 2
def ANY : Nat := 3
def ANYOF : Nat := 4
def ANYBUT : Nat := 5
def BRANCH : Nat := 6
def BACK : Nat := 7
def EXACTLY : Nat := 8
def NOTHING : Nat := 9
def STAR : Nat := 10
def PLUS : Nat := 11
def WORDSTART : Nat := 12
def WORDEND : Nat := 13
def OPEN : Nat := 20
def CLOSE : Nat := 30

/-- MAGIC, the first byte of every compiled program (0234 octal). -/
def MAGIC : Nat := 156

/-- Modelled from the spec: `NSUBEXP`, the size of the capture tables, is
declared in `regexp.h` (not under the given sources); the spec fixes ten
slots `startp[0..9]`/`endp[0..9]`. -/
def NSUBEXP : Nat := 10

/-- OP(p): the opcode of the node at index `p`. -/
def OP (prog : List Nat) (p : Nat) : Nat := byteAt prog p

/-- NEXT(p): the two-byte big-endian next offset of the node at `p`. -/
def NEXT (prog : List Nat) (p : Nat) : Nat :=
  byteAt prog (p + 1) * 256 + byteAt prog (p + 2)

/-- OPERAND(p): operands begin right after the 3-byte node header. -/
def OPERAND (p : Nat) : Nat := p + 3

/-- regnext - dig the "nxt" pointer out of a node: offset 0 means no next
node; BACK nodes point backward, all others forward.  (The `&regdummy`
case of the C function arises only during compilation and is handled in
the compiler's pointer type below.) -/
def regnext (prog : List Nat) (p : Nat) : Option Nat :=
  let offset := NEXT prog p
  if offset = 0 then none
  else if OP prog p = BACK then some (p - offset) else some (p + offset)

/-- ISWORDPART(c): alphanumeric or underscore. -/
def ISWORDPART (c : Nat) : Bool :=
  (48 ≤ c && c ≤ 57) || (65 ≤ c && c ≤ 90) || (97 ≤ c && c ≤ 122) || c = 95

/-! ## Match-time state -/

/-- The matcher's mutable state: the global `reginput` cursor (an index
into the subject) and the two capture tables `regstartp`/`regendp`
(indices into the subject, `none` = null). -/
structure MState where
  input : Nat
  startp : List (Option Nat)
  endp : List (Option Nat)
deriving Repr, DecidableEq

/-- regrepeat - repeatedly match something simple, report how many.
`p` is the index of the operand node, the subject is read from `s.input`;
returns the count and the state with `reginput` advanced past the run.
(The EXACTLY case with a NUL first operand byte would run past the
terminator in C; it is unreachable from compiled programs and modelled
as a plain `takeWhile`.) -/
def regrepeat (prog sub : List Nat) (p : Nat) (s : MState) : Nat × MState :=
  let opnd := strFrom prog (OPERAND p)
  let rest := sub.drop s.input
  let count :=
    if OP prog p = ANY then cstrlen rest
    else if OP prog p = EXACTLY then
      (rest.takeWhile (· = byteAt prog (OPERAND p))).length
    else if OP prog p = ANYOF then
      (rest.takeWhile (fun b => b ≠ 0 && opnd.contains b)).length
    else if OP prog p = ANYBUT then
      (rest.takeWhile (fun b => b ≠ 0 && !opnd.contains b)).length
    else 0  -- "internal foulup": called inappropriately
  (count, { s with input := s.input + count })

/-- Does the operand string `o` occur byte-for-byte in the subject at
index `i`?  This is the `strncmp(opnd, reginput, len) == 0` test of the
EXACTLY case (the subject is read through `byteAt`, so its terminating
NUL fails the comparison exactly as in C). -/
def matchesAt (o sub : List Nat) (i : Nat) : Bool :=
  (List.range o.length).all fun j => byteAt sub (i + j) = o.getD j 0

mutual

/-- regmatch - main matching routine, over program `prog` and subject
`sub`.  `scan` is the current node (`none` = the C NULL pointer), and the
result is `none` when the fuel runs out, otherwise `some (matched, state)`
mirroring the C return value and the global state it leaves behind. -/
def regmatch (prog sub : List Nat) : Nat → Option Nat → MState → Option (Bool × MState)
  | 0, _, _ => none
  | _ + 1, none, s => some (false, s)  -- fell off the chain: "corrupted pointers"
  | fuel + 1, some scan, s =>
    let nxt := regnext prog scan
    let op := OP prog scan
    if op = BOL then
      if s.input ≠ 0 then some (false, s) else regmatch prog sub fuel nxt s
    else if op = EOL then
      if byteAt sub s.input ≠ 0 then some (false, s) else regmatch prog sub fuel nxt s
    else if op = ANY then
      if byteAt sub s.input = 0 then some (false, s)
      else regmatch prog sub fuel nxt { s with input := s.input + 1 }
    else if op = WORDSTART then
      if s.input = 0 then regmatch prog sub fuel nxt s
      else if byteAt sub s.input = 0 || ISWORDPART (byteAt sub (s.input - 1)) ||
              !ISWORDPART (byteAt sub s.input) then some (false, s)
      else regmatch prog sub fuel nxt s
    else if op = WORDEND then
      if byteAt sub s.input = 0 then regmatch prog sub fuel nxt s
      else if s.input = 0 || !ISWORDPART (byteAt sub (s.input - 1)) ||
              ISWORDPART (byteAt sub s.input) then some (false, s)
      else regmatch prog sub fuel nxt s
    else if op = EXACTLY then
      let opnd := strFrom prog (OPERAND scan)
      if byteAt prog (OPERAND scan) ≠ byteAt sub s.input then some (false, s)
      else if opnd.length > 1 && !matchesAt opnd sub s.input then some (false, s)
      else regmatch prog sub fuel nxt { s with input := s.input + opnd.length }
    else if op = ANYOF then
      if byteAt sub s.input = 0 || !(strFrom prog (OPERAND scan)).contains (byteAt sub s.input)
      then some (false, s)
      else regmatch prog sub fuel nxt { s with input := s.input + 1 }
    else if op = ANYBUT then
      if byteAt sub s.input = 0 || (strFrom prog (OPERAND scan)).contains (byteAt sub s.input)
      then some (false, s)
      else regmatch prog sub fuel nxt { s with input := s.input + 1 }
    else if op = NOTHING then regmatch prog sub fuel nxt s
    else if op = BACK then regmatch prog sub fuel nxt s
    else if OPEN + 1 ≤ op ∧ op ≤ OPEN + 9 then
      let no := op - OPEN
      let save := s.input
      match regmatch prog sub fuel nxt s with
      | none => none
      | some (true, s') =>
        -- don't set startp if some later invocation of the same parens already has
        if s'.startp.getD no none = none then
          some (true, { s' with startp := s'.startp.set no (some save) })
        else some (true, s')
      | some (false, s') => some (false, s')
    else if CLOSE + 1 ≤ op ∧ op ≤ CLOSE + 9 then
      let no := op - CLOSE
      let save := s.input
      match regmatch prog sub fuel nxt s with
      | none => none
      | some (true, s') =>
        if s'.endp.getD no none = none then
          some (true, { s' with endp := s'.endp.set no (some save) })
        else some (true, s')
      | some (false, s') => some (false, s')
    else if op = BRANCH then
      match nxt with
      | none => some (false, s)  -- C would dereference NULL here; unreachable from compiled code
      | some nx =>
        if OP prog nx ≠ BRANCH then
          -- no choice: avoid recursion, proceed straight into the operand
          regmatch prog sub fuel (some (OPERAND scan)) s
        else branchLoop prog sub fuel scan s
    else if op = STAR ∨ op = PLUS then
      -- lookahead: if the next node is EXACTLY, prune attempts on its first char
      let nextch :=
        match nxt with
        | some nx => if OP prog nx = EXACTLY then byteAt prog (OPERAND nx) else 0
        | none => 0  -- C would dereference NULL here; unreachable from compiled code
      let minimum := if op = STAR then 0 else 1
      let save := s.input
      let (no, s1) := regrepeat prog sub (OPERAND scan) s
      starLoop prog sub fuel nxt save minimum nextch no s1
    else if op = ENDOP then some (true, s)
    else some (false, s)  -- "memory corruption"

/-- The BRANCH alternative loop of regmatch: try each sibling BRANCH's
operand in turn, restoring the input cursor between attempts. -/
def branchLoop (prog sub : List Nat) : Nat → Nat → MState → Option (Bool × MState)
  | 0, _, _ => none
  | fuel + 1, scan, s =>
    let save := s.input
    match regmatch prog sub fuel (some (OPERAND scan)) s with
    | none => none
    | some (true, s') => some (true, s')
    | some (false, s') =>
      let s'' := { s' with input := save }
      match regnext prog scan with
      | some p2 =>
        if OP prog p2 = BRANCH then branchLoop prog sub fuel p2 s''
        else some (false, s'')
      | none => some (false, s'')

/-- The STAR/PLUS backtracking loop of regmatch: with `no` repetitions
consumed and the cursor at `save + no`, try the remainder, then shrink the
count by one and retry, failing once the count undercuts `minimum`.
The final failing cursor assignment is C's `reginput = save + minimum - 1`
(one before `save` when `minimum = 0`); that value is never read. -/
def starLoop (prog sub : List Nat) :
    Nat → Option Nat → Nat → Nat → Nat → Nat → MState → Option (Bool × MState)
  | 0, _, _, _, _, _, _ => none
  | fuel + 1, nxt, save, minimum, nextch, no, s =>
    if no < minimum then some (false, s)
    else
      let step : MState → Option (Bool × MState) := fun t =>
        match no with
        | 0 => some (false, { t with input := save - 1 })
        | no' + 1 => starLoop prog sub fuel nxt save minimum nextch no'
            { t with input := save + no' }
      if nextch = 0 || byteAt sub s.input = nextch then
        match regmatch prog sub fuel nxt s with
        | none => none
        | some (true, s') => some (true, s')
        | some (false, s') => step s'
      else step s

end

/-! ## regexec and friends -/

/-- The compiled program header, mirroring `struct regexp` (declared in
`regexp.h`; field meanings follow the comment block at the top of
regexp.cc and the spec).  `regmust` holds the literal bytes of the
must-appear string (a pointer into `program` in C) and `regmlen` its
length; the capture tables are per-match state (`MState`) here. -/
structure Regexp where
  program : List Nat
  regstart : Nat
  reganch : Bool
  regmust : Option (List Nat)
  regmlen : Nat
deriving Repr, DecidableEq

/-- strchr on the subject from index `i`: the first index `j ≥ i` with
byte `c`, not looking past the terminating NUL (`c` is nonzero at every
use site in regexec). -/
def strchrFrom (sub : List Nat) (c : Nat) (i : Nat) : Option Nat :=
  ((sub.drop i).takeWhile (· ≠ 0)).findIdx? (· = c) |>.map (i + ·)

/-- regtry - try match at specific point: clear both capture tables, run
the automaton from the node after the magic byte, and on success record
the whole-match span in slot 0. -/
def regtry (prog sub : List Nat) (fuel : Nat) (pos : Nat) : Option (Bool × MState) :=
  let s0 : MState := ⟨pos, List.replicate NSUBEXP none, List.replicate NSUBEXP none⟩
  match regmatch prog sub fuel (some 1) s0 with
  | none => none
  | some (true, s') =>
    some (true, { s' with startp := s'.startp.set 0 (some pos),
                          endp := s'.endp.set 0 (some s'.input) })
  | some (false, s') => some (false, s')

/-- The "must appear" scan of regexec: hop to each occurrence of the first
byte of `must` and check the whole literal there.  `posFuel` bounds the
loop (the scan position strictly increases, so `cstrlen sub + 2` always
suffices). -/
def mustScan (sub must : List Nat) : Nat → Nat → Bool
  | 0, _ => false
  | posFuel + 1, i =>
    match strchrFrom sub (must.headD 0) i with
    | none => false
    | some j => if matchesAt must sub j then true else mustScan sub must posFuel (j + 1)

/-- The general unanchored scan of regexec: `do { if (regtry(prog, s))
return 1; } while (*s++ != '\0')`.  Returns the decisive try's state
(success or the state the last try left behind). -/
def genLoop (prog sub : List Nat) (fuel : Nat) :
    Nat → Nat → Option (Bool × Option MState)
  | 0, _ => none
  | posFuel + 1, p =>
    match regtry prog sub fuel p with
    | none => none
    | some (true, s') => some (true, some s')
    | some (false, s') =>
      if byteAt sub p = 0 then some (false, some s')
      else genLoop prog sub fuel posFuel (p + 1)

/-- The regstart-accelerated unanchored scan of regexec: only positions
holding the known start byte are tried. -/
def startLoop (prog sub : List Nat) (fuel : Nat) (c : Nat) :
    Nat → Nat → Option MState → Option (Bool × Option MState)
  | 0, _, _ => none
  | posFuel + 1, p, last =>
    match strchrFrom sub c p with
    | none => some (false, last)
    | some q =>
      match regtry prog sub fuel q with
      | none => none
      | some (true, s') => some (true, some s')
      | some (false, s') => startLoop prog sub fuel c posFuel (q + 1) (some s')

/-- regexec - match a regexp against a string.  The result pairs the C
return value with the capture state of the last `regtry` performed
(`none` when the program was rejected before any try: bad magic byte or
absent regmust string).  The NULL-argument check of the C code has no
counterpart here. -/
def regexec (fuel : Nat) (prog : Regexp) (sub : List Nat) : Option (Bool × Option MState) :=
  if byteAt prog.program 0 ≠ MAGIC then some (false, none)
  else
    let rest : Unit → Option (Bool × Option MState) := fun _ =>
      if prog.reganch then
        (regtry prog.program sub fuel 0).map fun (b, s) => (b, some s)
      else if prog.regstart ≠ 0 then
        startLoop prog.program sub fuel prog.regstart (cstrlen sub + 2) 0 none
      else genLoop prog.program sub fuel (cstrlen sub + 2) 0
    match prog.regmust with
    | some m => if mustScan sub m (cstrlen sub + 2) 0 then rest () else some (false, none)
    | none => rest ()

/-! ## The compiler: tokens and the preprocessing loop of regcomp -/

-- Token constants: a 16-bit token is a byte, possibly tagged SPECIAL (0x100).
def SPECIAL : Nat := 256
def LBRAC : Nat := 40 + SPECIAL
def RBRAC : Nat := 41 + SPECIAL
def ASTERIX : Nat := 42 + SPECIAL
def PLUSS : Nat := 43 + SPECIAL
def QMARK : Nat := 63 + SPECIAL
def OR_OP : Nat := 124 + SPECIAL
def DOLLAR : Nat := 36 + SPECIAL
def DOT : Nat := 46 + SPECIAL
def CARET : Nat := 94 + SPECIAL
def LSQBRAC : Nat := 91 + SPECIAL
def RSQBRAC : Nat := 93 + SPECIAL
def LSHBRAC : Nat := 60 + SPECIAL
def RSHBRAC : Nat := 62 + SPECIAL

/-- ISMULT(c): is the token a repetition operator? -/
def ISMULT (c : Nat) : Bool := c = ASTERIX || c = PLUSS || c = QMARK

/-- Compile-time errors.  Each constructor corresponds to one `FAIL`
message of the source (`fuelExhausted` is the embedding's fuel artifact,
`nullArgument` the C NULL-argument check). -/
inductive RegError where
  | nullArgument        -- "NULL argument"
  | trailingBackslash   -- "Regular expression cannot end with a backslash"
  | unimplementedOp     -- "unimplemented operator" (counted repetition via backslash-brace)
  | tooManyParens       -- "too many ()"
  | unmatchedParens     -- "unmatched ()"
  | junkOnEnd           -- "junk on end"
  | emptyRepeat         -- "*+ operand could be empty"
  | nestedRepeat        -- "nested *?+"
  | internalUrp         -- "internal urp"
  | starFollowsNothing  -- "* follows nothing"
  | plusFollowsNothing  -- "+ follows nothing"
  | qmarkFollowsNothing -- "? follows nothing"
  | invalidRange        -- "invalid [] range"
  | unmatchedBracket    -- "unmatched []"
  | unexpectedBracket   -- "unexpected ]"
  | regexpTooBig        -- "regexp too big"
  | fuelExhausted       -- embedding artifact: fuel ran out
deriving Repr, DecidableEq

/-- The preprocessing loop at the top of regcomp: rewrite the raw pattern
bytes into the tagged token stream `exp2`.  Metacharacters get the SPECIAL
tag; `(`/`)` literal vs. special depends on `excompat`; backslash escapes
are resolved.  (The zero terminator of `exp2` is the end of the list.) -/
def preprocess (excompat : Bool) : List Nat → Except RegError (List Nat)
  | [] => .ok []
  | c :: scan =>
    if c = 0 then .ok []  -- the for-loop condition: stop at NUL
    else if c = 40 ∨ c = 41 then
      (preprocess excompat scan).map ((if excompat then c else c + SPECIAL) :: ·)
    else if c = 46 ∨ c = 42 ∨ c = 43 ∨ c = 63 ∨ c = 124 ∨ c = 36 ∨ c = 94 ∨ c = 91 ∨ c = 93 then
      (preprocess excompat scan).map ((c + SPECIAL) :: ·)
    else if c = 92 then
      match scan with
      | [] => .error .trailingBackslash
      | d :: scan' =>
        if d = 0 then .error .trailingBackslash
        else if d = 40 ∨ d = 41 then
          (preprocess excompat scan').map ((if excompat then d + SPECIAL else d) :: ·)
        else if d = 60 ∨ d = 62 then
          (preprocess excompat scan').map ((d + SPECIAL) :: ·)
        else if d = 123 ∨ d = 125 then .error .unimplementedOp
        else if d = 98 then (preprocess excompat scan').map (8 :: ·)
        else if d = 116 then (preprocess excompat scan').map (9 :: ·)
        else if d = 114 then (preprocess excompat scan').map (13 :: ·)
        else (preprocess excompat scan').map (d :: ·)
    else (preprocess excompat scan).map (c :: ·)

/-! ## Compile-time state and the code-emitting primitives -/

/-- A compile-time node pointer: the C code distinguishes the NULL
pointer, the sizing sentinel `&regdummy`, and real addresses inside the
program buffer (here: byte indices). -/
inductive Ptr where
  | null
  | dummy
  | idx (i : Nat)
deriving Repr, DecidableEq

/-- The global work variables of regcomp: the input-scan pointer
`regparse` (remaining tokens), the `()` count `regnpar`, and the
code-emit cursor, which is either real (`emitting = true`, writing into
`buf`, with `regcode = buf.length`) or the sizing dummy
(`emitting = false`, only advancing `regsize`). -/
structure CompSt where
  tokens : List Nat
  regnpar : Nat
  emitting : Bool
  regsize : Nat
  buf : List Nat
deriving Repr, DecidableEq

/-- Read `*regparse` (the terminating zero token once the list is spent). -/
def peek (st : CompSt) : Nat := st.tokens.headD 0

/-- Advance `regparse` by one token. -/
def adv (st : CompSt) : CompSt := { st with tokens := st.tokens.drop 1 }

/-- regnode - emit a (3-byte, null-next) node; in sizing mode just count. -/
def regnode (op : Nat) (st : CompSt) : Ptr × CompSt :=
  if !st.emitting then (.dummy, { st with regsize := st.regsize + 3 })
  else (.idx st.buf.length, { st with buf := st.buf ++ [op, 0, 0] })

/-- regc - emit (if appropriate) a byte of code.  The `short` token is
truncated to a `char` exactly as in C. -/
def regc (b : Nat) (st : CompSt) : CompSt :=
  if st.emitting then { st with buf := st.buf ++ [Nat.land b 255] }
  else { st with regsize := st.regsize + 1 }

/-- reginsert - insert an operator in front of an already-emitted
operand, relocating the operand 3 bytes up. -/
def reginsert (op : Nat) (opnd : Ptr) (st : CompSt) : CompSt :=
  if !st.emitting then { st with regsize := st.regsize + 3 }
  else
    match opnd with
    | .idx i => { st with buf := st.buf.take i ++ [op, 0, 0] ++ st.buf.drop i }
    | _ => st  -- never reached: a real pointer is always passed while emitting

/-- regnext on a compile-time pointer (the `&regdummy` case of the C
function lives here). -/
def regnextP (buf : List Nat) (p : Ptr) : Ptr :=
  match p with
  | .dummy => .null
  | .null => .null  -- regnext is never applied to NULL in the source
  | .idx i =>
    match regnext buf i with
    | none => .null
    | some j => .idx j

/-- The chase to the last node of a chain inside regtail (`for (;;)` over
`regnext`); the fuel is always taken large enough for the forward chains
the compiler builds. -/
def regtailChase (buf : List Nat) : Nat → Nat → Nat
  | 0, scan => scan
  | chase + 1, scan =>
    match regnext buf scan with
    | none => scan
    | some temp => regtailChase buf chase temp

/-- regtail - set the next-pointer at the end of a node chain (no-op on
the sizing sentinel).  The offset is stored big-endian, masked to bytes;
BACK nodes store a backward offset. -/
def regtail (p val : Ptr) (st : CompSt) : CompSt :=
  match p, val with
  | .dummy, _ => st
  | .idx i, .idx v =>
    let scan := regtailChase st.buf (st.buf.length + 1) i
    let offset := if OP st.buf scan = BACK then scan - v else v - scan
    { st with
      buf := (st.buf.set (scan + 1) (Nat.land (offset / 256) 255)).set
               (scan + 2) (Nat.land offset 255) }
  | _, _ => st  -- never reached: regtail's arguments are dummy or real

/-- regoptail - regtail on the operand of `p`; no-op unless `p` is a
BRANCH node (or when `p` is NULL or the sizing sentinel). -/
def regoptail (p val : Ptr) (st : CompSt) : CompSt :=
  match p with
  | .null => st
  | .dummy => st
  | .idx i => if OP st.buf i ≠ BRANCH then st else regtail (.idx (OPERAND i)) val st

/-- The flag bits passed up and down the parser (HASWIDTH, SIMPLE,
SPSTART; WORST is all clear). -/
structure Flags where
  hasWidth : Bool
  simple : Bool
  spstart : Bool
deriving Repr, DecidableEq

/-- WORST: worst case, no flag set. -/
def WORST : Flags := ⟨false, false, false⟩

/-- Emit the expansion of a class range: `for (; classs <= classend;
classs++) regc(classs)`, phrased on the count of remaining characters. -/
def emitRange (classs : Nat) : Nat → CompSt → CompSt
  | 0, st => st
  | n + 1, st => emitRange (classs + 1) n (regc classs st)

/-- Emit a run of `len` ordinary tokens into an EXACTLY operand
(`while (len > 0) { regc(*regparse++); len--; }`). -/
def emitRun : Nat → CompSt → CompSt
  | 0, st => st
  | n + 1, st => emitRun n (regc (peek st) (adv st))

/-! ## The recursive-descent parser (reg, regbranch, regpiece, regatom) -/

mutual

/-- reg - regular expression, i.e. main body or parenthesized thing. -/
def reg : Nat → Bool → CompSt → Except RegError (Ptr × Flags × CompSt)
  | 0, _, _ => .error .fuelExhausted
  | fuel + 1, paren, st =>
    if paren && decide (st.regnpar ≥ NSUBEXP) then .error .tooManyParens
    else
      let parno := st.regnpar
      let (ret0, st1) :=
        if paren then regnode (OPEN + parno) { st with regnpar := st.regnpar + 1 }
        else (.null, st)
      match regbranch fuel st1 with
      | .error e => .error e
      | .ok (br, flags, st2) =>
        let ret := if ret0 ≠ Ptr.null then ret0 else br
        let st3 := if ret0 ≠ Ptr.null then regtail ret0 br st2 else st2
        -- *flagp starts as HASWIDTH, is cleared if a branch lacks it, and
        -- accumulates SPSTART
        let flag0 : Flags := ⟨flags.hasWidth, false, flags.spstart⟩
        match orLoop fuel ret flag0 st3 with
        | .error e => .error e
        | .ok (flag1, st4) =>
          let (ender, st5) := regnode (if paren then CLOSE + parno else ENDOP) st4
          let st6 := regtail ret ender st5
          let st7 := optChain fuel ret ender st6
          if paren then
            if peek st7 ≠ RBRAC then .error .unmatchedParens
            else .ok (ret, flag1, adv st7)
          else
            if peek st7 ≠ 0 then
              if peek st7 = RBRAC then .error .unmatchedParens else .error .junkOnEnd
            else .ok (ret, flag1, st7)

/-- The `while (*regparse == OR_OP)` loop of reg: pick up the remaining
branches, linking each onto the chain and folding its flags. -/
def orLoop : Nat → Ptr → Flags → CompSt → Except RegError (Flags × CompSt)
  | 0, _, _, _ => .error .fuelExhausted
  | fuel + 1, ret, flag, st =>
    if peek st ≠ OR_OP then .ok (flag, st)
    else
      match regbranch fuel (adv st) with
      | .error e => .error e
      | .ok (br, flags, st1) =>
        let st2 := regtail ret br st1
        orLoop fuel ret ⟨flag.hasWidth && flags.hasWidth, flag.simple,
                         flag.spstart || flags.spstart⟩ st2

/-- The `for (br = ret; br != NULL; br = regnext(br))` loop of reg: hook
the tails of the branches to the closing node. -/
def optChain : Nat → Ptr → Ptr → CompSt → CompSt
  | 0, _, _, st => st
  | fuel + 1, br, ender, st =>
    match br with
    | .null => st
    | _ =>
      let st' := regoptail br ender st
      optChain fuel (regnextP st'.buf br) ender st'

/-- regbranch - one alternative of an | operator (implements
concatenation). -/
def regbranch : Nat → CompSt → Except RegError (Ptr × Flags × CompSt)
  | 0, _ => .error .fuelExhausted
  | fuel + 1, st =>
    let (ret, st1) := regnode BRANCH st
    match pieceLoop fuel Ptr.null WORST st1 with
    | .error e => .error e
    | .ok (chain, flag, st2) =>
      let st3 := if chain = Ptr.null then (regnode NOTHING st2).2 else st2
      .ok (ret, flag, st3)

/-- The piece-concatenation loop of regbranch. -/
def pieceLoop : Nat → Ptr → Flags → CompSt → Except RegError (Ptr × Flags × CompSt)
  | 0, _, _, _ => .error .fuelExhausted
  | fuel + 1, chain, flag, st =>
    let t := peek st
    if t = 0 ∨ t = OR_OP ∨ t = RBRAC then .ok (chain, flag, st)
    else
      match regpiece fuel st with
      | .error e => .error e
      | .ok (latest, flags, st1) =>
        let flag1 := { flag with hasWidth := flag.hasWidth || flags.hasWidth }
        if chain = Ptr.null then
          pieceLoop fuel latest
            { flag1 with spstart := flag1.spstart || flags.spstart } st1
        else pieceLoop fuel latest flag1 (regtail chain latest st1)

/-- regpiece - something followed by possible `*`, `+` or `?`. -/
def regpiece : Nat → CompSt → Except RegError (Ptr × Flags × CompSt)
  | 0, _ => .error .fuelExhausted
  | fuel + 1, st =>
    match regatom fuel st with
    | .error e => .error e
    | .ok (ret, flags, st1) =>
      let op := peek st1
      if !ISMULT op then .ok (ret, flags, st1)
      else if !flags.hasWidth && op ≠ QMARK then .error .emptyRepeat
      else
        let flagp : Flags := if op ≠ PLUSS then ⟨false, false, true⟩ else ⟨true, false, false⟩
        let st2 :=
          if op = ASTERIX && flags.simple then reginsert STAR ret st1
          else if op = ASTERIX then
            -- emit x* as (x&|), where & means "self"
            let stA := reginsert BRANCH ret st1
            let (back, stB) := regnode BACK stA
            let stC := regoptail ret back stB
            let stD := regoptail ret ret stC
            let (br2, stE) := regnode BRANCH stD
            let stF := regtail ret br2 stE
            let (nth, stG) := regnode NOTHING stF
            regtail ret nth stG
          else if op = PLUSS && flags.simple then reginsert PLUS ret st1
          else if op = PLUSS then
            -- emit x+ as x(&|)
            let (nxt, stA) := regnode BRANCH st1
            let stB := regtail ret nxt stA
            let (back, stC) := regnode BACK stB
            let stD := regtail back ret stC
            let (br2, stE) := regnode BRANCH stD
            let stF := regtail nxt br2 stE
            let (nth, stG) := regnode NOTHING stF
            regtail ret nth stG
          else
            -- emit x? as (x|)
            let stA := reginsert BRANCH ret st1
            let (br2, stB) := regnode BRANCH stA
            let stC := regtail ret br2 stB
            let (nth, stD) := regnode NOTHING stC
            let stE := regtail ret nth stD
            regoptail ret nth stE
        let st3 := adv st2
        if ISMULT (peek st3) then .error .nestedRepeat
        else .ok (ret, flagp, st3)

/-- regatom - the lowest level; gobbles an entire run of ordinary
characters into one EXACTLY node. -/
def regatom : Nat → CompSt → Except RegError (Ptr × Flags × CompSt)
  | 0, _ => .error .fuelExhausted
  | fuel + 1, st =>
    let t := peek st
    let st0 := adv st
    if t = CARET then
      let (ret, st1) := regnode BOL st0
      .ok (ret, WORST, st1)
    else if t = DOLLAR then
      let (ret, st1) := regnode EOL st0
      .ok (ret, WORST, st1)
    else if t = DOT then
      let (ret, st1) := regnode ANY st0
      .ok (ret, ⟨true, true, false⟩, st1)
    else if t = LSHBRAC then
      let (ret, st1) := regnode WORDSTART st0
      .ok (ret, WORST, st1)
    else if t = RSHBRAC then
      let (ret, st1) := regnode WORDEND st0
      .ok (ret, WORST, st1)
    else if t = LSQBRAC then
      -- character class
      let (ret, st1) :=
        if peek st0 = CARET then regnode ANYBUT (adv st0)
        else regnode ANYOF st0
      let (prev0, st2) :=
        if peek st1 = RSQBRAC ∨ peek st1 = 45 then (peek st1, regc (peek st1) (adv st1))
        else (0, st1)
      match classLoop fuel prev0 st2 with
      | .error e => .error e
      | .ok st3 =>
        let st4 := regc 0 st3
        if peek st4 ≠ RSQBRAC then .error .unmatchedBracket
        else .ok (ret, ⟨true, true, false⟩, adv st4)
    else if t = LBRAC then
      match reg fuel true st0 with
      | .error e => .error e
      | .ok (ret, flags, st1) => .ok (ret, ⟨flags.hasWidth, false, flags.spstart⟩, st1)
    else if t = 0 ∨ t = OR_OP ∨ t = RBRAC then .error .internalUrp
    else if t = ASTERIX then .error .starFollowsNothing
    else if t = PLUSS then .error .plusFollowsNothing
    else if t = QMARK then .error .qmarkFollowsNothing
    else
      -- a run of ordinary characters (regparse was not advanced: work on st)
      let len0 := (st.tokens.takeWhile
        (fun tk => tk ≠ 0 && Nat.land tk SPECIAL = 0 && tk ≠ RSQBRAC)).length
      if len0 = 0 then .error .unexpectedBracket
      else
        let ender := st.tokens.getD len0 0
        let len := if len0 > 1 && ISMULT ender then len0 - 1 else len0
        let (ret, st1) := regnode EXACTLY st
        let st2 := emitRun len st1
        .ok (ret, ⟨true, len = 1, false⟩, regc 0 st2)

/-- The class-body loop of regatom.  `prev` is the token the loop (or the
leading literal `]`/`-` special case) consumed last, which is what the C
code reads back through `*(regparse - 2)` when a range dash appears. -/
def classLoop : Nat → Nat → CompSt → Except RegError CompSt
  | 0, _, _ => .error .fuelExhausted
  | fuel + 1, prev, st =>
    let t := peek st
    if t = 0 ∨ t = RSQBRAC then .ok st
    else if t = 45 then
      let st1 := adv st
      let t2 := peek st1
      if t2 = RSQBRAC ∨ t2 = 0 then classLoop fuel 45 (regc 45 st1)
      else
        let classs := Nat.land prev 255 + 1
        let classend := Nat.land t2 255
        if classs > classend + 1 then .error .invalidRange
        else classLoop fuel t2 (adv (emitRange classs (classend + 1 - classs) st1))
    else classLoop fuel t (regc t (adv st))

end

/-! ## regcomp: the two passes and the optimization hints -/

/-- Parser fuel: generous linear bound in the token count (every
recursive call and loop iteration consumes at least one unit, and the
grammar touches each token a bounded number of times). -/
def parseFuel (tokens : List Nat) : Nat := 8 * tokens.length + 16

/-- First pass of regcomp: determine size and legality, code generation
turned off (`regcode = &regdummy`), starting with the MAGIC byte. -/
def pass1 (tokens : List Nat) : Except RegError CompSt :=
  match reg (parseFuel tokens) false (regc MAGIC ⟨tokens, 1, false, 0, []⟩) with
  | .error e => .error e
  | .ok (_, _, st) => .ok st

/-- Second pass of regcomp: emit code for real into a fresh buffer,
starting with the MAGIC byte.  The top-level flags are kept for the
optimization extraction. -/
def pass2 (tokens : List Nat) : Except RegError (Flags × CompSt) :=
  match reg (parseFuel tokens) false (regc MAGIC ⟨tokens, 1, true, 0, []⟩) with
  | .error e => .error e
  | .ok (_, flags, st) => .ok (flags, st)

/-- The regmust search loop of regcomp: walk the top-level chain and keep
the longest EXACTLY literal (ties resolved in favor of later strings via
`>=`).  Returns the operand offset and its length. -/
def mustLoop (prog : List Nat) : Nat → Option Nat → Option Nat → Nat → Option Nat × Nat
  | 0, _, longest, len => (longest, len)
  | fuel + 1, scan?, longest, len =>
    match scan? with
    | none => (longest, len)
    | some scan =>
      let tlen := (strFrom prog (OPERAND scan)).length
      let (longest', len') :=
        if OP prog scan = EXACTLY && decide (tlen ≥ len) then (some (OPERAND scan), tlen)
        else (longest, len)
      mustLoop prog fuel (regnext prog scan) longest' len'

/-- regcomp - compile a regular expression: preprocess, size-and-check
pass, size limit, emission pass, then dig out `regstart`/`reganch`/
`regmust` exactly as the source does.  A failing first pass returns
before any program buffer exists. -/
def regcomp (pattern : List Nat) (excompat : Bool) : Except RegError Regexp :=
  match preprocess excompat pattern with
  | .error e => .error e
  | .ok tokens =>
    match pass1 tokens with
    | .error e => .error e
    | .ok st1 =>
      if st1.regsize ≥ 32767 then .error .regexpTooBig
      else
        match pass2 tokens with
        | .error e => .error e
        | .ok (flags, st2) =>
          let prog := st2.buf
          let base : Regexp := ⟨prog, 0, false, none, 0⟩
          match regnext prog 1 with
          | none => .ok base  -- C would read OP(NULL); unreachable after a successful pass
          | some n =>
            if OP prog n ≠ ENDOP then .ok base  -- more than one top-level choice
            else
              let scan := OPERAND 1
              let r1 :=
                if OP prog scan = EXACTLY then
                  { base with regstart := byteAt prog (OPERAND scan) }
                else if OP prog scan = BOL then { base with reganch := true }
                else base
              if flags.spstart then
                let (longest, len) := mustLoop prog (prog.length + 1) (some scan) none 0
                .ok { r1 with regmust := longest.map (strFrom prog), regmlen := len }
              else .ok r1

/-! ## regsub - substitutions after a match -/

/-- Substitution-time errors of regsub. -/
inductive SubError where
  | nullParm      -- "NULL parm to regsub"
  | damagedProg   -- "damaged regexp fed to regsub"
  | lineTooLong   -- "line too long"
  | damagedMatch  -- "damaged match string"
deriving Repr, DecidableEq

/-- The copying loop of regsub over the template `source`.  `dst` is what
has been written so far, `n` the remaining byte budget; a failure carries
the partially-written destination (C leaves those bytes in the caller's
buffer and returns NULL).  Capture text is copied out of the subject;
the `strncmp`-style NUL check on the copied bytes is the
"damaged match string" test. -/
def regsubLoop (sub : List Nat) (startp endp : List (Option Nat)) :
    List Nat → Nat → List Nat → Except (SubError × List Nat) (List Nat)
  | [], n, dst =>
    -- the final terminator also costs one byte of budget
    if n = 0 then .error (.lineTooLong, dst) else .ok (dst ++ [0])
  | 38 :: src, n, dst =>
    -- '&' expands the whole match (slot 0); unset slots expand to nothing
    match startp.getD 0 none, endp.getD 0 none with
    | some sp, some ep =>
      let len := ep - sp
      if len > n then .error (.lineTooLong, dst)
      else
        let dst' := dst ++ (sub.drop sp).take len
        if len ≠ 0 && dst'.getLastD 0 = 0 then .error (.damagedMatch, dst')
        else regsubLoop sub startp endp src (n - len) dst'
    | _, _ => regsubLoop sub startp endp src n dst
  | [92], n, dst =>
    -- next is the terminator: the backslash is an ordinary character
    if n = 0 then .error (.lineTooLong, dst)
    else regsubLoop sub startp endp [] (n - 1) (dst ++ [92])
  | 92 :: d :: src2, n, dst =>
    if 48 ≤ d && d ≤ 57 then
      -- a digit escape expands the corresponding capture group
      match startp.getD (d - 48) none, endp.getD (d - 48) none with
      | some sp, some ep =>
        let len := ep - sp
        if len > n then .error (.lineTooLong, dst)
        else
          let dst' := dst ++ (sub.drop sp).take len
          if len ≠ 0 && dst'.getLastD 0 = 0 then .error (.damagedMatch, dst')
          else regsubLoop sub startp endp src2 (n - len) dst'
      | _, _ => regsubLoop sub startp endp src2 n dst
    else if d = 92 || d = 38 then
      -- backslash-escaped backslash or ampersand: copy the escaped byte
      if n = 0 then .error (.lineTooLong, dst)
      else regsubLoop sub startp endp src2 (n - 1) (dst ++ [d])
    else
      if n = 0 then .error (.lineTooLong, dst)
      else regsubLoop sub startp endp (d :: src2) (n - 1) (dst ++ [92])
  | c :: src, n, dst =>
    if c = 0 then
      if n = 0 then .error (.lineTooLong, dst) else .ok (dst ++ [0])
    else
      if n = 0 then .error (.lineTooLong, dst)
      else regsubLoop sub startp endp src (n - 1) (dst ++ [c])

/-- regsub - perform substitutions after a regexp match.  `prog` carries
the program (for the MAGIC check); the capture tables and the subject
they point into are passed explicitly (they are `prog->startp/endp` in
C).  On success the written bytes (including the final NUL) are
returned. -/
def regsub (prog : Regexp) (sub : List Nat) (startp endp : List (Option Nat))
    (source : List Nat) (n : Nat) : Except (SubError × List Nat) (List Nat) :=
  if byteAt prog.program 0 ≠ MAGIC then .error (.damagedProg, [])
  else regsubLoop sub startp endp source n []

/-! ## One-step characterizations of regmatch, per opcode

Each lemma restates what one iteration of the regmatch loop does at a node
of the given opcode; they are proved by discharging the dispatch chain of
the definition, and every later proof goes through them. -/

section StepLemmas

variable {prog sub : List Nat} {pc : Nat} {f : Nat} {s : MState}

theorem step_BOL (h : OP prog pc = BOL) :
    regmatch prog sub (f + 1) (some pc) s =
      if s.input ≠ 0 then some (false, s) else regmatch prog sub f (regnext prog pc) s := by
  rw [regmatch.eq_3, if_pos h]

theorem step_EOL (h : OP prog pc = EOL) :
    regmatch prog sub (f + 1) (some pc) s =
      if byteAt sub s.input ≠ 0 then some (false, s)
      else regmatch prog sub f (regnext prog pc) s := by
  have h1 : ¬(OP prog pc = BOL) := by rw [h]; decide
  rw [regmatch.eq_3, if_neg h1, if_pos h]

theorem step_ANY (h : OP prog pc = ANY) :
    regmatch prog sub (f + 1) (some pc) s =
      if byteAt sub s.input = 0 then some (false, s)
      else regmatch prog sub f (regnext prog pc) { s with input := s.input + 1 } := by
  have h1 : ¬(OP prog pc = BOL) := by rw [h]; decide
  have h2 : ¬(OP prog pc = EOL) := by rw [h]; decide
  rw [regmatch.eq_3, if_neg h1, if_neg h2, if_pos h]

theorem step_WORDSTART (h : OP prog pc = WORDSTART) :
    regmatch prog sub (f + 1) (some pc) s =
      if s.input = 0 then regmatch prog sub f (regnext prog pc) s
      else if byteAt sub s.input = 0 || ISWORDPART (byteAt sub (s.input - 1)) ||
              !ISWORDPART (byteAt sub s.input) then some (false, s)
      else regmatch prog sub f (regnext prog pc) s := by
  have h1 : ¬(OP prog pc = BOL) := by rw [h]; decide
  have h2 : ¬(OP prog pc = EOL) := by rw [h]; decide
  have h3 : ¬(OP prog pc = ANY) := by rw [h]; decide
  rw [regmatch.eq_3, if_neg h1, if_neg h2, if_neg h3, if_pos h]

theorem step_WORDEND (h : OP prog pc = WORDEND) :
    regmatch prog sub (f + 1) (some pc) s =
      if byteAt sub s.input = 0 then regmatch prog sub f (regnext prog pc) s
      else if s.input = 0 || !ISWORDPART (byteAt sub (s.input - 1)) ||
              ISWORDPART (byteAt sub s.input) then some (false, s)
      else regmatch prog sub f (regnext prog pc) s := by
  have h1 : ¬(OP prog pc = BOL) := by rw [h]; decide
  have h2 : ¬(OP prog pc = EOL) := by rw [h]; decide
  have h3 : ¬(OP prog pc = ANY) := by rw [h]; decide
  have h4 : ¬(OP prog pc = WORDSTART) := by rw [h]; decide
  rw [regmatch.eq_3, if_neg h1, if_neg h2, if_neg h3, if_neg h4, if_pos h]

theorem step_EXACTLY (h : OP prog pc = EXACTLY) :
    regmatch prog sub (f + 1) (some pc) s =
      (if byteAt prog (OPERAND pc) ≠ byteAt sub s.input then some (false, s)
       else if (strFrom prog (OPERAND pc)).length > 1 &&
               !matchesAt (strFrom prog (OPERAND pc)) sub s.input then some (false, s)
       else regmatch prog sub f (regnext prog pc)
              { s with input := s.input + (strFrom prog (OPERAND pc)).length }) := by
  have h1 : ¬(OP prog pc = BOL) := by rw [h]; decide
  have h2 : ¬(OP prog pc = EOL) := by rw [h]; decide
  have h3 : ¬(OP prog pc = ANY) := by rw [h]; decide
  have h4 : ¬(OP prog pc = WORDSTART) := by rw [h]; decide
  have h5 : ¬(OP prog pc = WORDEND) := by rw [h]; decide
  rw [regmatch.eq_3, if_neg h1, if_neg h2, if_neg h3, if_neg h4, if_neg h5, if_pos h]

theorem step_ANYOF (h : OP prog pc = ANYOF) :
    regmatch prog sub (f + 1) (some pc) s =
      if byteAt sub s.input = 0 || !(strFrom prog (OPERAND pc)).contains (byteAt sub s.input)
      then some (false, s)
      else regmatch prog sub f (regnext prog pc) { s with input := s.input + 1 } := by
  have h1 : ¬(OP prog pc = BOL) := by rw [h]; decide
  have h2 : ¬(OP prog pc = EOL) := by rw [h]; decide
  have h3 : ¬(OP prog pc = ANY) := by rw [h]; decide
  have h4 : ¬(OP prog pc = WORDSTART) := by rw [h]; decide
  have h5 : ¬(OP prog pc = WORDEND) := by rw [h]; decide
  have h6 : ¬(OP prog pc = EXACTLY) := by rw [h]; decide
  rw [regmatch.eq_3, if_neg h1, if_neg h2, if_neg h3, if_neg h4, if_neg h5, if_neg h6, if_pos h]

theorem step_ANYBUT (h : OP prog pc = ANYBUT) :
    regmatch prog sub (f + 1) (some pc) s =
      if byteAt sub s.input = 0 || (strFrom prog (OPERAND pc)).contains (byteAt sub s.input)
      then some (false, s)
      else regmatch prog sub f (regnext prog pc) { s with input := s.input + 1 } := by
  have h1 : ¬(OP prog pc = BOL) := by rw [h]; decide
  have h2 : ¬(OP prog pc = EOL) := by rw [h]; decide
  have h3 : ¬(OP prog pc = ANY) := by rw [h]; decide
  have h4 : ¬(OP prog pc = WORDSTART) := by rw [h]; decide
  have h5 : ¬(OP prog pc = WORDEND) := by rw [h]; decide
  have h6 : ¬(OP prog pc = EXACTLY) := by rw [h]; decide
  have h7 : ¬(OP prog pc = ANYOF) := by rw [h]; decide
  rw [regmatch.eq_3, if_neg h1, if_neg h2, if_neg h3, if_neg h4, if_neg h5, if_neg h6,
    if_neg h7, if_pos h]

theorem step_NOTHING (h : OP prog pc = NOTHING) :
    regmatch prog sub (f + 1) (some pc) s = regmatch prog sub f (regnext prog pc) s := by
  have h1 : ¬(OP prog pc = BOL) := by rw [h]; decide
  have h2 : ¬(OP prog pc = EOL) := by rw [h]; decide
  have h3 : ¬(OP prog pc = ANY) := by rw [h]; decide
  have h4 : ¬(OP prog pc = WORDSTART) := by rw [h]; decide
  have h5 : ¬(OP prog pc = WORDEND) := by rw [h]; decide
  have h6 : ¬(OP prog pc = EXACTLY) := by rw [h]; decide
  have h7 : ¬(OP prog pc = ANYOF) := by rw [h]; decide
  have h8 : ¬(OP prog pc = ANYBUT) := by rw [h]; decide
  rw [regmatch.eq_3, if_neg h1, if_neg h2, if_neg h3, if_neg h4, if_neg h5, if_neg h6,
    if_neg h7, if_neg h8, if_pos h]

theorem step_BACK (h : OP prog pc = BACK) :
    regmatch prog sub (f + 1) (some pc) s = regmatch prog sub f (regnext prog pc) s := by
  have h1 : ¬(OP prog pc = BOL) := by rw [h]; decide
  have h2 : ¬(OP prog pc = EOL) := by rw [h]; decide
  have h3 : ¬(OP prog pc = ANY) := by rw [h]; decide
  have h4 : ¬(OP prog pc = WORDSTART) := by rw [h]; decide
  have h5 : ¬(OP prog pc = WORDEND) := by rw [h]; decide
  have h6 : ¬(OP prog pc = EXACTLY) := by rw [h]; decide
  have h7 : ¬(OP prog pc = ANYOF) := by rw [h]; decide
  have h8 : ¬(OP prog pc = ANYBUT) := by rw [h]; decide
  have h9 : ¬(OP prog pc = NOTHING) := by rw [h]; decide
  rw [regmatch.eq_3, if_neg h1, if_neg h2, if_neg h3, if_neg h4, if_neg h5, if_neg h6,
    if_neg h7, if_neg h8, if_neg h9, if_pos h]

theorem step_OPEN (hlo : OPEN + 1 ≤ OP prog pc) (hhi : OP prog pc ≤ OPEN + 9) :
    regmatch prog sub (f + 1) (some pc) s =
      (match regmatch prog sub f (regnext prog pc) s with
       | none => none
       | some (true, s') =>
         if s'.startp.getD (OP prog pc - OPEN) none = none then
           some (true, { s' with startp := s'.startp.set (OP prog pc - OPEN) (some s.input) })
         else some (true, s')
       | some (false, s') => some (false, s')) := by
  have hop : 21 ≤ OP prog pc ∧ OP prog pc ≤ 29 := by
    simpa [OPEN] using And.intro hlo hhi
  have h1 : ¬(OP prog pc = BOL) := by simp [BOL]; omega
  have h2 : ¬(OP prog pc = EOL) := by simp [EOL]; omega
  have h3 : ¬(OP prog pc = ANY) := by simp [ANY]; omega
  have h4 : ¬(OP prog pc = WORDSTART) := by simp [WORDSTART]; omega
  have h5 : ¬(OP prog pc = WORDEND) := by simp [WORDEND]; omega
  have h6 : ¬(OP prog pc = EXACTLY) := by simp [EXACTLY]; omega
  have h7 : ¬(OP prog pc = ANYOF) := by simp [ANYOF]; omega
  have h8 : ¬(OP prog pc = ANYBUT) := by simp [ANYBUT]; omega
  have h9 : ¬(OP prog pc = NOTHING) := by simp [NOTHING]; omega
  have h10 : ¬(OP prog pc = BACK) := by simp [BACK]; omega
  rw [regmatch.eq_3, if_neg h1, if_neg h2, if_neg h3, if_neg h4, if_neg h5, if_neg h6,
    if_neg h7, if_neg h8, if_neg h9, if_neg h10, if_pos ⟨hlo, hhi⟩]

theorem step_CLOSE (hlo : CLOSE + 1 ≤ OP prog pc) (hhi : OP prog pc ≤ CLOSE + 9) :
    regmatch prog sub (f + 1) (some pc) s =
      (match regmatch prog sub f (regnext prog pc) s with
       | none => none
       | some (true, s') =>
         if s'.endp.getD (OP prog pc - CLOSE) none = none then
           some (true, { s' with endp := s'.endp.set (OP prog pc - CLOSE) (some s.input) })
         else some (true, s')
       | some (false, s') => some (false, s')) := by
  have hop : 31 ≤ OP prog pc ∧ OP prog pc ≤ 39 := by
    simpa [CLOSE] using And.intro hlo hhi
  have h1 : ¬(OP prog pc = BOL) := by simp [BOL]; omega
  have h2 : ¬(OP prog pc = EOL) := by simp [EOL]; omega
  have h3 : ¬(OP prog pc = ANY) := by simp [ANY]; omega
  have h4 : ¬(OP prog pc = WORDSTART) := by simp [WORDSTART]; omega
  have h5 : ¬(OP prog pc = WORDEND) := by simp [WORDEND]; omega
  have h6 : ¬(OP prog pc = EXACTLY) := by simp [EXACTLY]; omega
  have h7 : ¬(OP prog pc = ANYOF) := by simp [ANYOF]; omega
  have h8 : ¬(OP prog pc = ANYBUT) := by simp [ANYBUT]; omega
  have h9 : ¬(OP prog pc = NOTHING) := by simp [NOTHING]; omega
  have h10 : ¬(OP prog pc = BACK) := by simp [BACK]; omega
  have h11 : ¬(OPEN + 1 ≤ OP prog pc ∧ OP prog pc ≤ OPEN + 9) := by simp [OPEN]; omega
  rw [regmatch.eq_3, if_neg h1, if_neg h2, if_neg h3, if_neg h4, if_neg h5, if_neg h6,
    if_neg h7, if_neg h8, if_neg h9, if_neg h10, if_neg h11, if_pos ⟨hlo, hhi⟩]

theorem step_BRANCH0 (h : OP prog pc = BRANCH) :
    regmatch prog sub (f + 1) (some pc) s =
      (match regnext prog pc with
       | none => some (false, s)
       | some nx =>
         if OP prog nx ≠ BRANCH then regmatch prog sub f (some (OPERAND pc)) s
         else branchLoop prog sub f pc s) := by
  have h1 : ¬(OP prog pc = BOL) := by rw [h]; decide
  have h2 : ¬(OP prog pc = EOL) := by rw [h]; decide
  have h3 : ¬(OP prog pc = ANY) := by rw [h]; decide
  have h4 : ¬(OP prog pc = WORDSTART) := by rw [h]; decide
  have h5 : ¬(OP prog pc = WORDEND) := by rw [h]; decide
  have h6 : ¬(OP prog pc = EXACTLY) := by rw [h]; decide
  have h7 : ¬(OP prog pc = ANYOF) := by rw [h]; decide
  have h8 : ¬(OP prog pc = ANYBUT) := by rw [h]; decide
  have h9 : ¬(OP prog pc = NOTHING) := by rw [h]; decide
  have h10 : ¬(OP prog pc = BACK) := by rw [h]; decide
  have h11 : ¬(OPEN + 1 ≤ OP prog pc ∧ OP prog pc ≤ OPEN + 9) := by rw [h]; decide
  have h12 : ¬(CLOSE + 1 ≤ OP prog pc ∧ OP prog pc ≤ CLOSE + 9) := by rw [h]; decide
  rw [regmatch.eq_3, if_neg h1, if_neg h2, if_neg h3, if_neg h4, if_neg h5, if_neg h6,
    if_neg h7, if_neg h8, if_neg h9, if_neg h10, if_neg h11, if_neg h12, if_pos h]

theorem step_BRANCH_null (h : OP prog pc = BRANCH) (hn : regnext prog pc = none) :
    regmatch prog sub (f + 1) (some pc) s = some (false, s) := by
  rw [step_BRANCH0 h, hn]

theorem step_BRANCH_nochoice {nx : Nat} (h : OP prog pc = BRANCH)
    (hn : regnext prog pc = some nx) (hbr : OP prog nx ≠ BRANCH) :
    regmatch prog sub (f + 1) (some pc) s = regmatch prog sub f (some (OPERAND pc)) s := by
  rw [step_BRANCH0 h, hn]; exact if_pos hbr

theorem step_BRANCH_choice {nx : Nat} (h : OP prog pc = BRANCH)
    (hn : regnext prog pc = some nx) (hbr : OP prog nx = BRANCH) :
    regmatch prog sub (f + 1) (some pc) s = branchLoop prog sub f pc s := by
  rw [step_BRANCH0 h, hn]; exact if_neg (by simpa using hbr)

theorem step_STARPLUS (h : OP prog pc = STAR ∨ OP prog pc = PLUS) :
    regmatch prog sub (f + 1) (some pc) s =
      starLoop prog sub f (regnext prog pc) s.input (if OP prog pc = STAR then 0 else 1)
        (match regnext prog pc with
         | some nx => if OP prog nx = EXACTLY then byteAt prog (OPERAND nx) else 0
         | none => 0)
        (regrepeat prog sub (OPERAND pc) s).1 (regrepeat prog sub (OPERAND pc) s).2 := by
  have h1 : ¬(OP prog pc = BOL) := by rcases h with h | h <;> rw [h] <;> decide
  have h2 : ¬(OP prog pc = EOL) := by rcases h with h | h <;> rw [h] <;> decide
  have h3 : ¬(OP prog pc = ANY) := by rcases h with h | h <;> rw [h] <;> decide
  have h4 : ¬(OP prog pc = WORDSTART) := by rcases h with h | h <;> rw [h] <;> decide
  have h5 : ¬(OP prog pc = WORDEND) := by rcases h with h | h <;> rw [h] <;> decide
  have h6 : ¬(OP prog pc = EXACTLY) := by rcases h with h | h <;> rw [h] <;> decide
  have h7 : ¬(OP prog pc = ANYOF) := by rcases h with h | h <;> rw [h] <;> decide
  have h8 : ¬(OP prog pc = ANYBUT) := by rcases h with h | h <;> rw [h] <;> decide
  have h9 : ¬(OP prog pc = NOTHING) := by rcases h with h | h <;> rw [h] <;> decide
  have h10 : ¬(OP prog pc = BACK) := by rcases h with h | h <;> rw [h] <;> decide
  have h11 : ¬(OPEN + 1 ≤ OP prog pc ∧ OP prog pc ≤ OPEN + 9) := by
    rcases h with h | h <;> rw [h] <;> decide
  have h12 : ¬(CLOSE + 1 ≤ OP prog pc ∧ OP prog pc ≤ CLOSE + 9) := by
    rcases h with h | h <;> rw [h] <;> decide
  have h13 : ¬(OP prog pc = BRANCH) := by rcases h with h | h <;> rw [h] <;> decide
  rw [regmatch.eq_3, if_neg h1, if_neg h2, if_neg h3, if_neg h4, if_neg h5, if_neg h6,
    if_neg h7, if_neg h8, if_neg h9, if_neg h10, if_neg h11, if_neg h12, if_neg h13, if_pos h]

theorem step_END (h : OP prog pc = ENDOP) :
    regmatch prog sub (f + 1) (some pc) s = some (true, s) := by
  have h1 : ¬(OP prog pc = BOL) := by rw [h]; decide
  have h2 : ¬(OP prog pc = EOL) := by rw [h]; decide
  have h3 : ¬(OP prog pc = ANY) := by rw [h]; decide
  have h4 : ¬(OP prog pc = WORDSTART) := by rw [h]; decide
  have h5 : ¬(OP prog pc = WORDEND) := by rw [h]; decide
  have h6 : ¬(OP prog pc = EXACTLY) := by rw [h]; decide
  have h7 : ¬(OP prog pc = ANYOF) := by rw [h]; decide
  have h8 : ¬(OP prog pc = ANYBUT) := by rw [h]; decide
  have h9 : ¬(OP prog pc = NOTHING) := by rw [h]; decide
  have h10 : ¬(OP prog pc = BACK) := by rw [h]; decide
  have h11 : ¬(OPEN + 1 ≤ OP prog pc ∧ OP prog pc ≤ OPEN + 9) := by rw [h]; decide
  have h12 : ¬(CLOSE + 1 ≤ OP prog pc ∧ OP prog pc ≤ CLOSE + 9) := by rw [h]; decide
  have h13 : ¬(OP prog pc = BRANCH) := by rw [h]; decide
  have h14 : ¬(OP prog pc = STAR ∨ OP prog pc = PLUS) := by rw [h]; decide
  rw [regmatch.eq_3, if_neg h1, if_neg h2, if_neg h3, if_neg h4, if_neg h5, if_neg h6,
    if_neg h7, if_neg h8, if_neg h9, if_neg h10, if_neg h11, if_neg h12, if_neg h13,
    if_neg h14, if_pos h]

theorem step_illegal (h1 : ¬(OP prog pc = BOL)) (h2 : ¬(OP prog pc = EOL))
    (h3 : ¬(OP prog pc = ANY)) (h4 : ¬(OP prog pc = WORDSTART))
    (h5 : ¬(OP prog pc = WORDEND)) (h6 : ¬(OP prog pc = EXACTLY))
    (h7 : ¬(OP prog pc = ANYOF)) (h8 : ¬(OP prog pc = ANYBUT))
    (h9 : ¬(OP prog pc = NOTHING)) (h10 : ¬(OP prog pc = BACK))
    (h11 : ¬(OPEN + 1 ≤ OP prog pc ∧ OP prog pc ≤ OPEN + 9))
    (h12 : ¬(CLOSE + 1 ≤ OP prog pc ∧ OP prog pc ≤ CLOSE + 9))
    (h13 : ¬(OP prog pc = BRANCH)) (h14 : ¬(OP prog pc = STAR ∨ OP prog pc = PLUS))
    (h15 : ¬(OP prog pc = ENDOP)) :
    regmatch prog sub (f + 1) (some pc) s = some (false, s) := by
  rw [regmatch.eq_3, if_neg h1, if_neg h2, if_neg h3, if_neg h4, if_neg h5, if_neg h6,
    if_neg h7, if_neg h8, if_neg h9, if_neg h10, if_neg h11, if_neg h12, if_neg h13,
    if_neg h14, if_neg h15]

theorem step_OPEN_fuelout (hlo : OPEN + 1 ≤ OP prog pc) (hhi : OP prog pc ≤ OPEN + 9)
    (hrec : regmatch prog sub f (regnext prog pc) s = none) :
    regmatch prog sub (f + 1) (some pc) s = none := by
  rw [step_OPEN hlo hhi, hrec]

theorem step_OPEN_fail {s' : MState} (hlo : OPEN + 1 ≤ OP prog pc)
    (hhi : OP prog pc ≤ OPEN + 9)
    (hrec : regmatch prog sub f (regnext prog pc) s = some (false, s')) :
    regmatch prog sub (f + 1) (some pc) s = some (false, s') := by
  rw [step_OPEN hlo hhi, hrec]

theorem step_OPEN_succ {s' : MState} (hlo : OPEN + 1 ≤ OP prog pc)
    (hhi : OP prog pc ≤ OPEN + 9)
    (hrec : regmatch prog sub f (regnext prog pc) s = some (true, s')) :
    regmatch prog sub (f + 1) (some pc) s =
      (if s'.startp.getD (OP prog pc - OPEN) none = none then
        some (true, { s' with startp := s'.startp.set (OP prog pc - OPEN) (some s.input) })
      else some (true, s')) := by
  rw [step_OPEN hlo hhi, hrec]

theorem step_CLOSE_fuelout (hlo : CLOSE + 1 ≤ OP prog pc) (hhi : OP prog pc ≤ CLOSE + 9)
    (hrec : regmatch prog sub f (regnext prog pc) s = none) :
    regmatch prog sub (f + 1) (some pc) s = none := by
  rw [step_CLOSE hlo hhi, hrec]

theorem step_CLOSE_fail {s' : MState} (hlo : CLOSE + 1 ≤ OP prog pc)
    (hhi : OP prog pc ≤ CLOSE + 9)
    (hrec : regmatch prog sub f (regnext prog pc) s = some (false, s')) :
    regmatch prog sub (f + 1) (some pc) s = some (false, s') := by
  rw [step_CLOSE hlo hhi, hrec]

theorem step_CLOSE_succ {s' : MState} (hlo : CLOSE + 1 ≤ OP prog pc)
    (hhi : OP prog pc ≤ CLOSE + 9)
    (hrec : regmatch prog sub f (regnext prog pc) s = some (true, s')) :
    regmatch prog sub (f + 1) (some pc) s =
      (if s'.endp.getD (OP prog pc - CLOSE) none = none then
        some (true, { s' with endp := s'.endp.set (OP prog pc - CLOSE) (some s.input) })
      else some (true, s')) := by
  rw [step_CLOSE hlo hhi, hrec]

theorem bl_fuelout (hrec : regmatch prog sub f (some (OPERAND pc)) s = none) :
    branchLoop prog sub (f + 1) pc s = none := by
  simp only [branchLoop, hrec]

theorem bl_succ {s' : MState}
    (hrec : regmatch prog sub f (some (OPERAND pc)) s = some (true, s')) :
    branchLoop prog sub (f + 1) pc s = some (true, s') := by
  simp only [branchLoop, hrec]

theorem bl_fail_null {s' : MState}
    (hrec : regmatch prog sub f (some (OPERAND pc)) s = some (false, s'))
    (hn : regnext prog pc = none) :
    branchLoop prog sub (f + 1) pc s = some (false, { s' with input := s.input }) := by
  simp only [branchLoop, hrec, hn]

theorem bl_fail_next {s' : MState} {p2 : Nat}
    (hrec : regmatch prog sub f (some (OPERAND pc)) s = some (false, s'))
    (hn : regnext prog pc = some p2) (hbr : OP prog p2 = BRANCH) :
    branchLoop prog sub (f + 1) pc s =
      branchLoop prog sub f p2 { s' with input := s.input } := by
  simp only [branchLoop, hrec, hn, hbr, if_true]

theorem bl_fail_stop {s' : MState} {p2 : Nat}
    (hrec : regmatch prog sub f (some (OPERAND pc)) s = some (false, s'))
    (hn : regnext prog pc = some p2) (hbr : ¬(OP prog p2 = BRANCH)) :
    branchLoop prog sub (f + 1) pc s = some (false, { s' with input := s.input }) := by
  simp only [branchLoop, hrec, hn, hbr, if_false]

theorem sl_exit {nxt : Option Nat} {save minimum nextch no : Nat} (hmin : no < minimum) :
    starLoop prog sub (f + 1) nxt save minimum nextch no s = some (false, s) := by
  simp only [starLoop, if_pos hmin]

theorem sl_fuelout {nxt : Option Nat} {save minimum nextch no : Nat}
    (hmin : ¬(no < minimum)) (hch : nextch = 0 ∨ byteAt sub s.input = nextch)
    (hrec : regmatch prog sub f nxt s = none) :
    starLoop prog sub (f + 1) nxt save minimum nextch no s = none := by
  have hch' : (nextch = 0 || byteAt sub s.input = nextch) = true := by
    rcases hch with h | h <;> simp [h]
  simp only [starLoop, if_neg hmin, hch', if_true, hrec]

theorem sl_succ {nxt : Option Nat} {save minimum nextch no : Nat} {s' : MState}
    (hmin : ¬(no < minimum)) (hch : nextch = 0 ∨ byteAt sub s.input = nextch)
    (hrec : regmatch prog sub f nxt s = some (true, s')) :
    starLoop prog sub (f + 1) nxt save minimum nextch no s = some (true, s') := by
  have hch' : (nextch = 0 || byteAt sub s.input = nextch) = true := by
    rcases hch with h | h <;> simp [h]
  simp only [starLoop, if_neg hmin, hch', if_true, hrec]

theorem sl_fail_zero {nxt : Option Nat} {save minimum nextch : Nat} {s' : MState}
    (hmin : ¬(0 < minimum)) (hch : nextch = 0 ∨ byteAt sub s.input = nextch)
    (hrec : regmatch prog sub f nxt s = some (false, s')) :
    starLoop prog sub (f + 1) nxt save minimum nextch 0 s =
      some (false, { s' with input := save - 1 }) := by
  have hch' : (nextch = 0 || byteAt sub s.input = nextch) = true := by
    rcases hch with h | h <;> simp [h]
  simp only [starLoop, if_neg hmin, hch', if_true, hrec]

theorem sl_fail_succ {nxt : Option Nat} {save minimum nextch no' : Nat} {s' : MState}
    (hmin : ¬(no' + 1 < minimum)) (hch : nextch = 0 ∨ byteAt sub s.input = nextch)
    (hrec : regmatch prog sub f nxt s = some (false, s')) :
    starLoop prog sub (f + 1) nxt save minimum nextch (no' + 1) s =
      starLoop prog sub f nxt save minimum nextch no' { s' with input := save + no' } := by
  have hch' : (nextch = 0 || byteAt sub s.input = nextch) = true := by
    rcases hch with h | h <;> simp [h]
  simp only [starLoop, if_neg hmin, hch', if_true, hrec]

theorem sl_skip_zero {nxt : Option Nat} {save minimum nextch : Nat}
    (hmin : ¬(0 < minimum)) (hch : ¬(nextch = 0 ∨ byteAt sub s.input = nextch)) :
    starLoop prog sub (f + 1) nxt save minimum nextch 0 s =
      some (false, { s with input := save - 1 }) := by
  have hch' : (nextch = 0 || byteAt sub s.input = nextch) = false := by
    push_neg at hch; simp [hch.1, hch.2]
  simp only [starLoop, if_neg hmin, hch']
  simp

theorem sl_skip_succ {nxt : Option Nat} {save minimum nextch no' : Nat}
    (hmin : ¬(no' + 1 < minimum)) (hch : ¬(nextch = 0 ∨ byteAt sub s.input = nextch)) :
    starLoop prog sub (f + 1) nxt save minimum nextch (no' + 1) s =
      starLoop prog sub f nxt save minimum nextch no' { s with input := save + no' } := by
  have hch' : (nextch = 0 || byteAt sub s.input = nextch) = false := by
    push_neg at hch; simp [hch.1, hch.2]
  simp only [starLoop, if_neg hmin, hch']
  simp

end StepLemmas

/-! ## Fuel monotonicity of the matcher

A result reached with some fuel is reached with any larger fuel; this lets
theorems talk about one generous fuel value. -/

set_option maxHeartbeats 1000000 in
theorem monoAll (prog sub : List Nat) :
    ∀ g : Nat,
      (∀ f, f ≤ g → ∀ scan s r, regmatch prog sub f scan s = some r →
        regmatch prog sub g scan s = some r) ∧
      (∀ f, f ≤ g → ∀ pc s r, branchLoop prog sub f pc s = some r →
        branchLoop prog sub g pc s = some r) ∧
      (∀ f, f ≤ g → ∀ nxt save minimum nextch no s r,
        starLoop prog sub f nxt save minimum nextch no s = some r →
        starLoop prog sub g nxt save minimum nextch no s = some r) := by
  intro g
  induction g with
  | zero =>
    refine ⟨?_, ?_, ?_⟩ <;> intro f hf
    · intro scan s r hr; interval_cases f; simp [regmatch.eq_1] at hr
    · intro pc s r hr; interval_cases f; simp [branchLoop] at hr
    · intro nxt save minimum nextch no s r hr; interval_cases f; simp [starLoop] at hr
  | succ g ih =>
    obtain ⟨ihm, ihb, ihs⟩ := ih
    refine ⟨?_, ?_, ?_⟩
    · intro f hf scan s r hr
      cases f with
      | zero => simp [regmatch.eq_1] at hr
      | succ f =>
        have hfg : f ≤ g := by omega
        cases scan with
        | none => rw [regmatch.eq_2] at hr ⊢; exact hr
        | some pc =>
          by_cases c1 : OP prog pc = BOL
          · rw [step_BOL c1] at hr ⊢
            split_ifs at hr ⊢
            · exact hr
            · exact ihm f hfg _ _ _ hr
          by_cases c2 : OP prog pc = EOL
          · rw [step_EOL c2] at hr ⊢
            split_ifs at hr ⊢
            · exact hr
            · exact ihm f hfg _ _ _ hr
          by_cases c3 : OP prog pc = ANY
          · rw [step_ANY c3] at hr ⊢
            split_ifs at hr ⊢
            · exact hr
            · exact ihm f hfg _ _ _ hr
          by_cases c4 : OP prog pc = WORDSTART
          · rw [step_WORDSTART c4] at hr ⊢
            split_ifs at hr ⊢
            · exact ihm f hfg _ _ _ hr
            · exact hr
            · exact ihm f hfg _ _ _ hr
          by_cases c5 : OP prog pc = WORDEND
          · rw [step_WORDEND c5] at hr ⊢
            split_ifs at hr ⊢
            · exact ihm f hfg _ _ _ hr
            · exact hr
            · exact ihm f hfg _ _ _ hr
          by_cases c6 : OP prog pc = EXACTLY
          · rw [step_EXACTLY c6] at hr ⊢
            split_ifs at hr ⊢
            · exact hr
            · exact hr
            · exact ihm f hfg _ _ _ hr
          by_cases c7 : OP prog pc = ANYOF
          · rw [step_ANYOF c7] at hr ⊢
            split_ifs at hr ⊢
            · exact hr
            · exact ihm f hfg _ _ _ hr
          by_cases c8 : OP prog pc = ANYBUT
          · rw [step_ANYBUT c8] at hr ⊢
            split_ifs at hr ⊢
            · exact hr
            · exact ihm f hfg _ _ _ hr
          by_cases c9 : OP prog pc = NOTHING
          · rw [step_NOTHING c9] at hr ⊢
            exact ihm f hfg _ _ _ hr
          by_cases c10 : OP prog pc = BACK
          · rw [step_BACK c10] at hr ⊢
            exact ihm f hfg _ _ _ hr
          by_cases c11 : OPEN + 1 ≤ OP prog pc ∧ OP prog pc ≤ OPEN + 9
          · rw [step_OPEN c11.1 c11.2] at hr ⊢
            rcases hrec : regmatch prog sub f (regnext prog pc) s with _ | ⟨b, s'⟩
            · rw [hrec] at hr; simp at hr
            · rw [hrec] at hr; rw [ihm f hfg _ _ _ hrec]; exact hr
          by_cases c12 : CLOSE + 1 ≤ OP prog pc ∧ OP prog pc ≤ CLOSE + 9
          · rw [step_CLOSE c12.1 c12.2] at hr ⊢
            rcases hrec : regmatch prog sub f (regnext prog pc) s with _ | ⟨b, s'⟩
            · rw [hrec] at hr; simp at hr
            · rw [hrec] at hr; rw [ihm f hfg _ _ _ hrec]; exact hr
          by_cases c13 : OP prog pc = BRANCH
          · rcases hnxt : regnext prog pc with _ | nx
            · rw [step_BRANCH_null c13 hnxt] at hr ⊢; exact hr
            · by_cases hbr : OP prog nx = BRANCH
              · rw [step_BRANCH_choice c13 hnxt hbr] at hr ⊢
                exact ihb f hfg _ _ _ hr
              · rw [step_BRANCH_nochoice c13 hnxt hbr] at hr ⊢
                exact ihm f hfg _ _ _ hr
          by_cases c14 : OP prog pc = STAR ∨ OP prog pc = PLUS
          · rw [step_STARPLUS c14] at hr ⊢
            exact ihs f hfg _ _ _ _ _ _ _ hr
          by_cases c15 : OP prog pc = ENDOP
          · rw [step_END c15] at hr ⊢; exact hr
          · rw [step_illegal c1 c2 c3 c4 c5 c6 c7 c8 c9 c10 c11 c12 c13 c14 c15] at hr ⊢
            exact hr
    · intro f hf pc s r hr
      cases f with
      | zero => simp [branchLoop] at hr
      | succ f =>
        have hfg : f ≤ g := by omega
        rcases hrec : regmatch prog sub f (some (OPERAND pc)) s with _ | ⟨b, s'⟩
        · rw [bl_fuelout hrec] at hr; simp at hr
        · have hrec' := ihm f hfg _ _ _ hrec
          cases b
          · rcases hnxt : regnext prog pc with _ | p2
            · rw [bl_fail_null hrec hnxt] at hr
              rw [bl_fail_null hrec' hnxt]
              exact hr
            · by_cases hbr : OP prog p2 = BRANCH
              · rw [bl_fail_next hrec hnxt hbr] at hr
                rw [bl_fail_next hrec' hnxt hbr]
                exact ihb f hfg _ _ _ hr
              · rw [bl_fail_stop hrec hnxt hbr] at hr
                rw [bl_fail_stop hrec' hnxt hbr]
                exact hr
          · rw [bl_succ hrec] at hr
            rw [bl_succ hrec']
            exact hr
    · intro f hf nxt save minimum nextch no s r hr
      cases f with
      | zero => simp [starLoop] at hr
      | succ f =>
        have hfg : f ≤ g := by omega
        by_cases hmin : no < minimum
        · rw [sl_exit hmin] at hr; rw [sl_exit hmin]; exact hr
        · by_cases hch : nextch = 0 ∨ byteAt sub s.input = nextch
          · rcases hrec : regmatch prog sub f nxt s with _ | ⟨b, s'⟩
            · rw [sl_fuelout hmin hch hrec] at hr; simp at hr
            · have hrec' := ihm f hfg _ _ _ hrec
              cases b
              · cases no with
                | zero =>
                  rw [sl_fail_zero hmin hch hrec] at hr
                  rw [sl_fail_zero hmin hch hrec']
                  exact hr
                | succ no' =>
                  rw [sl_fail_succ hmin hch hrec] at hr
                  rw [sl_fail_succ hmin hch hrec']
                  exact ihs f hfg _ _ _ _ _ _ _ hr
              · rw [sl_succ hmin hch hrec] at hr
                rw [sl_succ hmin hch hrec']
                exact hr
          · cases no with
            | zero =>
              rw [sl_skip_zero hmin hch] at hr
              rw [sl_skip_zero hmin hch]
              exact hr
            | succ no' =>
              rw [sl_skip_succ hmin hch] at hr
              rw [sl_skip_succ hmin hch]
              exact ihs f hfg _ _ _ _ _ _ _ hr

/-- Fuel monotonicity of regmatch. -/
theorem regmatch_mono {prog sub : List Nat} {f g : Nat} (hfg : f ≤ g)
    {scan : Option Nat} {s : MState} {r : Bool × MState}
    (h : regmatch prog sub f scan s = some r) :
    regmatch prog sub g scan s = some r :=
  (monoAll prog sub g).1 f hfg scan s r h

/-! ## A failing match never writes a capture slot

The only writes to `startp`/`endp` happen in the OPEN/CLOSE cases after the
recursive attempt succeeded, and success propagates unconditionally to the
top; so a regmatch invocation that returns 0 leaves both tables exactly as
it found them. -/

theorem failCapsAll (prog sub : List Nat) :
    ∀ f : Nat,
      (∀ scan s s', regmatch prog sub f scan s = some (false, s') →
        s'.startp = s.startp ∧ s'.endp = s.endp) ∧
      (∀ pc s s', branchLoop prog sub f pc s = some (false, s') →
        s'.startp = s.startp ∧ s'.endp = s.endp) ∧
      (∀ nxt save minimum nextch no s s',
        starLoop prog sub f nxt save minimum nextch no s = some (false, s') →
        s'.startp = s.startp ∧ s'.endp = s.endp) := by
  intro f
  induction f with
  | zero =>
    refine ⟨?_, ?_, ?_⟩
    · intro scan s s' hr; simp [regmatch.eq_1] at hr
    · intro pc s s' hr; simp [branchLoop] at hr
    · intro nxt save minimum nextch no s s' hr; simp [starLoop] at hr
  | succ f ih =>
    obtain ⟨ihm, ihb, ihs⟩ := ih
    have heq : ∀ s s' : MState, some ((false : Bool), s) = some (false, s') →
        s'.startp = s.startp ∧ s'.endp = s.endp := by
      intro s s' h
      simp only [Option.some.injEq, Prod.mk.injEq] at h
      rw [← h.2]; exact ⟨rfl, rfl⟩
    refine ⟨?_, ?_, ?_⟩
    · intro scan s s' hr
      cases scan with
      | none => exact heq s s' hr
      | some pc =>
        by_cases c1 : OP prog pc = BOL
        · rw [step_BOL c1] at hr
          split_ifs at hr
          · exact heq s s' hr
          · exact ihm _ _ _ hr
        by_cases c2 : OP prog pc = EOL
        · rw [step_EOL c2] at hr
          split_ifs at hr
          · exact heq s s' hr
          · exact ihm _ _ _ hr
        by_cases c3 : OP prog pc = ANY
        · rw [step_ANY c3] at hr
          split_ifs at hr
          · exact heq s s' hr
          · simpa using ihm _ _ _ hr
        by_cases c4 : OP prog pc = WORDSTART
        · rw [step_WORDSTART c4] at hr
          split_ifs at hr
          · exact ihm _ _ _ hr
          · exact heq s s' hr
          · exact ihm _ _ _ hr
        by_cases c5 : OP prog pc = WORDEND
        · rw [step_WORDEND c5] at hr
          split_ifs at hr
          · exact ihm _ _ _ hr
          · exact heq s s' hr
          · exact ihm _ _ _ hr
        by_cases c6 : OP prog pc = EXACTLY
        · rw [step_EXACTLY c6] at hr
          split_ifs at hr
          · exact heq s s' hr
          · exact heq s s' hr
          · simpa using ihm _ _ _ hr
        by_cases c7 : OP prog pc = ANYOF
        · rw [step_ANYOF c7] at hr
          split_ifs at hr
          · exact heq s s' hr
          · simpa using ihm _ _ _ hr
        by_cases c8 : OP prog pc = ANYBUT
        · rw [step_ANYBUT c8] at hr
          split_ifs at hr
          · exact heq s s' hr
          · simpa using ihm _ _ _ hr
        by_cases c9 : OP prog pc = NOTHING
        · rw [step_NOTHING c9] at hr; exact ihm _ _ _ hr
        by_cases c10 : OP prog pc = BACK
        · rw [step_BACK c10] at hr; exact ihm _ _ _ hr
        by_cases c11 : OPEN + 1 ≤ OP prog pc ∧ OP prog pc ≤ OPEN + 9
        · rcases hrec : regmatch prog sub f (regnext prog pc) s with _ | ⟨b, t⟩
          · rw [step_OPEN_fuelout c11.1 c11.2 hrec] at hr; simp at hr
          · cases b
            · rw [step_OPEN_fail c11.1 c11.2 hrec] at hr
              obtain ⟨h1, h2⟩ := ihm _ _ _ hrec
              obtain ⟨h3, h4⟩ := heq t s' hr
              exact ⟨h3.trans h1, h4.trans h2⟩
            · rw [step_OPEN_succ c11.1 c11.2 hrec] at hr
              split_ifs at hr <;> simp at hr
        by_cases c12 : CLOSE + 1 ≤ OP prog pc ∧ OP prog pc ≤ CLOSE + 9
        · rcases hrec : regmatch prog sub f (regnext prog pc) s with _ | ⟨b, t⟩
          · rw [step_CLOSE_fuelout c12.1 c12.2 hrec] at hr; simp at hr
          · cases b
            · rw [step_CLOSE_fail c12.1 c12.2 hrec] at hr
              obtain ⟨h1, h2⟩ := ihm _ _ _ hrec
              obtain ⟨h3, h4⟩ := heq t s' hr
              exact ⟨h3.trans h1, h4.trans h2⟩
            · rw [step_CLOSE_succ c12.1 c12.2 hrec] at hr
              split_ifs at hr <;> simp at hr
        by_cases c13 : OP prog pc = BRANCH
        · rcases hnxt : regnext prog pc with _ | nx
          · rw [step_BRANCH_null c13 hnxt] at hr; exact heq s s' hr
          · by_cases hbr : OP prog nx = BRANCH
            · rw [step_BRANCH_choice c13 hnxt hbr] at hr; exact ihb _ _ _ hr
            · rw [step_BRANCH_nochoice c13 hnxt hbr] at hr; exact ihm _ _ _ hr
        by_cases c14 : OP prog pc = STAR ∨ OP prog pc = PLUS
        · rw [step_STARPLUS c14] at hr
          have hcaps : ((regrepeat prog sub (OPERAND pc) s).2).startp = s.startp ∧
              ((regrepeat prog sub (OPERAND pc) s).2).endp = s.endp := by
            simp [regrepeat]
          obtain ⟨h1, h2⟩ := ihs _ _ _ _ _ _ _ hr
          exact ⟨h1.trans hcaps.1, h2.trans hcaps.2⟩
        by_cases c15 : OP prog pc = ENDOP
        · rw [step_END c15] at hr; simp at hr
        · rw [step_illegal c1 c2 c3 c4 c5 c6 c7 c8 c9 c10 c11 c12 c13 c14 c15] at hr
          exact heq s s' hr
    · intro pc s s' hr
      rcases hrec : regmatch prog sub f (some (OPERAND pc)) s with _ | ⟨b, t⟩
      · rw [bl_fuelout hrec] at hr; simp at hr
      · cases b
        · obtain ⟨h1, h2⟩ := ihm _ _ _ hrec
          rcases hnxt : regnext prog pc with _ | p2
          · rw [bl_fail_null hrec hnxt] at hr
            obtain ⟨h3, h4⟩ := heq _ s' hr
            exact ⟨h3.trans h1, h4.trans h2⟩
          · by_cases hbr : OP prog p2 = BRANCH
            · rw [bl_fail_next hrec hnxt hbr] at hr
              obtain ⟨h3, h4⟩ := ihb _ _ _ hr
              exact ⟨h3.trans h1, h4.trans h2⟩
            · rw [bl_fail_stop hrec hnxt hbr] at hr
              obtain ⟨h3, h4⟩ := heq _ s' hr
              exact ⟨h3.trans h1, h4.trans h2⟩
        · rw [bl_succ hrec] at hr; simp at hr
    · intro nxt save minimum nextch no s s' hr
      by_cases hmin : no < minimum
      · rw [sl_exit hmin] at hr; exact heq s s' hr
      · by_cases hch : nextch = 0 ∨ byteAt sub s.input = nextch
        · rcases hrec : regmatch prog sub f nxt s with _ | ⟨b, t⟩
          · rw [sl_fuelout hmin hch hrec] at hr; simp at hr
          · cases b
            · obtain ⟨h1, h2⟩ := ihm _ _ _ hrec
              cases no with
              | zero =>
                rw [sl_fail_zero hmin hch hrec] at hr
                obtain ⟨h3, h4⟩ := heq _ s' hr
                exact ⟨h3.trans h1, h4.trans h2⟩
              | succ no' =>
                rw [sl_fail_succ hmin hch hrec] at hr
                obtain ⟨h3, h4⟩ := ihs _ _ _ _ _ _ _ hr
                exact ⟨h3.trans h1, h4.trans h2⟩
            · rw [sl_succ hmin hch hrec] at hr; simp at hr
        · cases no with
          | zero =>
            rw [sl_skip_zero hmin hch] at hr
            simpa using heq _ s' hr
          | succ no' =>
            rw [sl_skip_succ hmin hch] at hr
            simpa using ihs _ _ _ _ _ _ _ hr

/-- Every regmatch outcome preserves the lengths of the capture tables
(the only writes are `List.set`). -/
theorem lensAll (prog sub : List Nat) :
    ∀ f : Nat,
      (∀ scan s b s', regmatch prog sub f scan s = some (b, s') →
        s'.startp.length = s.startp.length ∧ s'.endp.length = s.endp.length) ∧
      (∀ pc s b s', branchLoop prog sub f pc s = some (b, s') →
        s'.startp.length = s.startp.length ∧ s'.endp.length = s.endp.length) ∧
      (∀ nxt save minimum nextch no s b s',
        starLoop prog sub f nxt save minimum nextch no s = some (b, s') →
        s'.startp.length = s.startp.length ∧ s'.endp.length = s.endp.length) := by
  intro f
  induction f with
  | zero =>
    refine ⟨?_, ?_, ?_⟩
    · intro scan s b s' hr; simp [regmatch.eq_1] at hr
    · intro pc s b s' hr; simp [branchLoop] at hr
    · intro nxt save minimum nextch no s b s' hr; simp [starLoop] at hr
  | succ f ih =>
    obtain ⟨ihm, ihb, ihs⟩ := ih
    have heq : ∀ (s : MState) (b b' : Bool) (s' : MState),
        some (b', s) = some (b, s') →
        s'.startp.length = s.startp.length ∧ s'.endp.length = s.endp.length := by
      intro s b b' s' h
      simp only [Option.some.injEq, Prod.mk.injEq] at h
      rw [← h.2]; exact ⟨rfl, rfl⟩
    refine ⟨?_, ?_, ?_⟩
    · intro scan s b s' hr
      cases scan with
      | none => exact heq s b _ s' hr
      | some pc =>
        by_cases c1 : OP prog pc = BOL
        · rw [step_BOL c1] at hr
          split_ifs at hr
          · exact heq s b _ s' hr
          · exact ihm _ _ _ _ hr
        by_cases c2 : OP prog pc = EOL
        · rw [step_EOL c2] at hr
          split_ifs at hr
          · exact heq s b _ s' hr
          · exact ihm _ _ _ _ hr
        by_cases c3 : OP prog pc = ANY
        · rw [step_ANY c3] at hr
          split_ifs at hr
          · exact heq s b _ s' hr
          · simpa using ihm _ _ _ _ hr
        by_cases c4 : OP prog pc = WORDSTART
        · rw [step_WORDSTART c4] at hr
          split_ifs at hr
          · exact ihm _ _ _ _ hr
          · exact heq s b _ s' hr
          · exact ihm _ _ _ _ hr
        by_cases c5 : OP prog pc = WORDEND
        · rw [step_WORDEND c5] at hr
          split_ifs at hr
          · exact ihm _ _ _ _ hr
          · exact heq s b _ s' hr
          · exact ihm _ _ _ _ hr
        by_cases c6 : OP prog pc = EXACTLY
        · rw [step_EXACTLY c6] at hr
          split_ifs at hr
          · exact heq s b _ s' hr
          · exact heq s b _ s' hr
          · simpa using ihm _ _ _ _ hr
        by_cases c7 : OP prog pc = ANYOF
        · rw [step_ANYOF c7] at hr
          split_ifs at hr
          · exact heq s b _ s' hr
          · simpa using ihm _ _ _ _ hr
        by_cases c8 : OP prog pc = ANYBUT
        · rw [step_ANYBUT c8] at hr
          split_ifs at hr
          · exact heq s b _ s' hr
          · simpa using ihm _ _ _ _ hr
        by_cases c9 : OP prog pc = NOTHING
        · rw [step_NOTHING c9] at hr; exact ihm _ _ _ _ hr
        by_cases c10 : OP prog pc = BACK
        · rw [step_BACK c10] at hr; exact ihm _ _ _ _ hr
        by_cases c11 : OPEN + 1 ≤ OP prog pc ∧ OP prog pc ≤ OPEN + 9
        · rcases hrec : regmatch prog sub f (regnext prog pc) s with _ | ⟨b', t⟩
          · rw [step_OPEN_fuelout c11.1 c11.2 hrec] at hr; simp at hr
          · obtain ⟨h1, h2⟩ := ihm _ _ _ _ hrec
            cases b'
            · rw [step_OPEN_fail c11.1 c11.2 hrec] at hr
              obtain ⟨h3, h4⟩ := heq t b _ s' hr
              exact ⟨h3.trans h1, h4.trans h2⟩
            · rw [step_OPEN_succ c11.1 c11.2 hrec] at hr
              split_ifs at hr
              · obtain ⟨h3, h4⟩ := heq _ b _ s' hr
                refine ⟨h3.trans ?_, h4.trans h2⟩
                simpa using h1
              · obtain ⟨h3, h4⟩ := heq t b _ s' hr
                exact ⟨h3.trans h1, h4.trans h2⟩
        by_cases c12 : CLOSE + 1 ≤ OP prog pc ∧ OP prog pc ≤ CLOSE + 9
        · rcases hrec : regmatch prog sub f (regnext prog pc) s with _ | ⟨b', t⟩
          · rw [step_CLOSE_fuelout c12.1 c12.2 hrec] at hr; simp at hr
          · obtain ⟨h1, h2⟩ := ihm _ _ _ _ hrec
            cases b'
            · rw [step_CLOSE_fail c12.1 c12.2 hrec] at hr
              obtain ⟨h3, h4⟩ := heq t b _ s' hr
              exact ⟨h3.trans h1, h4.trans h2⟩
            · rw [step_CLOSE_succ c12.1 c12.2 hrec] at hr
              split_ifs at hr
              · obtain ⟨h3, h4⟩ := heq _ b _ s' hr
                refine ⟨h3.trans h1, h4.trans ?_⟩
                simpa using h2
              · obtain ⟨h3, h4⟩ := heq t b _ s' hr
                exact ⟨h3.trans h1, h4.trans h2⟩
        by_cases c13 : OP prog pc = BRANCH
        · rcases hnxt : regnext prog pc with _ | nx
          · rw [step_BRANCH_null c13 hnxt] at hr; exact heq s b _ s' hr
          · by_cases hbr : OP prog nx = BRANCH
            · rw [step_BRANCH_choice c13 hnxt hbr] at hr; exact ihb _ _ _ _ hr
            · rw [step_BRANCH_nochoice c13 hnxt hbr] at hr; exact ihm _ _ _ _ hr
        by_cases c14 : OP prog pc = STAR ∨ OP prog pc = PLUS
        · rw [step_STARPLUS c14] at hr
          obtain ⟨h1, h2⟩ := ihs _ _ _ _ _ _ _ _ hr
          simpa [regrepeat] using ⟨h1, h2⟩
        by_cases c15 : OP prog pc = ENDOP
        · rw [step_END c15] at hr; exact heq s b _ s' hr
        · rw [step_illegal c1 c2 c3 c4 c5 c6 c7 c8 c9 c10 c11 c12 c13 c14 c15] at hr
          exact heq s b _ s' hr
    · intro pc s b s' hr
      rcases hrec : regmatch prog sub f (some (OPERAND pc)) s with _ | ⟨b', t⟩
      · rw [bl_fuelout hrec] at hr; simp at hr
      · obtain ⟨h1, h2⟩ := ihm _ _ _ _ hrec
        cases b'
        · rcases hnxt : regnext prog pc with _ | p2
          · rw [bl_fail_null hrec hnxt] at hr
            obtain ⟨h3, h4⟩ := heq _ b _ s' hr
            exact ⟨h3.trans h1, h4.trans h2⟩
          · by_cases hbr : OP prog p2 = BRANCH
            · rw [bl_fail_next hrec hnxt hbr] at hr
              obtain ⟨h3, h4⟩ := ihb _ _ _ _ hr
              exact ⟨h3.trans h1, h4.trans h2⟩
            · rw [bl_fail_stop hrec hnxt hbr] at hr
              obtain ⟨h3, h4⟩ := heq _ b _ s' hr
              exact ⟨h3.trans h1, h4.trans h2⟩
        · rw [bl_succ hrec] at hr
          obtain ⟨h3, h4⟩ := heq t b _ s' hr
          exact ⟨h3.trans h1, h4.trans h2⟩
    · intro nxt save minimum nextch no s b s' hr
      by_cases hmin : no < minimum
      · rw [sl_exit hmin] at hr; exact heq s b _ s' hr
      · by_cases hch : nextch = 0 ∨ byteAt sub s.input = nextch
        · rcases hrec : regmatch prog sub f nxt s with _ | ⟨b', t⟩
          · rw [sl_fuelout hmin hch hrec] at hr; simp at hr
          · obtain ⟨h1, h2⟩ := ihm _ _ _ _ hrec
            cases b'
            · cases no with
              | zero =>
                rw [sl_fail_zero hmin hch hrec] at hr
                obtain ⟨h3, h4⟩ := heq _ b _ s' hr
                exact ⟨h3.trans h1, h4.trans h2⟩
              | succ no' =>
                rw [sl_fail_succ hmin hch hrec] at hr
                obtain ⟨h3, h4⟩ := ihs _ _ _ _ _ _ _ _ hr
                exact ⟨h3.trans h1, h4.trans h2⟩
            · rw [sl_succ hmin hch hrec] at hr
              obtain ⟨h3, h4⟩ := heq t b _ s' hr
              exact ⟨h3.trans h1, h4.trans h2⟩
        · cases no with
          | zero =>
            rw [sl_skip_zero hmin hch] at hr
            simpa using heq _ b _ s' hr
          | succ no' =>
            rw [sl_skip_succ hmin hch] at hr
            simpa using ihs _ _ _ _ _ _ _ _ hr

/-- A failing regmatch leaves both capture tables untouched. -/
theorem regmatch_fail_caps {prog sub : List Nat} {f : Nat} {scan : Option Nat}
    {s s' : MState} (h : regmatch prog sub f scan s = some (false, s')) :
    s'.startp = s.startp ∧ s'.endp = s.endp :=
  (failCapsAll prog sub f).1 scan s s' h

/-! ## Facts about the end of the subject string -/

theorem cstrlen_cons (a : Nat) (l : List Nat) :
    cstrlen (a :: l) = if a = 0 then 0 else cstrlen l + 1 := by
  by_cases ha : a = 0 <;> simp [cstrlen, List.takeWhile_cons, ha]

theorem byteAt_cstrlen (l : List Nat) : byteAt l (cstrlen l) = 0 := by
  induction l with
  | nil => rfl
  | cons a l ih =>
    rw [cstrlen_cons]
    by_cases ha : a = 0
    · simp [ha, byteAt]
    · simpa [byteAt, ha] using ih

theorem byteAt_lt_cstrlen {l : List Nat} {p : Nat} (h : p < cstrlen l) :
    byteAt l p ≠ 0 := by
  induction l generalizing p with
  | nil => simp [cstrlen] at h
  | cons a l ih =>
    rw [cstrlen_cons] at h
    by_cases ha : a = 0
    · rw [if_pos ha] at h; omega
    · rw [if_neg ha] at h
      cases p with
      | zero => simpa [byteAt] using ha
      | succ p => simpa [byteAt] using ih (by omega)

/-! ## The unanchored general scan: leftmost-match -/

/-- Success of a try at position `q` (with the given fuel). -/
def TryOk (prog sub : List Nat) (fuel q : Nat) : Prop :=
  ∃ t, regtry prog sub fuel q = some (true, t)

theorem genLoop_spec (prog sub : List Nat) (fuel : Nat) :
    ∀ b p, cstrlen sub + 1 - p ≤ b → p ≤ cstrlen sub →
    (∀ q, p ≤ q → q ≤ cstrlen sub → (regtry prog sub fuel q).isSome) →
    (∃ q, p ≤ q ∧ q ≤ cstrlen sub ∧
      (∀ q', p ≤ q' → q' < q → ¬TryOk prog sub fuel q') ∧
      ∃ s', regtry prog sub fuel q = some (true, s') ∧
        genLoop prog sub fuel b p = some (true, some s')) ∨
    ((∀ q, p ≤ q → q ≤ cstrlen sub → ¬TryOk prog sub fuel q) ∧
      ∃ s', genLoop prog sub fuel b p = some (false, some s')) := by
  intro b
  induction b with
  | zero => intro p hb hp htry; omega
  | succ b ih =>
    intro p hb hp htry
    have hsome := htry p le_rfl hp
    rcases hres : regtry prog sub fuel p with _ | ⟨bb, s'⟩
    · rw [hres] at hsome; simp at hsome
    · cases bb
      · by_cases hz : byteAt sub p = 0
        · have hplen : p = cstrlen sub := by
            rcases Nat.lt_or_ge p (cstrlen sub) with h | h
            · exact absurd hz (byteAt_lt_cstrlen h)
            · omega
          refine Or.inr ⟨?_, s', ?_⟩
          · intro q hpq hqlen
            have : q = p := by omega
            subst this
            rintro ⟨t, ht⟩
            rw [hres] at ht; simp at ht
          · simp only [genLoop, hres]
            rw [if_pos hz]
        · have hplt : p < cstrlen sub := by
            rcases Nat.lt_or_ge p (cstrlen sub) with h | h
            · exact h
            · have : p = cstrlen sub := by omega
              subst this
              exact absurd (byteAt_cstrlen sub) hz
          have hnot : ¬TryOk prog sub fuel p := by
            rintro ⟨t, ht⟩
            rw [hres] at ht; simp at ht
          rcases ih (p + 1) (by omega) (by omega)
              (fun q hq hql => htry q (by omega) hql) with
            ⟨q, hq1, hq2, hmin, t, htq, hloop⟩ | ⟨hall, t, hloop⟩
          · refine Or.inl ⟨q, by omega, hq2, ?_, t, htq, ?_⟩
            · intro q' hq' hq'q
              rcases Nat.eq_or_lt_of_le hq' with h | h
              · rw [← h]; exact hnot
              · exact hmin q' h hq'q
            · simp only [genLoop, hres]
              rw [if_neg hz]
              exact hloop
          · refine Or.inr ⟨?_, t, ?_⟩
            · intro q hq hql
              rcases Nat.eq_or_lt_of_le hq with h | h
              · rw [← h]; exact hnot
              · exact hall q h hql
            · simp only [genLoop, hres]
              rw [if_neg hz]
              exact hloop
      · refine Or.inl ⟨p, le_rfl, hp, by omega, s', hres, ?_⟩
        simp only [genLoop, hres]

theorem getD_set_self {α : Type} (l : List (Option α)) (n : Nat) (v : Option α)
    (h : n < l.length) : (l.set n v).getD n none = v := by
  induction l generalizing n with
  | nil => simp at h
  | cons a l ih =>
    cases n with
    | zero => rfl
    | succ n => simpa using ih n (by simpa using h)

/-- A successful regtry records the try position in slot 0 of startp and
the final cursor in slot 0 of endp. -/
theorem regtry_succ_slot0 {prog sub : List Nat} {f pos : Nat} {s' : MState}
    (h : regtry prog sub f pos = some (true, s')) :
    s'.startp.getD 0 none = some pos ∧ s'.endp.getD 0 none = some s'.input := by
  rcases hrec : regmatch prog sub f (some 1)
      ⟨pos, List.replicate NSUBEXP none, List.replicate NSUBEXP none⟩ with _ | ⟨b, t⟩
  · simp only [regtry, hrec] at h; simp at h
  · obtain ⟨hl1, hl2⟩ := (lensAll prog sub f).1 _ _ _ _ hrec
    simp only [List.length_replicate] at hl1 hl2
    cases b
    · simp only [regtry, hrec] at h; simp at h
    · simp only [regtry, hrec, Option.some.injEq, Prod.mk.injEq, true_and] at h
      rw [← h]
      constructor
      · exact getD_set_self _ 0 _ (by rw [hl1]; simp [NSUBEXP])
      · exact getD_set_self _ 0 _ (by rw [hl2]; simp [NSUBEXP])

/-- A failing regtry hands back the fully reset capture tables. -/
theorem regtry_fail_caps {prog sub : List Nat} {f pos : Nat} {s' : MState}
    (h : regtry prog sub f pos = some (false, s')) :
    s'.startp = List.replicate NSUBEXP none ∧ s'.endp = List.replicate NSUBEXP none := by
  rcases hrec : regmatch prog sub f (some 1)
      ⟨pos, List.replicate NSUBEXP none, List.replicate NSUBEXP none⟩ with _ | ⟨b, t⟩
  · simp only [regtry, hrec] at h; simp at h
  · cases b
    · simp only [regtry, hrec, Option.some.injEq, Prod.mk.injEq, true_and] at h
      rw [← h]
      exact regmatch_fail_caps hrec
    · simp only [regtry, hrec] at h; simp at h

/-- When all hints are off, regexec is exactly the general scan. -/
theorem regexec_general (prog : Regexp) (sub : List Nat) (fuel : Nat)
    (hmagic : byteAt prog.program 0 = MAGIC) (hanch : prog.reganch = false)
    (hstart : prog.regstart = 0) (hmust : prog.regmust = none) :
    regexec fuel prog sub = genLoop prog.program sub fuel (cstrlen sub + 2) 0 := by
  simp [regexec, hmagic, hanch, hstart, hmust]

/-- C1: for a compiled unanchored pattern (in the hint-free general case
the cited code path implements: `regstart` unset, no `regmust`), regexec
tries candidate start positions strictly left to right from 0 through the
end-of-string position inclusive and returns success at the first position
where the automaton matches, so on success `startp[0]` is the earliest
starting position admitting a match, and when no position admits a match
it returns 0. -/
theorem claim_C1 (prog : Regexp) (sub : List Nat) (fuel : Nat)
    (hmagic : byteAt prog.program 0 = MAGIC) (hanch : prog.reganch = false)
    (hstart : prog.regstart = 0) (hmust : prog.regmust = none)
    (hfuel : ∀ q, q ≤ cstrlen sub → (regtry prog.program sub fuel q).isSome) :
    (∃ p, p ≤ cstrlen sub ∧ (∀ q, q < p → ¬TryOk prog.program sub fuel q) ∧
      ∃ s', regtry prog.program sub fuel p = some (true, s') ∧
        regexec fuel prog sub = some (true, some s') ∧
        s'.startp.getD 0 none = some p) ∨
    ((∀ p, p ≤ cstrlen sub → ¬TryOk prog.program sub fuel p) ∧
      ∃ s', regexec fuel prog sub = some (false, some s')) := by
  rw [regexec_general prog sub fuel hmagic hanch hstart hmust]
  rcases genLoop_spec prog.program sub fuel (cstrlen sub + 2) 0 (by omega) (by omega)
      (fun q _ hq => hfuel q hq) with
    ⟨q, _, hq2, hmin, s', ht, hl⟩ | ⟨hall, s', hl⟩
  · exact Or.inl ⟨q, hq2, fun q' h' => hmin q' (by omega) h', s', ht, hl,
      (regtry_succ_slot0 ht).1⟩
  · exact Or.inr ⟨fun p hp => hall p (by omega) hp, s', hl⟩

/-- The compiled form of the pattern `a+` (checked against `regcomp` in the
witness below): no anchor, no start hint, no must string. -/
def c1prog : Regexp :=
  ⟨[156, 6, 0, 11, 11, 0, 8, 8, 0, 0, 97, 0, 0, 0, 0], 0, false, none, 0⟩

/-- Witness for C1: pattern `a+` (bytes `[97, 43]`) on subject `"baaa"`
(bytes `[98, 97, 97, 97]`) — the hypotheses hold and the leftmost match is
found. -/
theorem claim_C1_witness :
    regcomp [97, 43] false = .ok c1prog ∧
    (byteAt c1prog.program 0 = MAGIC ∧ c1prog.reganch = false ∧
      c1prog.regstart = 0 ∧ c1prog.regmust = none) ∧
    ((∃ p, p ≤ cstrlen [98, 97, 97, 97] ∧
      (∀ q, q < p → ¬TryOk c1prog.program [98, 97, 97, 97] 50 q) ∧
      ∃ s', regtry c1prog.program [98, 97, 97, 97] 50 p = some (true, s') ∧
        regexec 50 c1prog [98, 97, 97, 97] = some (true, some s') ∧
        s'.startp.getD 0 none = some p) ∨
    ((∀ p, p ≤ cstrlen [98, 97, 97, 97] →
        ¬TryOk c1prog.program [98, 97, 97, 97] 50 p) ∧
      ∃ s', regexec 50 c1prog [98, 97, 97, 97] = some (false, some s'))) :=
  ⟨by rfl, ⟨by rfl, by rfl, by rfl, by rfl⟩,
    claim_C1 c1prog [98, 97, 97, 97] 50 (by rfl) (by rfl) (by rfl) (by rfl)
      (by decide)⟩

/-! ## Failure of the whole scan exposes only reset capture tables -/

theorem genLoop_fail {prog sub : List Nat} {fuel : Nat} :
    ∀ b p s', genLoop prog sub fuel b p = some (false, some s') →
      ∃ q, regtry prog sub fuel q = some (false, s') := by
  intro b
  induction b with
  | zero => intro p s' h; simp [genLoop] at h
  | succ b ih =>
    intro p s' h
    rcases hres : regtry prog sub fuel p with _ | ⟨bb, t⟩
    · simp only [genLoop, hres] at h
      simp at h
    · cases bb
      · simp only [genLoop, hres] at h
        split_ifs at h with hz
        · simp only [Option.some.injEq, Prod.mk.injEq, true_and] at h
          exact ⟨p, by rw [hres, h]⟩
        · exact ih (p + 1) s' h
      · simp only [genLoop, hres] at h
        simp at h

theorem startLoop_fail {prog sub : List Nat} {fuel c : Nat} :
    ∀ b p last s',
      (∀ t, last = some t → ∃ q, regtry prog sub fuel q = some (false, t)) →
      startLoop prog sub fuel c b p last = some (false, some s') →
      ∃ q, regtry prog sub fuel q = some (false, s') := by
  intro b
  induction b with
  | zero => intro p last s' hlast h; simp [startLoop] at h
  | succ b ih =>
    intro p last s' hlast h
    rcases hchr : strchrFrom sub c p with _ | j
    · simp only [startLoop, hchr] at h
      simp only [Option.some.injEq, Prod.mk.injEq, true_and] at h
      exact hlast s' h
    · simp only [startLoop, hchr] at h
      rcases hres : regtry prog sub fuel j with _ | ⟨bb, t⟩
      · rw [hres] at h; simp at h
      · cases bb
        · rw [hres] at h
          exact ih (j + 1) (some t) s' (by rintro t' ht'; cases ht'; exact ⟨j, hres⟩) h
        · rw [hres] at h; simp at h

/-- A failing anchored try (regexec's single regtry at position 0, with the
success state wrapped) traces back to that regtry. -/
theorem anchScan_fail {prog sub : List Nat} {fuel : Nat} {s' : MState}
    (hx : Option.map (fun x => (x.1, some x.2)) (regtry prog sub fuel 0) =
      some ((false : Bool), some s')) :
    ∃ q, regtry prog sub fuel q = some (false, s') := by
  rcases hres : regtry prog sub fuel 0 with _ | ⟨b, t⟩
  · rw [hres] at hx; simp at hx
  · rw [hres] at hx
    cases b
    · simp at hx
      exact ⟨0, by rw [hres, hx]⟩
    · simp at hx

/-- C10: every `regtry` first resets all ten `startp` and ten `endp` slots
to null; a slot is written only on a path whose whole attempt succeeds (a
failing regmatch returns the tables unchanged); consequently whenever
regexec returns 0 after attempting at least one candidate position (the
result then carries the last try's tables), every capture slot is null. -/
theorem claim_C10 (prog : Regexp) (sub : List Nat) (fuel : Nat) :
    (∀ pos s', regtry prog.program sub fuel pos = some (false, s') →
      s'.startp = List.replicate NSUBEXP none ∧
      s'.endp = List.replicate NSUBEXP none) ∧
    (∀ f scan s s', regmatch prog.program sub f scan s = some (false, s') →
      s'.startp = s.startp ∧ s'.endp = s.endp) ∧
    (∀ s', regexec fuel prog sub = some (false, some s') →
      s'.startp = List.replicate NSUBEXP none ∧
      s'.endp = List.replicate NSUBEXP none) := by
  refine ⟨fun pos s' h => regtry_fail_caps h,
    fun f scan s s' h => regmatch_fail_caps h, ?_⟩
  intro s' hexec
  simp only [regexec] at hexec
  by_cases hmagic : byteAt prog.program 0 ≠ MAGIC
  · rw [if_pos hmagic] at hexec; simp at hexec
  · rw [if_neg hmagic] at hexec
    rcases hm : prog.regmust with _ | m
    · simp only [hm] at hexec
      split_ifs at hexec with h1 h2
      · obtain ⟨q, hq⟩ := anchScan_fail hexec
        exact regtry_fail_caps hq
      · obtain ⟨q, hq⟩ := startLoop_fail _ 0 none s'
          (fun t ht => Option.noConfusion ht) hexec
        exact regtry_fail_caps hq
      · obtain ⟨q, hq⟩ := genLoop_fail _ 0 s' hexec
        exact regtry_fail_caps hq
    · simp only [hm] at hexec
      split_ifs at hexec with h0 h1 h2
      · obtain ⟨q, hq⟩ := anchScan_fail hexec
        exact regtry_fail_caps hq
      · obtain ⟨q, hq⟩ := startLoop_fail _ 0 none s'
          (fun t ht => Option.noConfusion ht) hexec
        exact regtry_fail_caps hq
      · obtain ⟨q, hq⟩ := genLoop_fail _ 0 s' hexec
        exact regtry_fail_caps hq
      · simp at hexec

/-- Witness for C10: `a+` on subject `"b"` fails after trying positions 0
and 1, and the exposed capture tables are all null. -/
theorem claim_C10_witness :
    regexec 50 c1prog [98] =
      some (false, some ⟨1, List.replicate NSUBEXP none, List.replicate NSUBEXP none⟩) ∧
    (⟨1, List.replicate NSUBEXP none, List.replicate NSUBEXP none⟩ : MState).startp =
        List.replicate NSUBEXP none ∧
    (⟨1, List.replicate NSUBEXP none, List.replicate NSUBEXP none⟩ : MState).endp =
        List.replicate NSUBEXP none :=
  ⟨by rfl, (claim_C10 c1prog [98] 50).2.2 _ (by rfl)⟩

/-! ## Word-boundary opcodes: boundary positions and interior positions -/

/-- A WORDSTART node followed by END (after the magic byte). -/
def wsProg : List Nat := [156, 12, 0, 3, 0, 0, 0]

/-- A WORDEND node followed by END (after the magic byte). -/
def weProg : List Nat := [156, 13, 0, 3, 0, 0, 0]

/-- C9: at the very start of the subject WORDSTART succeeds (continues to
the next node with the state untouched) regardless of the word-class of
any byte, and at the terminating NUL — also on an empty subject — WORDEND
does the same: the two boundary positions are unconditional successes. -/
theorem claim_C9 (prog sub : List Nat) (pc f : Nat) (s : MState) :
    (OP prog pc = WORDSTART → s.input = 0 →
      regmatch prog sub (f + 1) (some pc) s = regmatch prog sub f (regnext prog pc) s) ∧
    (OP prog pc = WORDEND → byteAt sub s.input = 0 →
      regmatch prog sub (f + 1) (some pc) s = regmatch prog sub f (regnext prog pc) s) := by
  constructor
  · intro h hz
    rw [step_WORDSTART h, if_pos hz]
  · intro h hz
    rw [step_WORDEND h, if_pos hz]

/-- Witness for C9: WORDSTART at position 0 of `"!"` (a non-word byte) and
WORDEND at the NUL of the empty subject both fall through to the END node
and succeed. -/
theorem claim_C9_witness :
    (OP wsProg 1 = WORDSTART ∧ (⟨0, [], []⟩ : MState).input = 0 ∧
      regmatch wsProg [33] 5 (some 1) ⟨0, [], []⟩ =
        regmatch wsProg [33] 4 (regnext wsProg 1) ⟨0, [], []⟩ ∧
      regmatch wsProg [33] 5 (some 1) ⟨0, [], []⟩ = some (true, ⟨0, [], []⟩)) ∧
    (OP weProg 1 = WORDEND ∧ byteAt ([] : List Nat) 0 = 0 ∧
      regmatch weProg [] 5 (some 1) ⟨0, [], []⟩ =
        regmatch weProg [] 4 (regnext weProg 1) ⟨0, [], []⟩ ∧
      regmatch weProg [] 5 (some 1) ⟨0, [], []⟩ = some (true, ⟨0, [], []⟩)) :=
  ⟨⟨rfl, rfl, (claim_C9 wsProg [33] 1 4 ⟨0, [], []⟩).1 rfl rfl, rfl⟩,
   ⟨rfl, rfl, (claim_C9 weProg [] 1 4 ⟨0, [], []⟩).2 rfl rfl, rfl⟩⟩

/-- Counterexample to C5 as stated: WORDSTART succeeds at position 0 of
subject `"!"` even though the current byte is not a word character, and
WORDEND succeeds at the terminating NUL of `","` even though the
immediately preceding byte is not a word character — so the claimed
biconditionals fail at the two boundary positions. -/
theorem claim_C5_counterexample :
    (regmatch wsProg [33] 5 (some 1) ⟨0, [], []⟩ = some (true, ⟨0, [], []⟩) ∧
      ISWORDPART (byteAt [33] 0) = false) ∧
    (regmatch weProg [44] 5 (some 1) ⟨1, [], []⟩ = some (true, ⟨1, [], []⟩) ∧
      ISWORDPART (byteAt [44] 0) = false) :=
  ⟨⟨rfl, rfl⟩, ⟨rfl, rfl⟩⟩

/-- C5 (amended): away from the two boundary positions — WORDSTART at a
position other than the subject start, WORDEND at a position whose current
byte is not the terminating NUL — the opcodes are pure zero-width
word-boundary tests: WORDSTART succeeds (and moves on with the state,
including the cursor, unchanged) iff the current byte is a word character
(alphanumeric or underscore) and the immediately preceding byte is not;
WORDEND succeeds iff the position is not the subject start, the preceding
byte is a word character and the current byte is not. -/
theorem claim_C5_amended (prog sub : List Nat) (pc f : Nat) (s : MState) :
    (OP prog pc = WORDSTART → s.input ≠ 0 →
      regmatch prog sub (f + 1) (some pc) s =
        if ISWORDPART (byteAt sub s.input) ∧ ¬ISWORDPART (byteAt sub (s.input - 1))
        then regmatch prog sub f (regnext prog pc) s
        else some (false, s)) ∧
    (OP prog pc = WORDEND → byteAt sub s.input ≠ 0 →
      regmatch prog sub (f + 1) (some pc) s =
        if s.input ≠ 0 ∧ ISWORDPART (byteAt sub (s.input - 1)) ∧
            ¬ISWORDPART (byteAt sub s.input)
        then regmatch prog sub f (regnext prog pc) s
        else some (false, s)) := by
  constructor
  · intro h hz
    rw [step_WORDSTART h, if_neg hz]
    by_cases h0 : byteAt sub s.input = 0
    · have hw : ISWORDPART 0 = false := rfl
      simp [h0, hw]
    · by_cases hw1 : ISWORDPART (byteAt sub s.input) = true
      · by_cases hw2 : ISWORDPART (byteAt sub (s.input - 1)) = true
        · simp [h0, hw1, hw2]
        · simp [h0, hw1, hw2]
      · simp [h0, hw1]
  · intro h hz
    rw [step_WORDEND h, if_neg hz]
    by_cases h0 : s.input = 0
    · simp [h0]
    · by_cases hw1 : ISWORDPART (byteAt sub (s.input - 1)) = true
      · by_cases hw2 : ISWORDPART (byteAt sub s.input) = true
        · simp [h0, hw1, hw2]
        · simp [h0, hw1, hw2]
      · simp [h0, hw1]

/-- Witness for the amended C5: on subject `" a"` (space then `a`),
WORDSTART at position 1 sees a word character preceded by a non-word byte
and succeeds; on subject `" a "`, WORDEND at position 2 sees a non-word
current byte preceded by the word character `a` and succeeds. -/
theorem claim_C5_amended_witness :
    (OP wsProg 1 = WORDSTART ∧ (⟨1, [], []⟩ : MState).input ≠ 0 ∧
      regmatch wsProg [32, 97] 5 (some 1) ⟨1, [], []⟩ =
        (if ISWORDPART (byteAt [32, 97] 1) ∧ ¬ISWORDPART (byteAt [32, 97] 0)
         then regmatch wsProg [32, 97] 4 (regnext wsProg 1) ⟨1, [], []⟩
         else some (false, ⟨1, [], []⟩)) ∧
      regmatch wsProg [32, 97] 5 (some 1) ⟨1, [], []⟩ = some (true, ⟨1, [], []⟩)) ∧
    (OP weProg 1 = WORDEND ∧ byteAt [32, 97, 32] 2 ≠ 0 ∧
      regmatch weProg [32, 97, 32] 5 (some 1) ⟨2, [], []⟩ =
        (if (⟨2, [], []⟩ : MState).input ≠ 0 ∧ ISWORDPART (byteAt [32, 97, 32] 1) ∧
            ¬ISWORDPART (byteAt [32, 97, 32] 2)
         then regmatch weProg [32, 97, 32] 4 (regnext weProg 1) ⟨2, [], []⟩
         else some (false, ⟨2, [], []⟩)) ∧
      regmatch weProg [32, 97, 32] 5 (some 1) ⟨2, [], []⟩ = some (true, ⟨2, [], []⟩)) :=
  ⟨⟨rfl, by decide,
    (claim_C5_amended wsProg [32, 97] 1 4 ⟨1, [], []⟩).1 rfl (by decide), rfl⟩,
   ⟨rfl, by decide,
    (claim_C5_amended weProg [32, 97, 32] 1 4 ⟨2, [], []⟩).2 rfl (by decide), rfl⟩⟩

/-! ## The two passes of regcomp run in lockstep

The sizing pass (`emitting = false`, the `&regdummy` cursor) and the
emission pass (`emitting = true`) run the identical grammar: same failure
or success, same token consumption and group numbering, same flags, and
the sizing counter grows exactly as many bytes as the emission pass
writes.  The relations below say what "same point of the two runs" means,
and `lockstepAll` proves it by induction over the parser. -/

/-- Corresponding intermediate states of the two passes: same remaining
tokens and group count, with the respective emission modes. -/
def Rel (ss se : CompSt) : Prop :=
  ss.tokens = se.tokens ∧ ss.regnpar = se.regnpar ∧
  ss.emitting = false ∧ se.emitting = true

/-- Corresponding node pointers of the two passes: the sizing sentinel
against a real buffer index (the parser levels never return NULL). -/
def PtrRel : Ptr → Ptr → Prop
  | .dummy, .idx _ => True
  | _, _ => False

/-- Corresponding chain pointers inside `pieceLoop`: NULL on both sides
(no piece yet) or a sentinel/index pair. -/
def CPtr (ps pe : Ptr) : Prop :=
  (ps = Ptr.null ∧ pe = Ptr.null) ∨ PtrRel ps pe

/-- The state part of a lockstep result: the two output states still
correspond, the sizing side's buffer is untouched, and its counter grew by
exactly the number of bytes the emitting side appended. -/
def SRel (ss se ss' se' : CompSt) : Prop :=
  Rel ss' se' ∧ ss'.buf = ss.buf ∧
  ss'.regsize = ss.regsize + (se'.buf.length - se.buf.length) ∧
  se.buf.length ≤ se'.buf.length

/-- Corresponding results of a parser level returning a node pointer and
flags: identical errors, or identical flags with corresponding pointers
and `SRel` states. -/
def PRel (ss se : CompSt) :
    Except RegError (Ptr × Flags × CompSt) → Except RegError (Ptr × Flags × CompSt) → Prop
  | .error e1, .error e2 => e1 = e2
  | .ok (ps, fs, ss'), .ok (pe, fe, se') => PtrRel ps pe ∧ fs = fe ∧ SRel ss se ss' se'
  | _, _ => False

/-- As `PRel`, with the chain-pointer correspondence `CPtr` (the shape
`pieceLoop` returns). -/
def NRel (ss se : CompSt) :
    Except RegError (Ptr × Flags × CompSt) → Except RegError (Ptr × Flags × CompSt) → Prop
  | .error e1, .error e2 => e1 = e2
  | .ok (ps, fs, ss'), .ok (pe, fe, se') => CPtr ps pe ∧ fs = fe ∧ SRel ss se ss' se'
  | _, _ => False

/-- As `PRel` for levels returning flags and a state (`orLoop`). -/
def FRel (ss se : CompSt) :
    Except RegError (Flags × CompSt) → Except RegError (Flags × CompSt) → Prop
  | .error e1, .error e2 => e1 = e2
  | .ok (fs, ss'), .ok (fe, se') => fs = fe ∧ SRel ss se ss' se'
  | _, _ => False

/-- As `PRel` for levels returning just a state (`classLoop`). -/
def CRel (ss se : CompSt) :
    Except RegError CompSt → Except RegError CompSt → Prop
  | .error e1, .error e2 => e1 = e2
  | .ok ss', .ok se' => SRel ss se ss' se'
  | _, _ => False

theorem regnode_sz (st : CompSt) (h : st.emitting = false) (op : Nat) :
    regnode op st = (.dummy, { st with regsize := st.regsize + 3 }) := by
  simp [regnode, h]

theorem regnode_em (st : CompSt) (h : st.emitting = true) (op : Nat) :
    regnode op st = (.idx st.buf.length, { st with buf := st.buf ++ [op, 0, 0] }) := by
  simp [regnode, h]

theorem regc_sz (st : CompSt) (h : st.emitting = false) (b : Nat) :
    regc b st = { st with regsize := st.regsize + 1 } := by
  simp [regc, h]

theorem regc_em (st : CompSt) (h : st.emitting = true) (b : Nat) :
    regc b st = { st with buf := st.buf ++ [Nat.land b 255] } := by
  simp [regc, h]

theorem reginsert_sz (st : CompSt) (h : st.emitting = false) (op : Nat) (opnd : Ptr) :
    reginsert op opnd st = { st with regsize := st.regsize + 3 } := by
  simp [reginsert, h]

/-- Every reginsert on a real pointer in the emitting pass keeps the
metadata and grows the buffer by exactly 3 bytes. -/
theorem reginsert_em (st : CompSt) (h : st.emitting = true) (op i : Nat) :
    (reginsert op (.idx i) st).tokens = st.tokens ∧
    (reginsert op (.idx i) st).regnpar = st.regnpar ∧
    (reginsert op (.idx i) st).emitting = st.emitting ∧
    (reginsert op (.idx i) st).regsize = st.regsize ∧
    (reginsert op (.idx i) st).buf.length = st.buf.length + 3 := by
  refine ⟨by simp [reginsert, h], by simp [reginsert, h], by simp [reginsert, h],
    by simp [reginsert, h], ?_⟩
  simp only [reginsert, h, Bool.not_true, Bool.false_eq_true, if_false]
  simp [List.length_take, List.length_drop]
  omega

/-- regtail never changes the token stream, group count, mode, sizing
counter, or buffer length — only (possibly) two next-pointer bytes. -/
theorem regtail_meta (p val : Ptr) (st : CompSt) :
    (regtail p val st).tokens = st.tokens ∧
    (regtail p val st).regnpar = st.regnpar ∧
    (regtail p val st).emitting = st.emitting ∧
    (regtail p val st).regsize = st.regsize ∧
    (regtail p val st).buf.length = st.buf.length := by
  cases p with
  | null => cases val <;> simp [regtail]
  | dummy => simp [regtail]
  | idx i =>
    cases val with
    | null => simp [regtail]
    | dummy => simp [regtail]
    | idx v => simp [regtail]

/-- regtail is a complete no-op on NULL or the sizing sentinel: the
sizing pass never patches pointers. -/
theorem regtail_noop {p : Ptr} (h : p = Ptr.dummy ∨ p = Ptr.null) (val : Ptr) (st : CompSt) :
    regtail p val st = st := by
  rcases h with h | h <;> subst h
  · rfl
  · cases val <;> rfl

/-- regoptail is likewise a complete no-op on NULL or the sizing
sentinel. -/
theorem regoptail_noop {p : Ptr} (h : p = Ptr.dummy ∨ p = Ptr.null) (val : Ptr) (st : CompSt) :
    regoptail p val st = st := by
  rcases h with h | h <;> subst h <;> rfl

/-- regoptail never changes the token stream, group count, mode, sizing
counter, or buffer length. -/
theorem regoptail_meta (p val : Ptr) (st : CompSt) :
    (regoptail p val st).tokens = st.tokens ∧
    (regoptail p val st).regnpar = st.regnpar ∧
    (regoptail p val st).emitting = st.emitting ∧
    (regoptail p val st).regsize = st.regsize ∧
    (regoptail p val st).buf.length = st.buf.length := by
  cases p with
  | null => simp [regoptail]
  | dummy => simp [regoptail]
  | idx i =>
    by_cases h : OP st.buf i ≠ BRANCH
    · simp [regoptail, h]
    · simpa [regoptail, h] using regtail_meta (.idx (OPERAND i)) val st

/-- The branch-tail hookup loop never changes the token stream, group
count, mode, sizing counter, or buffer length. -/
theorem optChain_meta (fuel : Nat) (br ender : Ptr) (st : CompSt) :
    (optChain fuel br ender st).tokens = st.tokens ∧
    (optChain fuel br ender st).regnpar = st.regnpar ∧
    (optChain fuel br ender st).emitting = st.emitting ∧
    (optChain fuel br ender st).regsize = st.regsize ∧
    (optChain fuel br ender st).buf.length = st.buf.length := by
  induction fuel generalizing br st with
  | zero => simp [optChain]
  | succ f ih =>
    cases br with
    | null => simp [optChain]
    | dummy =>
      have h1 := regoptail_meta .dummy ender st
      have h2 := ih (regnextP (regoptail .dummy ender st).buf .dummy) (regoptail .dummy ender st)
      simp only [optChain]
      exact ⟨h2.1.trans h1.1, h2.2.1.trans h1.2.1, h2.2.2.1.trans h1.2.2.1,
        h2.2.2.2.1.trans h1.2.2.2.1, h2.2.2.2.2.trans h1.2.2.2.2⟩
    | idx i =>
      have h1 := regoptail_meta (.idx i) ender st
      have h2 := ih (regnextP (regoptail (.idx i) ender st).buf (.idx i))
        (regoptail (.idx i) ender st)
      simp only [optChain]
      exact ⟨h2.1.trans h1.1, h2.2.1.trans h1.2.1, h2.2.2.1.trans h1.2.2.1,
        h2.2.2.2.1.trans h1.2.2.2.1, h2.2.2.2.2.trans h1.2.2.2.2⟩

/-- In the sizing pass (sentinel or NULL branch pointer) the hookup loop
is the identity. -/
theorem optChain_sz (fuel : Nat) {br : Ptr} (h : br = Ptr.dummy ∨ br = Ptr.null)
    (ender : Ptr) (st : CompSt) : optChain fuel br ender st = st := by
  rcases h with h | h <;> subst h
  · cases fuel with
    | zero => rfl
    | succ f =>
      have : regoptail Ptr.dummy ender st = st := rfl
      simp only [optChain, this]
      cases f <;> rfl
  · cases fuel <;> rfl


/-- Sizing-pass form of a class-range expansion: `n` counter increments,
nothing else. -/
theorem emitRange_sz (n : Nat) : ∀ (classs : Nat) (st : CompSt), st.emitting = false →
    emitRange classs n st = { st with regsize := st.regsize + n } := by
  induction n with
  | zero => intro classs st h; rfl
  | succ n ih =>
    intro classs st h
    rw [emitRange, regc_sz st h, ih (classs + 1) { st with regsize := st.regsize + 1 } h]
    simp only [CompSt.mk.injEq, and_true, true_and]
    omega

/-- Emitting-pass metadata of a class-range expansion: `n` bytes
appended, nothing else touched. -/
theorem emitRange_em (n : Nat) : ∀ (classs : Nat) (st : CompSt), st.emitting = true →
    (emitRange classs n st).tokens = st.tokens ∧
    (emitRange classs n st).regnpar = st.regnpar ∧
    (emitRange classs n st).emitting = st.emitting ∧
    (emitRange classs n st).regsize = st.regsize ∧
    (emitRange classs n st).buf.length = st.buf.length + n := by
  induction n with
  | zero => intro classs st h; exact ⟨rfl, rfl, rfl, rfl, rfl⟩
  | succ n ih =>
    intro classs st h
    rw [emitRange, regc_em st h]
    have := ih (classs + 1) { st with buf := st.buf ++ [Nat.land classs 255] } h
    refine ⟨this.1, this.2.1, this.2.2.1, this.2.2.2.1, ?_⟩
    rw [this.2.2.2.2]
    simp only [List.length_append, List.length_singleton]
    omega

/-- Sizing-pass form of an EXACTLY literal run: `n` tokens consumed, `n`
counter increments. -/
theorem emitRun_sz (n : Nat) : ∀ (st : CompSt), st.emitting = false →
    emitRun n st = { st with tokens := st.tokens.drop n, regsize := st.regsize + n } := by
  induction n with
  | zero => intro st h; rfl
  | succ n ih =>
    intro st h
    rw [emitRun, regc_sz (adv st) h, ih { adv st with regsize := (adv st).regsize + 1 } h]
    simp only [adv, CompSt.mk.injEq, List.drop_drop, and_true, true_and]
    exact ⟨by rw [Nat.add_comm], by omega⟩

/-- Emitting-pass metadata of an EXACTLY literal run: `n` tokens
consumed, `n` bytes appended. -/
theorem emitRun_em (n : Nat) : ∀ (st : CompSt), st.emitting = true →
    (emitRun n st).tokens = st.tokens.drop n ∧
    (emitRun n st).regnpar = st.regnpar ∧
    (emitRun n st).emitting = st.emitting ∧
    (emitRun n st).regsize = st.regsize ∧
    (emitRun n st).buf.length = st.buf.length + n := by
  induction n with
  | zero => intro st h; exact ⟨rfl, rfl, rfl, rfl, rfl⟩
  | succ n ih =>
    intro st h
    rw [emitRun, regc_em (adv st) h]
    have := ih { adv st with buf := (adv st).buf ++ [Nat.land (peek st) 255] } h
    refine ⟨?_, this.2.1, this.2.2.1, this.2.2.2.1, ?_⟩
    · rw [this.1]; simp only [adv, List.drop_drop]
      rw [Nat.add_comm]
    · rw [this.2.2.2.2]; simp only [adv, List.length_append, List.length_singleton]
      omega

/-- Rebase an `SRel` fact through a preparatory step that consumed no
buffer on the sizing side and only appended on the emitting side. -/
theorem SRel_shift {ss se s1 s2 ss' se' : CompSt} (h : SRel s1 s2 ss' se')
    (hb : s1.buf = ss.buf)
    (hsz : s1.regsize = ss.regsize + (s2.buf.length - se.buf.length))
    (hle : se.buf.length ≤ s2.buf.length) : SRel ss se ss' se' := by
  obtain ⟨hR, hb1, hsz1, hle1⟩ := h
  exact ⟨hR, hb1.trans hb, by omega, by omega⟩

/-- `SRel` of two unchanged states. -/
theorem SRel_refl {ss se : CompSt} (hR : Rel ss se) : SRel ss se ss se :=
  ⟨hR, rfl, by omega, Nat.le_refl _⟩

/-- The elimination form of the strict pointer correspondence. -/
theorem PtrRel_elim {ps pe : Ptr} (h : PtrRel ps pe) :
    ps = Ptr.dummy ∧ ∃ i, pe = Ptr.idx i := by
  cases ps <;> cases pe <;> simp_all [PtrRel]

/-- Emitting-side bookkeeping for a straight-line sequence: metadata
preserved, buffer grown by `k` bytes. -/
def Grows (k : Nat) (st st' : CompSt) : Prop :=
  st'.tokens = st.tokens ∧ st'.regnpar = st.regnpar ∧ st'.emitting = st.emitting ∧
  st'.regsize = st.regsize ∧ st'.buf.length = st.buf.length + k

theorem Grows_trans {j k : Nat} {st st1 st2 : CompSt}
    (h1 : Grows j st st1) (h2 : Grows k st1 st2) : Grows (j + k) st st2 := by
  obtain ⟨a1, a2, a3, a4, a5⟩ := h1
  obtain ⟨b1, b2, b3, b4, b5⟩ := h2
  exact ⟨b1.trans a1, b2.trans a2, b3.trans a3, b4.trans a4, by omega⟩

theorem regtail_grows (p val : Ptr) (st : CompSt) : Grows 0 st (regtail p val st) := by
  have := regtail_meta p val st
  exact ⟨this.1, this.2.1, this.2.2.1, this.2.2.2.1, by omega⟩

theorem regoptail_grows (p val : Ptr) (st : CompSt) : Grows 0 st (regoptail p val st) := by
  have := regoptail_meta p val st
  exact ⟨this.1, this.2.1, this.2.2.1, this.2.2.2.1, by omega⟩

theorem regnode_grows {st : CompSt} (h : st.emitting = true) (op : Nat) :
    Grows 3 st (regnode op st).2 := by
  rw [regnode_em st h]
  exact ⟨rfl, rfl, rfl, rfl, by simp⟩

theorem regc_grows {st : CompSt} (h : st.emitting = true) (b : Nat) :
    Grows 1 st (regc b st) := by
  rw [regc_em st h]
  exact ⟨rfl, rfl, rfl, rfl, by simp⟩

theorem reginsert_grows {st : CompSt} (h : st.emitting = true) (op i : Nat) :
    Grows 3 st (reginsert op (.idx i) st) := by
  have := reginsert_em st h op i
  exact ⟨this.1, this.2.1, this.2.2.1, this.2.2.2.1, this.2.2.2.2⟩

theorem regtail_tokens (p val : Ptr) (st : CompSt) : (regtail p val st).tokens = st.tokens :=
  (regtail_meta p val st).1

theorem regtail_regnpar (p val : Ptr) (st : CompSt) : (regtail p val st).regnpar = st.regnpar :=
  (regtail_meta p val st).2.1

theorem regtail_emitting (p val : Ptr) (st : CompSt) : (regtail p val st).emitting = st.emitting :=
  (regtail_meta p val st).2.2.1

theorem regtail_regsize (p val : Ptr) (st : CompSt) : (regtail p val st).regsize = st.regsize :=
  (regtail_meta p val st).2.2.2.1

theorem regtail_len (p val : Ptr) (st : CompSt) : (regtail p val st).buf.length = st.buf.length :=
  (regtail_meta p val st).2.2.2.2

theorem regoptail_tokens (p val : Ptr) (st : CompSt) : (regoptail p val st).tokens = st.tokens :=
  (regoptail_meta p val st).1

theorem regoptail_regnpar (p val : Ptr) (st : CompSt) :
    (regoptail p val st).regnpar = st.regnpar := (regoptail_meta p val st).2.1

theorem regoptail_emitting (p val : Ptr) (st : CompSt) :
    (regoptail p val st).emitting = st.emitting := (regoptail_meta p val st).2.2.1

theorem regoptail_regsize (p val : Ptr) (st : CompSt) :
    (regoptail p val st).regsize = st.regsize := (regoptail_meta p val st).2.2.2.1

theorem regoptail_len (p val : Ptr) (st : CompSt) :
    (regoptail p val st).buf.length = st.buf.length := (regoptail_meta p val st).2.2.2.2

theorem regtail_dummy (val : Ptr) (st : CompSt) : regtail Ptr.dummy val st = st := rfl

theorem regoptail_dummy (val : Ptr) (st : CompSt) : regoptail Ptr.dummy val st = st := rfl

/-- Length bookkeeping of the 3-byte reginsert splice. -/
theorem insert3_len (b : List Nat) (i x y z : Nat) :
    (b.take i ++ [x, y, z] ++ b.drop i).length = b.length + 3 := by
  simp [List.length_take, List.length_drop]
  omega

/-- Lockstep of the tail of `regpiece` for `x*` / `x+` on a simple
operand: a single `reginsert` of the repeat operator. -/
theorem insSimple_lock (op : Nat) (ss se : CompSt) (i : Nat) (t b1 be : List Nat)
    (n z1 ze : Nat) (flagp : Flags)
    (hS : SRel ss se ⟨t, n, false, z1, b1⟩ ⟨t, n, true, ze, be⟩) :
    PRel ss se
      (let st2 := reginsert op Ptr.dummy (⟨t, n, false, z1, b1⟩ : CompSt)
       let st3 := adv st2
       if ISMULT (peek st3) then Except.error RegError.nestedRepeat
       else Except.ok (Ptr.dummy, flagp, st3))
      (let st2 := reginsert op (Ptr.idx i) (⟨t, n, true, ze, be⟩ : CompSt)
       let st3 := adv st2
       if ISMULT (peek st3) then Except.error RegError.nestedRepeat
       else Except.ok (Ptr.idx i, flagp, st3)) := by
  obtain ⟨hR1, hb1, hz1, hl1⟩ := hS
  simp only [reginsert, peek, adv]
  simp only [CompSt.emitting, Bool.not_false, Bool.not_true, if_true, if_false,
    Bool.false_eq_true, CompSt.tokens, CompSt.buf, CompSt.regnpar, CompSt.regsize]
  split_ifs with h
  · rfl
  · have htd : (be.take i).length + (be.drop i).length = be.length := by
      rw [List.length_take, List.length_drop]; omega
    refine ⟨trivial, rfl, ⟨rfl, rfl, rfl, rfl⟩, hb1, ?_, ?_⟩ <;>
      simp only [CompSt.buf, CompSt.regsize, List.length_append,
        List.length_cons, List.length_nil] at hz1 hl1 ⊢ <;> omega

/-- Lockstep of the tail of `regpiece` for `x*` on a non-simple operand:
the `(x&|)` emission. -/
theorem starGen_lock (ss se : CompSt) (i : Nat) (t b1 be : List Nat)
    (n z1 ze : Nat) (flagp : Flags)
    (hS : SRel ss se ⟨t, n, false, z1, b1⟩ ⟨t, n, true, ze, be⟩) :
    PRel ss se
      (let ret := Ptr.dummy
       let st1 := (⟨t, n, false, z1, b1⟩ : CompSt)
       let st2 :=
         let stA := reginsert BRANCH ret st1
         let (back, stB) := regnode BACK stA
         let stC := regoptail ret back stB
         let stD := regoptail ret ret stC
         let (br2, stE) := regnode BRANCH stD
         let stF := regtail ret br2 stE
         let (nth, stG) := regnode NOTHING stF
         regtail ret nth stG
       let st3 := adv st2
       if ISMULT (peek st3) then Except.error RegError.nestedRepeat
       else Except.ok (ret, flagp, st3))
      (let ret := Ptr.idx i
       let st1 := (⟨t, n, true, ze, be⟩ : CompSt)
       let st2 :=
         let stA := reginsert BRANCH ret st1
         let (back, stB) := regnode BACK stA
         let stC := regoptail ret back stB
         let stD := regoptail ret ret stC
         let (br2, stE) := regnode BRANCH stD
         let stF := regtail ret br2 stE
         let (nth, stG) := regnode NOTHING stF
         regtail ret nth stG
       let st3 := adv st2
       if ISMULT (peek st3) then Except.error RegError.nestedRepeat
       else Except.ok (ret, flagp, st3)) := by
  obtain ⟨hR1, hb1, hz1, hl1⟩ := hS
  simp only [reginsert, regnode, peek, adv, regtail_dummy, regoptail_dummy]
  simp only [CompSt.emitting, Bool.not_false, Bool.not_true, if_true, if_false,
    Bool.false_eq_true, CompSt.tokens, CompSt.buf, CompSt.regnpar, CompSt.regsize,
    regtail_tokens, regoptail_tokens, regtail_regnpar, regoptail_regnpar,
    regtail_emitting, regoptail_emitting, regtail_regsize, regoptail_regsize,
    regtail_len, regoptail_len]
  split_ifs with h1
  · rfl
  · have htd : (be.take i).length + (be.drop i).length = be.length := by
      rw [List.length_take, List.length_drop]; omega
    refine ⟨trivial, rfl, ⟨?_, ?_, ?_, ?_⟩, hb1, ?_, ?_⟩ <;>
      simp only [CompSt.buf, CompSt.regsize, CompSt.tokens, CompSt.regnpar, CompSt.emitting,
        regtail_tokens, regoptail_tokens, regtail_regnpar, regoptail_regnpar,
        regtail_emitting, regoptail_emitting, regtail_regsize, regoptail_regsize,
        regtail_len, regoptail_len,
        List.length_append, List.length_cons, List.length_nil] at hz1 hl1 ⊢ <;> try rfl
    all_goals omega

/-- Lockstep of the tail of `regpiece` for `x+` on a non-simple operand:
the `x(&|)` emission. -/
theorem plusGen_lock (ss se : CompSt) (i : Nat) (t b1 be : List Nat)
    (n z1 ze : Nat) (flagp : Flags)
    (hS : SRel ss se ⟨t, n, false, z1, b1⟩ ⟨t, n, true, ze, be⟩) :
    PRel ss se
      (let ret := Ptr.dummy
       let st1 := (⟨t, n, false, z1, b1⟩ : CompSt)
       let st2 :=
         let (nxt, stA) := regnode BRANCH st1
         let stB := regtail ret nxt stA
         let (back, stC) := regnode BACK stB
         let stD := regtail back ret stC
         let (br2, stE) := regnode BRANCH stD
         let stF := regtail nxt br2 stE
         let (nth, stG) := regnode NOTHING stF
         regtail ret nth stG
       let st3 := adv st2
       if ISMULT (peek st3) then Except.error RegError.nestedRepeat
       else Except.ok (ret, flagp, st3))
      (let ret := Ptr.idx i
       let st1 := (⟨t, n, true, ze, be⟩ : CompSt)
       let st2 :=
         let (nxt, stA) := regnode BRANCH st1
         let stB := regtail ret nxt stA
         let (back, stC) := regnode BACK stB
         let stD := regtail back ret stC
         let (br2, stE) := regnode BRANCH stD
         let stF := regtail nxt br2 stE
         let (nth, stG) := regnode NOTHING stF
         regtail ret nth stG
       let st3 := adv st2
       if ISMULT (peek st3) then Except.error RegError.nestedRepeat
       else Except.ok (ret, flagp, st3)) := by
  obtain ⟨hR1, hb1, hz1, hl1⟩ := hS
  simp only [regnode, peek, adv]
  simp only [CompSt.emitting, Bool.not_false, Bool.not_true, if_true, if_false,
    Bool.false_eq_true, CompSt.tokens, CompSt.buf, CompSt.regnpar, CompSt.regsize,
    regtail_dummy, regtail_tokens, regoptail_tokens, regtail_regnpar, regoptail_regnpar,
    regtail_emitting, regoptail_emitting, regtail_regsize, regoptail_regsize,
    regtail_len, regoptail_len]
  split_ifs with h1
  · rfl
  · refine ⟨trivial, rfl, ⟨?_, ?_, ?_, ?_⟩, hb1, ?_, ?_⟩ <;>
      simp only [CompSt.buf, CompSt.regsize, CompSt.tokens, CompSt.regnpar, CompSt.emitting,
        regtail_tokens, regoptail_tokens, regtail_regnpar, regoptail_regnpar,
        regtail_emitting, regoptail_emitting, regtail_regsize, regoptail_regsize,
        regtail_len, regoptail_len,
        List.length_append, List.length_cons, List.length_nil] at hz1 hl1 ⊢ <;> try rfl
    all_goals omega

/-- Lockstep of the tail of `regpiece` for `x?`: the `(x|)` emission. -/
theorem qmarkGen_lock (ss se : CompSt) (i : Nat) (t b1 be : List Nat)
    (n z1 ze : Nat) (flagp : Flags)
    (hS : SRel ss se ⟨t, n, false, z1, b1⟩ ⟨t, n, true, ze, be⟩) :
    PRel ss se
      (let ret := Ptr.dummy
       let st1 := (⟨t, n, false, z1, b1⟩ : CompSt)
       let st2 :=
         let stA := reginsert BRANCH ret st1
         let (br2, stB) := regnode BRANCH stA
         let stC := regtail ret br2 stB
         let (nth, stD) := regnode NOTHING stC
         let stE := regtail ret nth stD
         regoptail ret nth stE
       let st3 := adv st2
       if ISMULT (peek st3) then Except.error RegError.nestedRepeat
       else Except.ok (ret, flagp, st3))
      (let ret := Ptr.idx i
       let st1 := (⟨t, n, true, ze, be⟩ : CompSt)
       let st2 :=
         let stA := reginsert BRANCH ret st1
         let (br2, stB) := regnode BRANCH stA
         let stC := regtail ret br2 stB
         let (nth, stD) := regnode NOTHING stC
         let stE := regtail ret nth stD
         regoptail ret nth stE
       let st3 := adv st2
       if ISMULT (peek st3) then Except.error RegError.nestedRepeat
       else Except.ok (ret, flagp, st3)) := by
  obtain ⟨hR1, hb1, hz1, hl1⟩ := hS
  simp only [reginsert, regnode, peek, adv]
  simp only [CompSt.emitting, Bool.not_false, Bool.not_true, if_true, if_false,
    Bool.false_eq_true, CompSt.tokens, CompSt.buf, CompSt.regnpar, CompSt.regsize,
    regtail_dummy, regoptail_dummy, regtail_tokens, regoptail_tokens,
    regtail_regnpar, regoptail_regnpar, regtail_emitting, regoptail_emitting,
    regtail_regsize, regoptail_regsize, regtail_len, regoptail_len]
  split_ifs with h1
  · rfl
  · have htd : (be.take i).length + (be.drop i).length = be.length := by
      rw [List.length_take, List.length_drop]; omega
    refine ⟨trivial, rfl, ⟨?_, ?_, ?_, ?_⟩, hb1, ?_, ?_⟩ <;>
      simp only [CompSt.buf, CompSt.regsize, CompSt.tokens, CompSt.regnpar, CompSt.emitting,
        regtail_tokens, regoptail_tokens, regtail_regnpar, regoptail_regnpar,
        regtail_emitting, regoptail_emitting, regtail_regsize, regoptail_regsize,
        regtail_len, regoptail_len,
        List.length_append, List.length_cons, List.length_nil] at hz1 hl1 ⊢ <;> try rfl
    all_goals omega

/-- Lockstep of the EXACTLY leaf of `regatom`: one node plus a literal
run of `L` bytes and the terminating NUL. -/
theorem exactly_lock (ss se : CompSt) (t b1 be : List Nat) (n z1 ze L : Nat)
    (hS : SRel ss se ⟨t, n, false, z1, b1⟩ ⟨t, n, true, ze, be⟩) :
    PRel ss se
      (Except.ok ((regnode EXACTLY ⟨t, n, false, z1, b1⟩).1,
        (⟨true, decide (L = 1), false⟩ : Flags),
        regc 0 (emitRun L (regnode EXACTLY ⟨t, n, false, z1, b1⟩).2)))
      (Except.ok ((regnode EXACTLY ⟨t, n, true, ze, be⟩).1,
        (⟨true, decide (L = 1), false⟩ : Flags),
        regc 0 (emitRun L (regnode EXACTLY ⟨t, n, true, ze, be⟩).2))) := by
  obtain ⟨hR1, hb1, hz1, hl1⟩ := hS
  dsimp only at hb1 hz1 hl1
  simp only [regnode, CompSt.emitting, Bool.not_false, Bool.not_true, if_true, if_false,
    Bool.false_eq_true, CompSt.tokens, CompSt.buf, CompSt.regnpar, CompSt.regsize]
  rw [emitRun_sz L (⟨t, n, false, z1 + 3, b1⟩ : CompSt) rfl]
  obtain ⟨w1, w2, w3, w4, w5⟩ :=
    emitRun_em L (⟨t, n, true, ze, be ++ [EXACTLY, 0, 0]⟩ : CompSt) rfl
  rw [regc_sz (⟨List.drop L t, n, false, z1 + 3 + L, b1⟩ : CompSt) rfl,
    regc_em (emitRun L (⟨t, n, true, ze, be ++ [EXACTLY, 0, 0]⟩ : CompSt)) w3]
  refine ⟨trivial, rfl, ⟨?_, ?_, ?_, ?_⟩, hb1, ?_, ?_⟩ <;>
    simp only [CompSt.tokens, CompSt.regnpar, CompSt.emitting, CompSt.buf, CompSt.regsize,
      w1, w2, w3, w4, w5, List.length_append, List.length_cons, List.length_nil] <;>
    try rfl
  all_goals omega

theorem optChain_tokens (fuel : Nat) (br ender : Ptr) (st : CompSt) :
    (optChain fuel br ender st).tokens = st.tokens := (optChain_meta fuel br ender st).1

theorem optChain_regnpar (fuel : Nat) (br ender : Ptr) (st : CompSt) :
    (optChain fuel br ender st).regnpar = st.regnpar := (optChain_meta fuel br ender st).2.1

theorem optChain_emitting (fuel : Nat) (br ender : Ptr) (st : CompSt) :
    (optChain fuel br ender st).emitting = st.emitting := (optChain_meta fuel br ender st).2.2.1

theorem optChain_regsize (fuel : Nat) (br ender : Ptr) (st : CompSt) :
    (optChain fuel br ender st).regsize = st.regsize := (optChain_meta fuel br ender st).2.2.2.1

theorem optChain_len (fuel : Nat) (br ender : Ptr) (st : CompSt) :
    (optChain fuel br ender st).buf.length = st.buf.length :=
  (optChain_meta fuel br ender st).2.2.2.2

theorem optChain_dummy (fuel : Nat) (ender : Ptr) (st : CompSt) :
    optChain fuel Ptr.dummy ender st = st := optChain_sz fuel (Or.inl rfl) ender st

theorem ite_dummy_ne_null {α : Sort _} (a b : α) :
    (if Ptr.dummy ≠ Ptr.null then a else b) = a := if_pos (fun h => Ptr.noConfusion h)

theorem ite_idx_ne_null {α : Sort _} (i : Nat) (a b : α) :
    (if Ptr.idx i ≠ Ptr.null then a else b) = a := if_pos (fun h => Ptr.noConfusion h)

theorem ite_null_ne_null {α : Sort _} (a b : α) :
    (if Ptr.null ≠ Ptr.null then a else b) = b := if_neg (fun h => h rfl)

theorem lockstepAll : ∀ fuel,
    (∀ paren ss se, Rel ss se → PRel ss se (reg fuel paren ss) (reg fuel paren se)) ∧
    (∀ rs re flag ss se, Rel ss se → PtrRel rs re →
      FRel ss se (orLoop fuel rs flag ss) (orLoop fuel re flag se)) ∧
    (∀ ss se, Rel ss se → PRel ss se (regbranch fuel ss) (regbranch fuel se)) ∧
    (∀ cs ce flag ss se, Rel ss se → CPtr cs ce →
      NRel ss se (pieceLoop fuel cs flag ss) (pieceLoop fuel ce flag se)) ∧
    (∀ ss se, Rel ss se → PRel ss se (regpiece fuel ss) (regpiece fuel se)) ∧
    (∀ ss se, Rel ss se → PRel ss se (regatom fuel ss) (regatom fuel se)) ∧
    (∀ prev ss se, Rel ss se → CRel ss se (classLoop fuel prev ss) (classLoop fuel prev se)) := by
  intro fuel
  induction fuel with
  | zero =>
    exact ⟨fun _ _ _ _ => rfl, fun _ _ _ _ _ _ _ => rfl, fun _ _ _ => rfl,
      fun _ _ _ _ _ _ _ => rfl, fun _ _ _ => rfl, fun _ _ _ => rfl, fun _ _ _ _ => rfl⟩
  | succ f ih =>
    obtain ⟨ihreg, ihor, ihbr, ihpl, ihpc, ihat, ihcl⟩ := ih
    refine ⟨?_, ?_, ?_, ?_, ?_, ?_, ?_⟩
    · -- reg
      intro paren ss se hR
      obtain ⟨ts, ns, es, zs, bs⟩ := ss
      obtain ⟨te, ne, ee, ze, be⟩ := se
      obtain ⟨htok, hnp, hsf, hef⟩ := hR
      dsimp only at htok hnp hsf hef
      subst htok hnp hsf hef
      cases paren with
      | false =>
        simp only [reg, peek, adv, CompSt.tokens, CompSt.regnpar, CompSt.emitting,
          CompSt.buf, CompSt.regsize, Bool.false_and, Bool.false_eq_true, if_false,
          if_true, ite_null_ne_null, regtail_dummy, optChain_dummy, decide_eq_true_eq]
        have hbr := ihbr ⟨ts, ns, false, zs, bs⟩ ⟨ts, ns, true, ze, be⟩ ⟨rfl, rfl, rfl, rfl⟩
        rcases hb1 : regbranch f (⟨ts, ns, false, zs, bs⟩ : CompSt)
            with e1 | ⟨brs, fl1, st2s⟩ <;>
          rcases hb2 : regbranch f (⟨ts, ns, true, ze, be⟩ : CompSt)
            with e2 | ⟨bre, fl2, st2e⟩ <;>
          rw [hb1, hb2] at hbr <;> simp only [PRel] at hbr <;> try dsimp only
        · exact hbr
        · obtain ⟨hptr, hfl, hS2⟩ := hbr
          subst hfl
          obtain ⟨hbd, j, hbj⟩ := PtrRel_elim hptr
          subst hbd hbj
          obtain ⟨⟨hT2, hN2, hEs2, hEe2⟩, hB2, hZ2, hL2⟩ := hS2
          try dsimp only at hB2 hZ2 hL2
          try simp only [regtail_dummy, optChain_dummy, ite_null_ne_null,
            ite_dummy_ne_null, ite_idx_ne_null]
          have hor := ihor .dummy (.idx j) ⟨fl1.hasWidth, false, fl1.spstart⟩ st2s st2e
            ⟨hT2, hN2, hEs2, hEe2⟩ trivial
          rcases ho1 : orLoop f Ptr.dummy ⟨fl1.hasWidth, false, fl1.spstart⟩ st2s
              with e1 | ⟨flo1, st4s⟩ <;>
            rcases ho2 : orLoop f (Ptr.idx j) ⟨fl1.hasWidth, false, fl1.spstart⟩ st2e
              with e2 | ⟨flo2, st4e⟩ <;>
            rw [ho1, ho2] at hor <;> simp only [FRel] at hor <;> try dsimp only
          · exact hor
          · obtain ⟨hflo, hS4⟩ := hor
            subst hflo
            obtain ⟨⟨hT4, hN4, hEs4, hEe4⟩, hB4, hZ4, hL4⟩ := hS4
            rw [regnode_sz st4s hEs4 ENDOP, regnode_em st4e hEe4 ENDOP]
            simp only [regtail_dummy, optChain_dummy, peek, adv, CompSt.tokens,
              CompSt.buf, CompSt.regnpar, CompSt.emitting, CompSt.regsize,
              optChain_tokens, regtail_tokens]
            rw [hT4]
            by_cases hz : st4e.tokens.headD 0 = 0
            · rw [if_neg (not_not_intro hz), if_neg (not_not_intro hz)]
              refine ⟨trivial, rfl, ⟨?_, ?_, ?_, ?_⟩, ?_, ?_, ?_⟩
              · simp only [optChain_tokens, regtail_tokens, CompSt.tokens]
                try rw [hT4]
              · simp only [optChain_regnpar, regtail_regnpar, CompSt.regnpar]
                exact hN4
              · exact hEs4
              · simp only [optChain_emitting, regtail_emitting, CompSt.emitting]
                exact hEe4
              · exact hB4.trans hB2
              · simp only [optChain_regsize, regtail_regsize, CompSt.regsize,
                  optChain_len, regtail_len, CompSt.buf, List.length_append,
                  List.length_cons, List.length_nil] at hZ4 hL4 hZ2 hL2 ⊢
                omega
              · simp only [optChain_len, regtail_len, CompSt.buf, List.length_append,
                  List.length_cons, List.length_nil] at hZ4 hL4 hZ2 hL2 ⊢
                omega
            · rw [if_pos hz, if_pos hz]
              by_cases hrb : st4e.tokens.headD 0 = RBRAC
              · rw [if_pos hrb]; rfl
              · rw [if_neg hrb]; rfl
      | true =>
        simp only [reg, peek, adv, CompSt.tokens, CompSt.regnpar, CompSt.emitting,
          CompSt.buf, CompSt.regsize, Bool.true_and, if_true, ite_dummy_ne_null,
          ite_idx_ne_null, decide_eq_true_eq]
        by_cases hp1 : ns ≥ NSUBEXP
        · rw [if_pos hp1, if_pos hp1]; rfl
        · rw [if_neg hp1, if_neg hp1]
          rw [regnode_sz (⟨ts, ns + 1, false, zs, bs⟩ : CompSt) rfl (OPEN + ns),
            regnode_em (⟨ts, ns + 1, true, ze, be⟩ : CompSt) rfl (OPEN + ns)]
          simp only [reduceIte, regtail_dummy, optChain_dummy, ne_eq]
          have hbr := ihbr ⟨ts, ns + 1, false, zs + 3, bs⟩
            ⟨ts, ns + 1, true, ze, be ++ [OPEN + ns, 0, 0]⟩ ⟨rfl, rfl, rfl, rfl⟩
          rcases hb1 : regbranch f (⟨ts, ns + 1, false, zs + 3, bs⟩ : CompSt)
              with e1 | ⟨brs, fl1, st2s⟩ <;>
            rcases hb2 : regbranch f
                (⟨ts, ns + 1, true, ze, be ++ [OPEN + ns, 0, 0]⟩ : CompSt)
              with e2 | ⟨bre, fl2, st2e⟩ <;>
            rw [hb1, hb2] at hbr <;> simp only [PRel] at hbr <;> try dsimp only
          · exact hbr
          · obtain ⟨hptr, hfl, hS2⟩ := hbr
            subst hfl
            obtain ⟨hbd, j, hbj⟩ := PtrRel_elim hptr
            subst hbd hbj
            obtain ⟨⟨hT2, hN2, hEs2, hEe2⟩, hB2, hZ2, hL2⟩ := hS2
            try dsimp only at hB2 hZ2 hL2
            try simp only [regtail_dummy, optChain_dummy, ite_dummy_ne_null,
              ite_idx_ne_null]
            have gt2 := regtail_meta (.idx be.length) (.idx j) st2e
            have hor := ihor .dummy (.idx be.length)
              ⟨fl1.hasWidth, false, fl1.spstart⟩ st2s
              (regtail (.idx be.length) (.idx j) st2e)
              ⟨hT2.trans gt2.1.symm, hN2.trans gt2.2.1.symm, hEs2,
               gt2.2.2.1.trans hEe2⟩ trivial
            rcases ho1 : orLoop f Ptr.dummy ⟨fl1.hasWidth, false, fl1.spstart⟩ st2s
                with e1 | ⟨flo1, st4s⟩ <;>
              rcases ho2 : orLoop f (Ptr.idx be.length)
                  ⟨fl1.hasWidth, false, fl1.spstart⟩
                  (regtail (.idx be.length) (.idx j) st2e)
                with e2 | ⟨flo2, st4e⟩ <;>
              rw [ho1, ho2] at hor <;> simp only [FRel] at hor <;> try dsimp only
            · exact hor
            · obtain ⟨hflo, hS4⟩ := hor
              subst hflo
              obtain ⟨⟨hT4, hN4, hEs4, hEe4⟩, hB4, hZ4, hL4⟩ := hS4
              rw [regnode_sz st4s hEs4 (CLOSE + ns), regnode_em st4e hEe4 (CLOSE + ns)]
              simp only [regtail_dummy, optChain_dummy, peek, adv, CompSt.tokens,
                CompSt.buf, CompSt.regnpar, CompSt.emitting, CompSt.regsize,
                optChain_tokens, regtail_tokens]
              rw [hT4]
              by_cases hz : st4e.tokens.headD 0 = RBRAC
              · rw [if_neg (not_not_intro hz), if_neg (not_not_intro hz)]
                refine ⟨trivial, rfl, ⟨?_, ?_, ?_, ?_⟩, ?_, ?_, ?_⟩
                · simp only [adv, optChain_tokens, regtail_tokens, CompSt.tokens]
                  try rw [hT4]
                · simp only [optChain_regnpar, regtail_regnpar, CompSt.regnpar]
                  exact hN4
                · exact hEs4
                · simp only [optChain_emitting, regtail_emitting, CompSt.emitting]
                  exact hEe4
                · exact hB4.trans hB2
                · simp only [optChain_regsize, regtail_regsize, CompSt.regsize,
                    optChain_len, regtail_len, CompSt.buf, List.length_append,
                    List.length_cons, List.length_nil] at hZ4 hL4 hZ2 hL2 ⊢
                  omega
                · simp only [optChain_len, regtail_len, CompSt.buf, List.length_append,
                    List.length_cons, List.length_nil] at hZ4 hL4 hZ2 hL2 ⊢
                  omega
              · rw [if_pos hz, if_pos hz]; rfl
    · -- orLoop
      intro rs re flag ss se hR hP
      obtain ⟨htok, hnp, hsf, hef⟩ := hR
      have hpk : peek ss = peek se := by simp [peek, htok]
      simp only [orLoop]
      rw [hpk]
      split_ifs with h1
      · exact ⟨rfl, SRel_refl ⟨htok, hnp, hsf, hef⟩⟩
      · obtain ⟨hrs, i, hre⟩ := PtrRel_elim hP
        subst hrs hre
        have hbr := ihbr (adv ss) (adv se) ⟨by simp [adv, htok], hnp, hsf, hef⟩
        rcases hbs : regbranch f (adv ss) with e1 | ⟨brs, fls, st1s⟩ <;>
          rcases hbe : regbranch f (adv se) with e2 | ⟨bre, fle, st1e⟩ <;>
          rw [hbs, hbe] at hbr <;> simp only [PRel] at hbr <;> try dsimp only
        · exact hbr
        · obtain ⟨hptr, hfl, hS⟩ := hbr
          subst hfl
          rw [regtail_noop (Or.inl rfl) brs st1s]
          have gt := regtail_meta (.idx i) bre st1e
          have hrec := ihor .dummy (.idx i)
            ⟨flag.hasWidth && fls.hasWidth, flag.simple, flag.spstart || fls.spstart⟩
            st1s (regtail (.idx i) bre st1e)
            ⟨hS.1.1.trans gt.1.symm, hS.1.2.1.trans gt.2.1.symm, hS.1.2.2.1,
             gt.2.2.1.trans hS.1.2.2.2⟩ trivial
          rcases hos : orLoop f .dummy
              ⟨flag.hasWidth && fls.hasWidth, flag.simple, flag.spstart || fls.spstart⟩
              st1s with e1 | ⟨flo, st2s⟩ <;>
            rcases hoe : orLoop f (.idx i)
              ⟨flag.hasWidth && fls.hasWidth, flag.simple, flag.spstart || fls.spstart⟩
              (regtail (.idx i) bre st1e) with e2 | ⟨flo2, st2e⟩ <;>
            rw [hos, hoe] at hrec <;> simp only [FRel] at hrec ⊢
          · exact hrec
          · have hb1 := hS.2.1
            have hz1 := hS.2.2.1
            have hl1 := hS.2.2.2
            dsimp only [adv] at hb1 hz1 hl1
            exact ⟨hrec.1, SRel_shift hrec.2 hb1 (by rw [gt.2.2.2.2]; omega)
              (by rw [gt.2.2.2.2]; omega)⟩
    · -- regbranch
      intro ss se hR
      obtain ⟨htok, hnp, hsf, hef⟩ := hR
      simp only [regbranch]
      rw [regnode_sz ss hsf BRANCH, regnode_em se hef BRANCH]
      dsimp only
      have hrec := ihpl .null .null WORST
        { ss with regsize := ss.regsize + 3 } { se with buf := se.buf ++ [BRANCH, 0, 0] }
        ⟨htok, hnp, hsf, hef⟩ (Or.inl ⟨rfl, rfl⟩)
      rcases hps : pieceLoop f Ptr.null WORST { ss with regsize := ss.regsize + 3 }
          with e1 | ⟨chs, fl1, st2s⟩ <;>
        rcases hpe : pieceLoop f Ptr.null WORST { se with buf := se.buf ++ [BRANCH, 0, 0] }
          with e2 | ⟨che, fl2, st2e⟩ <;>
        rw [hps, hpe] at hrec <;> simp only [NRel] at hrec <;> try dsimp only
      · exact hrec
      · obtain ⟨hc, hfl, hS⟩ := hrec
        subst hfl
        obtain ⟨hRl, hb, hz, hl⟩ := hS
        try dsimp only at hb hz hl
        simp only [List.length_append, List.length_cons, List.length_nil] at hz hl
        rcases hc with ⟨hc1, hc2⟩ | hc
        · subst hc1 hc2
          rw [if_pos rfl, if_pos rfl,
            regnode_sz st2s hRl.2.2.1 NOTHING, regnode_em st2e hRl.2.2.2 NOTHING]
          refine ⟨trivial, rfl, ⟨hRl.1, hRl.2.1, hRl.2.2.1, hRl.2.2.2⟩, hb, ?_, ?_⟩ <;>
            simp only [List.length_append, List.length_cons, List.length_nil] <;> omega
        · obtain ⟨hcd, j, hce⟩ := PtrRel_elim hc
          subst hcd hce
          rw [if_neg (by simp), if_neg (by simp)]
          exact ⟨trivial, rfl, hRl, hb, by omega, by omega⟩
    · -- pieceLoop
      intro cs ce flag ss se hR hP
      obtain ⟨htok, hnp, hsf, hef⟩ := hR
      have hpk : peek ss = peek se := by simp [peek, htok]
      simp only [pieceLoop]
      rw [hpk]
      by_cases h1 : peek se = 0 ∨ peek se = OR_OP ∨ peek se = RBRAC
      · rw [if_pos h1, if_pos h1]
        exact ⟨hP, rfl, SRel_refl ⟨htok, hnp, hsf, hef⟩⟩
      · rw [if_neg h1, if_neg h1]
        have hpc := ihpc ss se ⟨htok, hnp, hsf, hef⟩
        rcases hps : regpiece f ss with e1 | ⟨lats, fls, st1s⟩ <;>
          rcases hpe : regpiece f se with e2 | ⟨late, fle, st1e⟩ <;>
          rw [hps, hpe] at hpc <;> simp only [PRel] at hpc <;> try dsimp only
        · exact hpc
        · obtain ⟨hptr, hfl, hS⟩ := hpc
          subst hfl
          obtain ⟨hld, j, hlj⟩ := PtrRel_elim hptr
          subst hld hlj
          rcases hP with ⟨hc1, hc2⟩ | hc
          · subst hc1 hc2
            rw [if_pos rfl, if_pos rfl]
            have hrec := ihpl .dummy (.idx j)
              { hasWidth := flag.hasWidth || fls.hasWidth, simple := flag.simple,
                spstart := flag.spstart || fls.spstart }
              st1s st1e hS.1 (Or.inr trivial)
            rcases hr1 : pieceLoop f Ptr.dummy
                { hasWidth := flag.hasWidth || fls.hasWidth, simple := flag.simple,
                  spstart := flag.spstart || fls.spstart } st1s with e1 | ⟨c1, f1, o1⟩ <;>
              rcases hr2 : pieceLoop f (Ptr.idx j)
                { hasWidth := flag.hasWidth || fls.hasWidth, simple := flag.simple,
                  spstart := flag.spstart || fls.spstart } st1e with e2 | ⟨c2, f2, o2⟩ <;>
              rw [hr1, hr2] at hrec <;> simp only [NRel] at hrec ⊢
            · exact hrec
            · exact ⟨hrec.1, hrec.2.1, SRel_shift hrec.2.2 hS.2.1 hS.2.2.1 hS.2.2.2⟩
          · obtain ⟨hcd, k, hck⟩ := PtrRel_elim hc
            subst hcd hck
            rw [if_neg (by simp), if_neg (by simp)]
            rw [regtail_noop (Or.inl rfl) Ptr.dummy st1s]
            have gt := regtail_meta (.idx k) (.idx j) st1e
            have hrec := ihpl .dummy (.idx j)
              { hasWidth := flag.hasWidth || fls.hasWidth, simple := flag.simple,
                spstart := flag.spstart }
              st1s (regtail (.idx k) (.idx j) st1e)
              ⟨hS.1.1.trans gt.1.symm, hS.1.2.1.trans gt.2.1.symm, hS.1.2.2.1,
               gt.2.2.1.trans hS.1.2.2.2⟩ (Or.inr trivial)
            rcases hr1 : pieceLoop f Ptr.dummy
                { hasWidth := flag.hasWidth || fls.hasWidth, simple := flag.simple,
                  spstart := flag.spstart } st1s with e1 | ⟨c1, f1, o1⟩ <;>
              rcases hr2 : pieceLoop f (Ptr.idx j)
                { hasWidth := flag.hasWidth || fls.hasWidth, simple := flag.simple,
                  spstart := flag.spstart } (regtail (.idx k) (.idx j) st1e)
                with e2 | ⟨c2, f2, o2⟩ <;>
              rw [hr1, hr2] at hrec <;> simp only [NRel] at hrec ⊢
            · exact hrec
            · exact ⟨hrec.1, hrec.2.1, SRel_shift hrec.2.2 hS.2.1
                (by rw [gt.2.2.2.2]; have := hS.2.2.1; omega)
                (by rw [gt.2.2.2.2]; have := hS.2.2.2; omega)⟩
    · -- regpiece
      intro ss se hR
      obtain ⟨htok, hnp, hsf, hef⟩ := hR
      simp only [regpiece]
      have hat := ihat ss se ⟨htok, hnp, hsf, hef⟩
      rcases has : regatom f ss with e1 | ⟨rets, fls, st1s⟩ <;>
        rcases hae : regatom f se with e2 | ⟨rete, fle, st1e⟩ <;>
        rw [has, hae] at hat <;> simp only [PRel] at hat <;> try dsimp only
      · exact hat
      · obtain ⟨hptr, hfl, hS⟩ := hat
        subst hfl
        obtain ⟨hrd, i, hri⟩ := PtrRel_elim hptr
        subst hrd hri
        obtain ⟨t1, n1, es1, z1, b1⟩ := st1s
        obtain ⟨t2, n2, es2, ze, be⟩ := st1e
        obtain ⟨⟨ht1, hn1, hs1, he1⟩, hb1, hz1, hl1⟩ := hS
        dsimp only at ht1 hn1 hs1 he1 hb1 hz1 hl1
        subst ht1 hn1 hs1 he1
        simp only [peek, CompSt.tokens]
        by_cases hm1 : (!ISMULT (t1.headD 0)) = true
        · rw [if_pos hm1, if_pos hm1]
          exact ⟨trivial, rfl, ⟨rfl, rfl, rfl, rfl⟩, hb1, hz1, hl1⟩
        · rw [if_neg hm1, if_neg hm1]
          by_cases hm2 : (!fls.hasWidth && decide (t1.headD 0 ≠ QMARK)) = true
          · rw [if_pos hm2, if_pos hm2]
            rfl
          · rw [if_neg hm2, if_neg hm2]
            by_cases hm3 : (decide (t1.headD 0 = ASTERIX) && fls.simple) = true
            · rw [if_pos hm3, if_pos hm3]
              exact insSimple_lock STAR ss se i t1 b1 be n1 z1 ze _
                ⟨⟨rfl, rfl, rfl, rfl⟩, hb1, hz1, hl1⟩
            · rw [if_neg hm3, if_neg hm3]
              by_cases hm4 : t1.headD 0 = ASTERIX
              · rw [if_pos hm4, if_pos hm4]
                exact starGen_lock ss se i t1 b1 be n1 z1 ze _
                  ⟨⟨rfl, rfl, rfl, rfl⟩, hb1, hz1, hl1⟩
              · rw [if_neg hm4, if_neg hm4]
                by_cases hm5 : (decide (t1.headD 0 = PLUSS) && fls.simple) = true
                · rw [if_pos hm5, if_pos hm5]
                  exact insSimple_lock PLUS ss se i t1 b1 be n1 z1 ze _
                    ⟨⟨rfl, rfl, rfl, rfl⟩, hb1, hz1, hl1⟩
                · rw [if_neg hm5, if_neg hm5]
                  by_cases hm6 : t1.headD 0 = PLUSS
                  · rw [if_pos hm6, if_pos hm6]
                    exact plusGen_lock ss se i t1 b1 be n1 z1 ze _
                      ⟨⟨rfl, rfl, rfl, rfl⟩, hb1, hz1, hl1⟩
                  · rw [if_neg hm6, if_neg hm6]
                    exact qmarkGen_lock ss se i t1 b1 be n1 z1 ze _
                      ⟨⟨rfl, rfl, rfl, rfl⟩, hb1, hz1, hl1⟩
    · -- regatom
      intro ss se hR
      obtain ⟨ts, ns, es, zs, bs⟩ := ss
      obtain ⟨te, ne, ee, ze, be⟩ := se
      obtain ⟨htok, hnp, hsf, hef⟩ := hR
      dsimp only at htok hnp hsf hef
      subst htok hnp hsf hef
      simp only [regatom, peek, adv, CompSt.tokens, CompSt.regnpar, CompSt.emitting,
        CompSt.buf, CompSt.regsize, regnode, regc, Bool.not_false, Bool.not_true,
        if_true, if_false, Bool.false_eq_true, eq_self_iff_true]
      by_cases h1 : ts.headD 0 = CARET
      · rw [if_pos h1, if_pos h1]
        exact ⟨trivial, rfl, ⟨rfl, rfl, rfl, rfl⟩, rfl, by simp, by simp⟩
      · rw [if_neg h1, if_neg h1]
        by_cases h2 : ts.headD 0 = DOLLAR
        · rw [if_pos h2, if_pos h2]
          exact ⟨trivial, rfl, ⟨rfl, rfl, rfl, rfl⟩, rfl, by simp, by simp⟩
        · rw [if_neg h2, if_neg h2]
          by_cases h3 : ts.headD 0 = DOT
          · rw [if_pos h3, if_pos h3]
            exact ⟨trivial, rfl, ⟨rfl, rfl, rfl, rfl⟩, rfl, by simp, by simp⟩
          · rw [if_neg h3, if_neg h3]
            by_cases h4 : ts.headD 0 = LSHBRAC
            · rw [if_pos h4, if_pos h4]
              exact ⟨trivial, rfl, ⟨rfl, rfl, rfl, rfl⟩, rfl, by simp, by simp⟩
            · rw [if_neg h4, if_neg h4]
              by_cases h5 : ts.headD 0 = RSHBRAC
              · rw [if_pos h5, if_pos h5]
                exact ⟨trivial, rfl, ⟨rfl, rfl, rfl, rfl⟩, rfl, by simp, by simp⟩
              · rw [if_neg h5, if_neg h5]
                by_cases h6 : ts.headD 0 = LSQBRAC
                · rw [if_pos h6, if_pos h6]
                  have key : ∀ (p j : Nat) (x1 x2 : CompSt),
                      SRel ⟨ts, ns, false, zs, bs⟩ ⟨ts, ns, true, ze, be⟩ x1 x2 →
                      PRel ⟨ts, ns, false, zs, bs⟩ ⟨ts, ns, true, ze, be⟩
                        (match classLoop f p x1 with
                         | .error e => .error e
                         | .ok st3 =>
                           let st4 := regc 0 st3
                           if peek st4 ≠ RSQBRAC then .error .unmatchedBracket
                           else .ok (Ptr.dummy, (⟨true, true, false⟩ : Flags), adv st4))
                        (match classLoop f p x2 with
                         | .error e => .error e
                         | .ok st3 =>
                           let st4 := regc 0 st3
                           if peek st4 ≠ RSQBRAC then .error .unmatchedBracket
                           else .ok (Ptr.idx j, (⟨true, true, false⟩ : Flags), adv st4)) := by
                    intro p j x1 x2 hsx
                    have hcl := ihcl p x1 x2 hsx.1
                    rcases hk1 : classLoop f p x1 with e1 | s3 <;>
                      rcases hk2 : classLoop f p x2 with e2 | s4 <;>
                      rw [hk1, hk2] at hcl <;> simp only [CRel] at hcl <;> try dsimp only
                    · exact hcl
                    · have hcomp := SRel_shift hcl hsx.2.1 hsx.2.2.1 hsx.2.2.2
                      obtain ⟨⟨hT, hN, hE1, hE2⟩, hB, hZ, hL⟩ := hcomp
                      try dsimp only at hB hZ hL
                      rw [regc_sz s3 hE1, regc_em s4 hE2]
                      simp only [peek, CompSt.tokens]
                      rw [hT]
                      by_cases hq : s4.tokens.headD 0 = RSQBRAC
                      · rw [if_neg (not_not_intro hq), if_neg (not_not_intro hq)]
                        exact ⟨trivial, rfl,
                          ⟨by dsimp only [adv], by dsimp only [adv]; exact hN,
                           hE1, hE2⟩, hB,
                          by dsimp only [adv]; simp only [List.length_append,
                            List.length_cons, List.length_nil]; omega,
                          by dsimp only [adv]; simp only [List.length_append,
                            List.length_cons, List.length_nil]; omega⟩
                      · rw [if_pos hq, if_pos hq]
                        rfl
                  by_cases hc1 : (List.drop 1 ts).headD 0 = CARET
                  · rw [if_pos hc1, if_pos hc1]
                    by_cases hc2 : (List.drop 1 (List.drop 1 ts)).headD 0 = RSQBRAC ∨
                        (List.drop 1 (List.drop 1 ts)).headD 0 = 45
                    · rw [if_pos hc2, if_pos hc2]
                      simp only [Bool.false_eq_true, eq_self_iff_true, if_false, if_true]
                      exact key _ _ _ _ ⟨⟨rfl, rfl, rfl, rfl⟩, rfl,
                        by dsimp only; simp only [List.length_append,
                          List.length_cons, List.length_nil]; omega,
                        by dsimp only; simp only [List.length_append,
                          List.length_cons, List.length_nil]; omega⟩
                    · rw [if_neg hc2, if_neg hc2]
                      simp only [Bool.false_eq_true, eq_self_iff_true, if_false, if_true]
                      exact key _ _ _ _ ⟨⟨rfl, rfl, rfl, rfl⟩, rfl,
                        by dsimp only; simp only [List.length_append,
                          List.length_cons, List.length_nil]; omega,
                        by dsimp only; simp only [List.length_append,
                          List.length_cons, List.length_nil]; omega⟩
                  · rw [if_neg hc1, if_neg hc1]
                    by_cases hc2 : (List.drop 1 ts).headD 0 = RSQBRAC ∨
                        (List.drop 1 ts).headD 0 = 45
                    · rw [if_pos hc2, if_pos hc2]
                      simp only [Bool.false_eq_true, eq_self_iff_true, if_false, if_true]
                      exact key _ _ _ _ ⟨⟨rfl, rfl, rfl, rfl⟩, rfl,
                        by dsimp only; simp only [List.length_append,
                          List.length_cons, List.length_nil]; omega,
                        by dsimp only; simp only [List.length_append,
                          List.length_cons, List.length_nil]; omega⟩
                    · rw [if_neg hc2, if_neg hc2]
                      simp only [Bool.false_eq_true, eq_self_iff_true, if_false, if_true]
                      exact key _ _ _ _ ⟨⟨rfl, rfl, rfl, rfl⟩, rfl,
                        by dsimp only; simp only [List.length_append,
                          List.length_cons, List.length_nil]; omega,
                        by dsimp only; simp only [List.length_append,
                          List.length_cons, List.length_nil]; omega⟩
                · rw [if_neg h6, if_neg h6]
                  by_cases h7 : ts.headD 0 = LBRAC
                  · rw [if_pos h7, if_pos h7]
                    have hrg := ihreg true
                      ⟨ts.drop 1, ns, false, zs, bs⟩ ⟨ts.drop 1, ns, true, ze, be⟩
                      ⟨rfl, rfl, rfl, rfl⟩
                    rcases hr1 : reg f true (⟨ts.drop 1, ns, false, zs, bs⟩ : CompSt)
                        with e1 | ⟨r1, f1, o1⟩ <;>
                      rcases hr2 : reg f true (⟨ts.drop 1, ns, true, ze, be⟩ : CompSt)
                        with e2 | ⟨r2, f2, o2⟩ <;>
                      rw [hr1, hr2] at hrg <;> simp only [PRel] at hrg <;> try dsimp only
                    · exact hrg
                    · exact ⟨hrg.1, by rw [hrg.2.1], hrg.2.2⟩
                  · rw [if_neg h7, if_neg h7]
                    by_cases h8 : ts.headD 0 = 0 ∨ ts.headD 0 = OR_OP ∨ ts.headD 0 = RBRAC
                    · rw [if_pos h8, if_pos h8]; rfl
                    · rw [if_neg h8, if_neg h8]
                      by_cases h9 : ts.headD 0 = ASTERIX
                      · rw [if_pos h9, if_pos h9]; rfl
                      · rw [if_neg h9, if_neg h9]
                        by_cases h10 : ts.headD 0 = PLUSS
                        · rw [if_pos h10, if_pos h10]; rfl
                        · rw [if_neg h10, if_neg h10]
                          by_cases h11 : ts.headD 0 = QMARK
                          · rw [if_pos h11, if_pos h11]; rfl
                          · rw [if_neg h11, if_neg h11]
                            by_cases h12 : (ts.takeWhile
                                (fun tk => tk ≠ 0 && Nat.land tk SPECIAL = 0 &&
                                  tk ≠ RSQBRAC)).length = 0
                            · rw [if_pos h12, if_pos h12]; rfl
                            · rw [if_neg h12, if_neg h12]
                              exact exactly_lock ⟨ts, ns, false, zs, bs⟩
                                ⟨ts, ns, true, ze, be⟩ ts bs be ns zs ze _
                                (SRel_refl ⟨rfl, rfl, rfl, rfl⟩)
    · -- classLoop
      intro prev ss se hR
      obtain ⟨htok, hnp, hsf, hef⟩ := hR
      have hpk : peek ss = peek se := by simp [peek, htok]
      have hpk2 : peek (adv ss) = peek (adv se) := by simp [peek, adv, htok]
      simp only [classLoop]
      rw [hpk, hpk2]
      split_ifs with h1 h2 h3 h4
      · exact SRel_refl ⟨htok, hnp, hsf, hef⟩
      · -- literal dash before ] or NUL: recurse after regc 45 (adv st)
        have hS : regc 45 (adv ss) =
            { ss with tokens := ss.tokens.drop 1, regsize := ss.regsize + 1 } := by
          rw [regc_sz (adv ss) hsf]; rfl
        have hE : regc 45 (adv se) =
            { se with tokens := se.tokens.drop 1, buf := se.buf ++ [Nat.land 45 255] } := by
          rw [regc_em (adv se) hef]; rfl
        rw [hS, hE]
        have hrec := ihcl 45
          { ss with tokens := ss.tokens.drop 1, regsize := ss.regsize + 1 }
          { se with tokens := se.tokens.drop 1, buf := se.buf ++ [Nat.land 45 255] }
          ⟨by simp [htok], hnp, hsf, hef⟩
        rcases hcs : classLoop f 45
            { ss with tokens := ss.tokens.drop 1, regsize := ss.regsize + 1 } with e1 | s1 <;>
          rcases hce : classLoop f 45
            { se with tokens := se.tokens.drop 1, buf := se.buf ++ [Nat.land 45 255] }
            with e2 | s2 <;>
          rw [hcs, hce] at hrec <;> simp only [CRel] at hrec ⊢
        · exact hrec
        · exact SRel_shift hrec rfl (by simp) (by simp)
      · -- invalid range: both fail
        rfl
      · -- range expansion: recurse after adv (emitRange ...)
        have hsz := emitRange_sz (Nat.land (peek (adv se)) 255 + 1 - (Nat.land prev 255 + 1))
          (Nat.land prev 255 + 1) (adv ss) hsf
        have hem := emitRange_em (Nat.land (peek (adv se)) 255 + 1 - (Nat.land prev 255 + 1))
          (Nat.land prev 255 + 1) (adv se) hef
        have hS : adv (emitRange (Nat.land prev 255 + 1)
            (Nat.land (peek (adv se)) 255 + 1 - (Nat.land prev 255 + 1)) (adv ss)) =
            { ss with
              tokens := (ss.tokens.drop 1).drop 1
              regsize := ss.regsize +
                (Nat.land (peek (adv se)) 255 + 1 - (Nat.land prev 255 + 1)) } := by
          rw [hsz]; rfl
        rw [hS]
        obtain ⟨m1, m2, m3, m4, m5⟩ := hem
        have hrec := ihcl (peek (adv se))
          { ss with
            tokens := (ss.tokens.drop 1).drop 1
            regsize := ss.regsize +
              (Nat.land (peek (adv se)) 255 + 1 - (Nat.land prev 255 + 1)) }
          (adv (emitRange (Nat.land prev 255 + 1)
            (Nat.land (peek (adv se)) 255 + 1 - (Nat.land prev 255 + 1)) (adv se)))
          ⟨by have := m1; dsimp only [adv] at this ⊢; rw [this, htok],
           by have := m2; dsimp only [adv] at this ⊢; rw [this, hnp],
           hsf,
           by have := m3; dsimp only [adv] at this ⊢; exact this.trans hef⟩
        rcases hcs : classLoop f (peek (adv se))
            { ss with
              tokens := (ss.tokens.drop 1).drop 1
              regsize := ss.regsize +
                (Nat.land (peek (adv se)) 255 + 1 - (Nat.land prev 255 + 1)) } with e1 | s1 <;>
          rcases hce : classLoop f (peek (adv se))
            (adv (emitRange (Nat.land prev 255 + 1)
              (Nat.land (peek (adv se)) 255 + 1 - (Nat.land prev 255 + 1)) (adv se)))
            with e2 | s2 <;>
          rw [hcs, hce] at hrec <;> simp only [CRel] at hrec ⊢
        · exact hrec
        · exact SRel_shift hrec rfl
            (by dsimp only [adv] at m5 ⊢; rw [m5]; omega)
            (by dsimp only [adv] at m5 ⊢; rw [m5]; omega)
      · -- ordinary class byte: recurse after regc t (adv st)
        have hS : regc (peek se) (adv ss) =
            { ss with tokens := ss.tokens.drop 1, regsize := ss.regsize + 1 } := by
          rw [regc_sz (adv ss) hsf]; rfl
        have hE : regc (peek se) (adv se) =
            { se with
              tokens := se.tokens.drop 1
              buf := se.buf ++ [Nat.land (peek se) 255] } := by
          rw [regc_em (adv se) hef]; rfl
        rw [hS, hE]
        have hrec := ihcl (peek se)
          { ss with tokens := ss.tokens.drop 1, regsize := ss.regsize + 1 }
          { se with
            tokens := se.tokens.drop 1
            buf := se.buf ++ [Nat.land (peek se) 255] }
          ⟨by simp [htok], hnp, hsf, hef⟩
        rcases hcs : classLoop f (peek se)
            { ss with tokens := ss.tokens.drop 1, regsize := ss.regsize + 1 } with e1 | s1 <;>
          rcases hce : classLoop f (peek se)
            { se with
              tokens := se.tokens.drop 1
              buf := se.buf ++ [Nat.land (peek se) 255] } with e2 | s2 <;>
          rw [hcs, hce] at hrec <;> simp only [CRel] at hrec ⊢
        · exact hrec
        · exact SRel_shift hrec rfl (by simp) (by simp)

/-! ## Pass-level lockstep: pass1 and pass2 agree -/

/-- The two passes fail identically: a pattern rejected by the sizing
pass is rejected by the emission pass with the same error, and vice
versa. -/
theorem pass_error_iff (tokens : List Nat) (e : RegError) :
    pass1 tokens = .error e ↔ pass2 tokens = .error e := by
  have L := (lockstepAll (parseFuel tokens)).1 false
    ⟨tokens, 1, false, 1, []⟩ ⟨tokens, 1, true, 0, [156]⟩ ⟨rfl, rfl, rfl, rfl⟩
  have he1 : regc MAGIC ⟨tokens, 1, false, 0, []⟩ = (⟨tokens, 1, false, 1, []⟩ : CompSt) := rfl
  have he2 : regc MAGIC ⟨tokens, 1, true, 0, []⟩ = (⟨tokens, 1, true, 0, [156]⟩ : CompSt) := rfl
  rcases r1 : reg (parseFuel tokens) false ⟨tokens, 1, false, 1, []⟩ with e1 | ⟨p1, f1, o1⟩ <;>
    rcases r2 : reg (parseFuel tokens) false ⟨tokens, 1, true, 0, [156]⟩ with e2 | ⟨p2, f2, o2⟩ <;>
    rw [r1, r2] at L <;> simp only [PRel] at L <;>
    simp only [pass1, pass2, he1, he2, r1, r2]
  · constructor <;> intro h <;> injection h with h <;> rw [← h, L]
  · constructor <;> intro h <;> cases h

/-- When the emission pass succeeds, the sizing pass succeeds as well,
with an untouched (empty) buffer and a size counter equal to the number
of bytes the emission pass wrote, magic byte included. -/
theorem pass1_of_pass2 (tokens : List Nat) (flags : Flags) (st2 : CompSt)
    (h : pass2 tokens = .ok (flags, st2)) :
    pass1 tokens = .ok ⟨st2.tokens, st2.regnpar, false, st2.buf.length, []⟩ := by
  have L := (lockstepAll (parseFuel tokens)).1 false
    ⟨tokens, 1, false, 1, []⟩ ⟨tokens, 1, true, 0, [156]⟩ ⟨rfl, rfl, rfl, rfl⟩
  have he1 : regc MAGIC ⟨tokens, 1, false, 0, []⟩ = (⟨tokens, 1, false, 1, []⟩ : CompSt) := rfl
  have he2 : regc MAGIC ⟨tokens, 1, true, 0, []⟩ = (⟨tokens, 1, true, 0, [156]⟩ : CompSt) := rfl
  rcases r1 : reg (parseFuel tokens) false ⟨tokens, 1, false, 1, []⟩ with e1 | ⟨p1, f1, o1⟩ <;>
    rcases r2 : reg (parseFuel tokens) false ⟨tokens, 1, true, 0, [156]⟩ with e2 | ⟨p2, f2, o2⟩ <;>
    rw [r1, r2] at L <;> simp only [PRel] at L <;>
    simp only [pass1, pass2, he1, he2, r1, r2] at h ⊢
  · cases h
  · obtain ⟨hptr, hfl, ⟨⟨hT, hN, hEs, hEe⟩, hB, hZ, hL2⟩⟩ := L
    injection h with h
    injection h with hf ho
    subst ho
    obtain ⟨t1, n1, e1, z1, b1⟩ := o1
    simp only at hT hN hEs hB hZ
    subst hT hN hEs hB
    simp only [CompSt.buf, List.length_nil, List.length_cons, List.length_singleton,
      CompSt.tokens, CompSt.regnpar] at hZ hL2 ⊢
    congr 1
    simp only [CompSt.mk.injEq, and_true, true_and]
    omega

/-- C4: the sizing pass and the emission pass run the identical grammar
and agree exactly: they accept and reject the same token streams with
identical errors; on success the number of bytes pass 2 emits, magic
byte included, equals the `regsize` counter of pass 1, whose own buffer
stays untouched (so the single allocation of that size is exactly
right); and a pattern rejected by pass 1 makes `regcomp` return the
error before any emission pass runs. -/
theorem claim_C4 :
    (∀ tokens e, pass1 tokens = Except.error e ↔ pass2 tokens = Except.error e) ∧
    (∀ tokens st1 flags st2, pass1 tokens = .ok st1 → pass2 tokens = .ok (flags, st2) →
      st2.buf.length = st1.regsize ∧ st1.buf = []) ∧
    (∀ pattern excompat tokens e, preprocess excompat pattern = .ok tokens →
      pass1 tokens = .error e → regcomp pattern excompat = .error e) := by
  refine ⟨fun tokens e => pass_error_iff tokens e, ?_, ?_⟩
  · intro tokens st1 flags st2 h1 h2
    have hp := pass1_of_pass2 tokens flags st2 h2
    rw [h1] at hp
    injection hp with hp
    rw [hp]
    exact ⟨rfl, rfl⟩
  · intro pattern excompat tokens e h1 h2
    simp only [regcomp, h1, h2]

/-- Witness for C4: the bare `*` pattern is rejected by both passes with
the same error and never reaches allocation; the pattern `a` sizes to
exactly the 12 bytes the emission pass writes. -/
theorem claim_C4_witness :
    (preprocess false [42] = .ok [298] ∧
     pass1 [298] = .error .starFollowsNothing ∧
     regcomp [42] false = .error .starFollowsNothing) ∧
    (pass1 [97] = .ok ⟨[], 1, false, 12, []⟩ ∧
     pass2 [97] = .ok (⟨true, false, false⟩,
       ⟨[], 1, true, 0, [156, 6, 0, 8, 8, 0, 5, 97, 0, 0, 0, 0]⟩) ∧
     ([156, 6, 0, 8, 8, 0, 5, 97, 0, 0, 0, 0] : List Nat).length = 12) ∧
    pass2 [298] = .error .starFollowsNothing :=
  ⟨⟨rfl, rfl, claim_C4.2.2 [42] false [298] .starFollowsNothing rfl rfl⟩,
   ⟨rfl, rfl, (claim_C4.2.1 [97] ⟨[], 1, false, 12, []⟩ ⟨true, false, false⟩
      ⟨[], 1, true, 0, [156, 6, 0, 8, 8, 0, 5, 97, 0, 0, 0, 0]⟩ rfl rfl).1⟩,
   (claim_C4.1 [298] .starFollowsNothing).mp rfl⟩

/-! ## The compilation of (a)(b)?, staged through the intermediate
compiler states -/

/-- The token stream of `(a)(b)?` after preprocessing. -/
def c3T : List Nat := [296, 97, 297, 296, 98, 297, 319]

/-- Emission state after the MAGIC byte. -/
def c3st0 : CompSt := ⟨c3T, 1, true, 0, [156]⟩

/-- ... after the top-level BRANCH node. -/
def c3st0b : CompSt := ⟨c3T, 1, true, 0, [156, 6, 0, 0]⟩

/-- ... after the piece `(a)`. -/
def c3stA : CompSt := ⟨[296, 98, 297, 319], 2, true, 0,
  [156, 6, 0, 0, 21, 0, 3, 6, 0, 8, 8, 0, 5, 97, 0, 31, 0, 0]⟩

/-- ... after the piece `(b)?`. -/
def c3stB : CompSt := ⟨[], 3, true, 0,
  [156, 6, 0, 0, 21, 0, 3, 6, 0, 8, 8, 0, 5, 97, 0, 31, 0, 0, 6, 0, 17, 22, 0, 3,
   6, 0, 8, 8, 0, 5, 98, 0, 32, 0, 6, 6, 0, 3, 9, 0, 0]⟩

/-- ... after regtail links `(a)` to `(b)?`. -/
def c3stC : CompSt := ⟨[], 3, true, 0,
  [156, 6, 0, 0, 21, 0, 3, 6, 0, 8, 8, 0, 5, 97, 0, 31, 0, 3, 6, 0, 17, 22, 0, 3,
   6, 0, 8, 8, 0, 5, 98, 0, 32, 0, 6, 6, 0, 3, 9, 0, 0]⟩

/-- ... the finished program: END node emitted and all tails linked. -/
def c3stF : CompSt := ⟨[], 3, true, 0,
  [156, 6, 0, 40, 21, 0, 3, 6, 0, 8, 8, 0, 5, 97, 0, 31, 0, 3, 6, 0, 17, 22, 0, 3,
   6, 0, 8, 8, 0, 5, 98, 0, 32, 0, 6, 6, 0, 3, 9, 0, 3, 0, 0, 0]⟩

theorem c3s1 : regpiece 69 c3st0b = .ok (.idx 4, ⟨true, false, false⟩, c3stA) := by rfl

theorem c3s2 : regpiece 68 c3stA = .ok (.idx 18, ⟨false, false, true⟩, c3stB) := by rfl

theorem c3pl69 : pieceLoop 69 (Ptr.idx 4) ⟨true, false, false⟩ c3stA =
    .ok (.idx 18, ⟨true, false, false⟩, c3stC) := by
  rw [show (69 : Nat) = Nat.succ 68 from rfl, pieceLoop.eq_2, c3s2]
  rfl

theorem c3pl70 : pieceLoop 70 Ptr.null WORST c3st0b =
    .ok (.idx 18, ⟨true, false, false⟩, c3stC) := by
  rw [show (70 : Nat) = Nat.succ 69 from rfl, pieceLoop.eq_2, c3s1]
  rfl

theorem c3rb71 : regbranch 71 c3st0 = .ok (.idx 1, ⟨true, false, false⟩, c3stC) := by
  rw [show (71 : Nat) = Nat.succ 70 from rfl, regbranch.eq_2]
  simp only [show regnode BRANCH c3st0 = (Ptr.idx 1, c3st0b) from rfl, c3pl70]
  rfl

set_option maxHeartbeats 1000000 in
theorem c3reg72 : reg 72 false c3st0 = .ok (.idx 1, ⟨true, false, false⟩, c3stF) := by
  rw [show (72 : Nat) = Nat.succ 71 from rfl, reg.eq_2]
  rw [if_neg (by decide : ¬((false && decide (c3st0.regnpar ≥ NSUBEXP)) = true))]
  simp only []
  rw [show (if false = true then
        regnode (OPEN + c3st0.regnpar)
          { tokens := c3st0.tokens, regnpar := c3st0.regnpar + 1,
            emitting := c3st0.emitting, regsize := c3st0.regsize, buf := c3st0.buf }
      else (Ptr.null, c3st0)) = (Ptr.null, c3st0) from rfl]
  simp only []
  rw [c3rb71]
  rfl

theorem c3pass2 : pass2 c3T = .ok (⟨true, false, false⟩, c3stF) := by
  simp only [pass2, show parseFuel c3T = 72 from rfl,
    show regc MAGIC ⟨c3T, 1, true, 0, []⟩ = c3st0 from rfl, c3reg72]

/-- The sizing pass of `(a)(b)?`, read off the emission pass through the
lockstep theorem (evaluating it directly is what the C code does, but
under the kernel it re-forces the shared state exponentially). -/
theorem c3p1 : pass1 c3T = .ok ⟨[], 3, false, 44, []⟩ :=
  pass1_of_pass2 c3T ⟨true, false, false⟩ c3stF c3pass2

/-- The compiled form of `(a)(b)?` (checked against `regcomp` inside the
claim below). -/
def qprog : Regexp :=
  ⟨[156, 6, 0, 40, 21, 0, 3, 6, 0, 8, 8, 0, 5, 97, 0, 31, 0, 3, 6, 0, 17, 22, 0, 3,
    6, 0, 8, 8, 0, 5, 98, 0, 32, 0, 6, 6, 0, 3, 9, 0, 3, 0, 0, 0],
   0, false, none, 0⟩

theorem c3comp : regcomp [40, 97, 41, 40, 98, 41, 63] false = .ok qprog := by
  simp only [regcomp, show preprocess false [40, 97, 41, 40, 98, 41, 63] = .ok c3T from rfl,
    c3p1, c3pass2]
  rfl

/-! ## OPEN/CLOSE: recursive-then-record capture semantics -/

/-- C3: for every k in 1..9, OPEN+k and CLOSE+k are zero-width: each first
recursively attempts the remainder of the program from the unchanged
cursor, and only on that success records the saved cursor into
`startp[k]` (resp. `endp[k]`), and only if the slot is still unset (first
assignment wins); when the remainder fails they return failure without
writing any capture slot.  Consequently `(a)(b)?` on `"a"` succeeds with
slot 1 = `"a"` and slot 2 unset, and on `"ab"` with slot 2 = `"b"`. -/
theorem claim_C3 :
    (∀ (prog sub : List Nat) (pc f k : Nat) (s s' : MState), 1 ≤ k → k ≤ 9 →
      OP prog pc = OPEN + k →
      (regmatch prog sub f (regnext prog pc) s = some (true, s') →
        regmatch prog sub (f + 1) (some pc) s =
          some (true, if s'.startp.getD k none = none
            then { s' with startp := s'.startp.set k (some s.input) } else s')) ∧
      (regmatch prog sub f (regnext prog pc) s = some (false, s') →
        regmatch prog sub (f + 1) (some pc) s = some (false, s') ∧
          s'.startp = s.startp ∧ s'.endp = s.endp)) ∧
    (∀ (prog sub : List Nat) (pc f k : Nat) (s s' : MState), 1 ≤ k → k ≤ 9 →
      OP prog pc = CLOSE + k →
      (regmatch prog sub f (regnext prog pc) s = some (true, s') →
        regmatch prog sub (f + 1) (some pc) s =
          some (true, if s'.endp.getD k none = none
            then { s' with endp := s'.endp.set k (some s.input) } else s')) ∧
      (regmatch prog sub f (regnext prog pc) s = some (false, s') →
        regmatch prog sub (f + 1) (some pc) s = some (false, s') ∧
          s'.startp = s.startp ∧ s'.endp = s.endp)) ∧
    regcomp [40, 97, 41, 40, 98, 41, 63] false = .ok qprog ∧
    regexec 100 qprog [97] =
      some (true, some ⟨1, [some 0, some 0] ++ List.replicate 8 none,
        [some 1, some 1] ++ List.replicate 8 none⟩) ∧
    regexec 100 qprog [97, 98] =
      some (true, some ⟨2, [some 0, some 0, some 1] ++ List.replicate 7 none,
        [some 2, some 1, some 2] ++ List.replicate 7 none⟩) := by
  refine ⟨?_, ?_, c3comp, by rfl, by rfl⟩
  · intro prog sub pc f k s s' hk1 hk9 h
    have hlo : OPEN + 1 ≤ OP prog pc := by rw [h]; omega
    have hhi : OP prog pc ≤ OPEN + 9 := by rw [h]; omega
    have hk : OP prog pc - OPEN = k := by rw [h]; omega
    constructor
    · intro hrec
      rw [step_OPEN_succ hlo hhi hrec, hk]
      split_ifs <;> rfl
    · intro hrec
      exact ⟨step_OPEN_fail hlo hhi hrec, regmatch_fail_caps hrec⟩
  · intro prog sub pc f k s s' hk1 hk9 h
    have hlo : CLOSE + 1 ≤ OP prog pc := by rw [h]; omega
    have hhi : OP prog pc ≤ CLOSE + 9 := by rw [h]; omega
    have hk : OP prog pc - CLOSE = k := by rw [h]; omega
    constructor
    · intro hrec
      rw [step_CLOSE_succ hlo hhi hrec, hk]
      split_ifs <;> rfl
    · intro hrec
      exact ⟨step_CLOSE_fail hlo hhi hrec, regmatch_fail_caps hrec⟩

/-- A lone OPEN+1 node followed by END. -/
def openProg : List Nat := [156, 21, 0, 3, 0, 0, 0]

/-- A lone CLOSE+1 node followed by END. -/
def closeProg : List Nat := [156, 31, 0, 3, 0, 0, 0]

/-- The reset match state at position 0. -/
def s0 : MState := ⟨0, List.replicate NSUBEXP none, List.replicate NSUBEXP none⟩

/-- Witness for C3: applying the OPEN/CLOSE characterization to concrete
one-node programs whose remainder (END) succeeds immediately: slot 1 is
recorded with the saved cursor. -/
theorem claim_C3_witness :
    ((1 : Nat) ≤ 1 ∧ (1 : Nat) ≤ 9 ∧ OP openProg 1 = OPEN + 1 ∧
      regmatch openProg [] 4 (regnext openProg 1) s0 = some (true, s0) ∧
      regmatch openProg [] 5 (some 1) s0 =
        some (true, if s0.startp.getD 1 none = none
          then { s0 with startp := s0.startp.set 1 (some s0.input) } else s0)) ∧
    (OP closeProg 1 = CLOSE + 1 ∧
      regmatch closeProg [] 4 (regnext closeProg 1) s0 = some (true, s0) ∧
      regmatch closeProg [] 5 (some 1) s0 =
        some (true, if s0.endp.getD 1 none = none
          then { s0 with endp := s0.endp.set 1 (some s0.input) } else s0)) :=
  ⟨⟨le_rfl, by omega, rfl, rfl,
    (claim_C3.1 openProg [] 1 4 1 s0 s0 le_rfl (by omega) rfl).1 rfl⟩,
   ⟨rfl, rfl,
    (claim_C3.2.1 closeProg [] 1 4 1 s0 s0 le_rfl (by omega) rfl).1 rfl⟩⟩

/-! ## STAR/PLUS: greedy consumption then backtracking shrink -/

/-- The compiled form of `a*b` (checked against `regcomp` inside the
claim below). -/
def starProg : Regexp :=
  ⟨[156, 6, 0, 16, 10, 0, 8, 8, 0, 0, 97, 0, 8, 0, 5, 98, 0, 0, 0, 0],
   0, false, some [98], 1⟩

/-- C6: a STAR or PLUS node first consumes the maximal run of its simple
operand with the counting pass `regrepeat` (no recursion), then enters
the shrink loop at that count with minimum 0 for STAR and 1 for PLUS;
the loop succeeds at the current count as soon as the remainder of the
program matches (subject to the EXACTLY first-byte lookahead), on
failure of the remainder it decrements the count by one, resets the
cursor and retries, and it reports failure exactly when the count drops
below the minimum.  Concretely, `a*b` on `"aaab"` matches with slot 0
spanning the whole subject. -/
theorem claim_C6 :
    (∀ (prog sub : List Nat) (pc f : Nat) (s : MState),
      OP prog pc = STAR ∨ OP prog pc = PLUS →
      regmatch prog sub (f + 1) (some pc) s =
        starLoop prog sub f (regnext prog pc) s.input
          (if OP prog pc = STAR then 0 else 1)
          (match regnext prog pc with
           | some nx => if OP prog nx = EXACTLY then byteAt prog (OPERAND nx) else 0
           | none => 0)
          (regrepeat prog sub (OPERAND pc) s).1
          (regrepeat prog sub (OPERAND pc) s).2) ∧
    (∀ (prog sub : List Nat) (f : Nat) (nxt : Option Nat)
      (save minimum nextch no : Nat) (s s' : MState),
      ¬(no < minimum) → (nextch = 0 ∨ byteAt sub s.input = nextch) →
      regmatch prog sub f nxt s = some (true, s') →
      starLoop prog sub (f + 1) nxt save minimum nextch no s = some (true, s')) ∧
    (∀ (prog sub : List Nat) (f : Nat) (nxt : Option Nat)
      (save minimum nextch no' : Nat) (s s' : MState),
      ¬(no' + 1 < minimum) → (nextch = 0 ∨ byteAt sub s.input = nextch) →
      regmatch prog sub f nxt s = some (false, s') →
      starLoop prog sub (f + 1) nxt save minimum nextch (no' + 1) s =
        starLoop prog sub f nxt save minimum nextch no' { s' with input := save + no' }) ∧
    (∀ (prog sub : List Nat) (f : Nat) (nxt : Option Nat)
      (save minimum nextch no : Nat) (s : MState),
      no < minimum →
      starLoop prog sub (f + 1) nxt save minimum nextch no s = some (false, s)) ∧
    regcomp [97, 42, 98] false = .ok starProg ∧
    regexec 200 starProg [97, 97, 97, 98] =
      some (true, some ⟨4, [some 0] ++ List.replicate 9 none,
        [some 4] ++ List.replicate 9 none⟩) :=
  ⟨fun _ _ _ _ _ h => step_STARPLUS h,
   fun _ _ _ _ _ _ _ _ _ _ hmin hch hrec => sl_succ hmin hch hrec,
   fun _ _ _ _ _ _ _ _ _ _ hmin hch hrec => sl_fail_succ hmin hch hrec,
   fun _ _ _ _ _ _ _ _ _ hmin => sl_exit hmin,
   by rfl, by rfl⟩

/-- Witness for C6: the STAR node of `a*b` at pc 4 enters the shrink
loop at the regrepeat count, and a PLUS-style minimum of 1 rejects a
zero count. -/
theorem claim_C6_witness :
    ((OP starProg.program 4 = STAR ∨ OP starProg.program 4 = PLUS) ∧
     regmatch starProg.program [97, 97, 97, 98] 51 (some 4) ⟨0, [], []⟩ =
       starLoop starProg.program [97, 97, 97, 98] 50 (regnext starProg.program 4) 0
         (if OP starProg.program 4 = STAR then 0 else 1)
         (match regnext starProg.program 4 with
          | some nx => if OP starProg.program nx = EXACTLY
              then byteAt starProg.program (OPERAND nx) else 0
          | none => 0)
         (regrepeat starProg.program [97, 97, 97, 98] (OPERAND 4) ⟨0, [], []⟩).1
         (regrepeat starProg.program [97, 97, 97, 98] (OPERAND 4) ⟨0, [], []⟩).2) ∧
    ((0 : Nat) < 1 ∧
     starLoop starProg.program [97, 97, 97, 98] 8 (some 12) 0 1 98 0 ⟨0, [], []⟩ =
       some (false, ⟨0, [], []⟩)) :=
  ⟨⟨Or.inl rfl,
    claim_C6.1 starProg.program [97, 97, 97, 98] 4 50 ⟨0, [], []⟩ (Or.inl rfl)⟩,
   ⟨by decide,
    claim_C6.2.2.2.1 starProg.program [97, 97, 97, 98] 7 (some 12) 0 1 98 0 ⟨0, [], []⟩
      (by decide)⟩⟩

/-! ## Character classes: range expansion, compilation and matching -/

/-- The characters `a` through `z` inclusive. -/
def rangeList (a z : Nat) : List Nat := (List.range (z + 1 - a)).map (a + ·)

/-- Membership in an expanded range is exactly the interval test. -/
theorem rangeList_mem (a z c : Nat) : c ∈ rangeList a z ↔ a ≤ c ∧ c ≤ z := by
  simp only [rangeList, List.mem_map, List.mem_range]
  constructor
  · rintro ⟨i, hi, rfl⟩; omega
  · rintro ⟨h1, h2⟩; exact ⟨c - a, by omega, by omega⟩

/-- The bytes a class-range expansion emits. -/
theorem emitRange_em_buf (n : Nat) : ∀ (c : Nat) (st : CompSt), st.emitting = true →
    emitRange c n st =
      { st with buf := st.buf ++ (List.range n).map (fun i => Nat.land (c + i) 255) } := by
  induction n with
  | zero => intro c st h; simp [emitRange]
  | succ n ih =>
    intro c st h
    rw [emitRange, regc_em st h,
      ih (c + 1) { st with buf := st.buf ++ [Nat.land c 255] } h]
    congr 1
    simp only [CompSt.buf, List.append_assoc, List.singleton_append,
      List.range_succ_eq_map, List.map_cons, List.map_map, Nat.add_zero]
    congr 1
    congr 1
    apply List.map_congr_left
    intro i _
    simp only [Function.comp]
    congr 1
    omega

/-- Masking is the identity on bytes. -/
theorem land255_eq {c : Nat} (h : c ≤ 255) : Nat.land c 255 = c := by
  have h2 : Nat.land c 255 = c % 2 ^ 8 := by
    have := Nat.and_pow_two_sub_one_eq_mod c 8
    simpa using this
  rw [h2, Nat.mod_eq_of_lt (by omega)]

/-- `[a..z]` splits off its head. -/
theorem rangeList_cons {a z : Nat} (haz : a ≤ z) :
    rangeList a z = a :: (List.range (z - a)).map (fun i => a + 1 + i) := by
  simp only [rangeList, show z + 1 - a = (z - a) + 1 from by omega,
    List.range_succ_eq_map, List.map_cons, List.map_map, Nat.add_zero]
  congr 1
  apply List.map_congr_left
  intro i _
  simp only [Function.comp]
  omega

/-- One ordinary byte of a class body: emitted verbatim, the loop
continues with it as the new `prev`. -/
theorem clstep_ord (f p a n zz : Nat) (tl b : List Nat)
    (ha0 : a ≠ 0) (ha45 : a ≠ 45) (ha : a ≤ 255) :
    classLoop (f + 1) p ⟨a :: tl, n, true, zz, b⟩ =
      classLoop f a ⟨tl, n, true, zz, b ++ [a]⟩ := by
  have h0a : ¬(a = 0 ∨ a = RSQBRAC) := by simp only [RSQBRAC, SPECIAL]; omega
  simp only [classLoop, peek, adv, CompSt.tokens, CompSt.emitting, CompSt.buf,
    CompSt.regnpar, CompSt.regsize, List.headD, regc, h0a, ha45, if_true, if_false,
    List.drop_succ_cons, List.drop_zero, land255_eq ha, eq_self_iff_true,
    or_true, true_or, if_neg, ite_false, ite_true]

/-- A dash introducing an ascending range `prev-z`: the whole interval
above `prev` is emitted and the loop continues with `z` as `prev`. -/
theorem clstep_range (f a z n zz : Nat) (tl b : List Nat)
    (ha : a ≤ 255) (hz0 : z ≠ 0) (hz : z ≤ 255) (haz : a ≤ z) :
    classLoop (f + 1) a ⟨45 :: z :: tl, n, true, zz, b⟩ =
      classLoop f z ⟨tl, n, true, zz,
        b ++ (List.range (z - a)).map (fun i => a + 1 + i)⟩ := by
  have h45 : ¬((45 : Nat) = 0 ∨ (45 : Nat) = RSQBRAC) := by decide
  have hz2 : ¬(z = RSQBRAC ∨ z = 0) := by simp only [RSQBRAC, SPECIAL]; omega
  have hla : Nat.land a 255 = a := land255_eq ha
  have hlz : Nat.land z 255 = z := land255_eq hz
  have hrange : ¬(Nat.land a 255 + 1 > Nat.land z 255 + 1) := by rw [hla, hlz]; omega
  simp only [classLoop, peek, adv, CompSt.tokens, CompSt.emitting, CompSt.buf,
    CompSt.regnpar, CompSt.regsize, List.headD, h45, hz2, hrange, if_true, if_false,
    eq_self_iff_true, ite_true, ite_false, List.drop_succ_cons, List.drop_zero]
  rw [emitRange_em_buf (Nat.land z 255 + 1 - (Nat.land a 255 + 1)) (Nat.land a 255 + 1)
    ⟨z :: tl, n, true, zz, b⟩ rfl]
  simp only [adv, CompSt.tokens, CompSt.buf, CompSt.regnpar, CompSt.emitting,
    CompSt.regsize, List.drop_succ_cons, List.drop_zero, hla, hlz]
  rw [show z + 1 - (a + 1) = z - a from by omega]
  refine congrArg (classLoop f z) ?_
  congr 1
  congr 1
  apply List.map_congr_left
  intro i hi
  simp only [List.mem_range] at hi
  rw [land255_eq (by omega)]

/-- A dash introducing a descending range fails compilation. -/
theorem clstep_desc (f a z n zz : Nat) (tl b : List Nat)
    (ha : a ≤ 255) (hz0 : z ≠ 0) (hz : z ≤ 255) (haz : z < a) :
    classLoop (f + 1) a ⟨45 :: z :: tl, n, true, zz, b⟩ = .error .invalidRange := by
  have h45 : ¬((45 : Nat) = 0 ∨ (45 : Nat) = RSQBRAC) := by decide
  have hz2 : ¬(z = RSQBRAC ∨ z = 0) := by simp only [RSQBRAC, SPECIAL]; omega
  have hla : Nat.land a 255 = a := land255_eq ha
  have hlz : Nat.land z 255 = z := land255_eq hz
  have hrange : Nat.land a 255 + 1 > Nat.land z 255 + 1 := by rw [hla, hlz]; omega
  simp only [classLoop, peek, adv, CompSt.tokens, CompSt.emitting, CompSt.buf,
    List.headD, h45, hz2, hrange, if_true, if_false, eq_self_iff_true,
    ite_true, ite_false, List.drop_succ_cons, List.drop_zero]

/-- The closing bracket stops the class body loop. -/
theorem clstep_stop (f p n zz : Nat) (tl b : List Nat) :
    classLoop (f + 1) p ⟨RSQBRAC :: tl, n, true, zz, b⟩ =
      .ok ⟨RSQBRAC :: tl, n, true, zz, b⟩ := by
  simp only [classLoop, peek, CompSt.tokens, List.headD, eq_self_iff_true,
    or_true, if_true, ite_true]

/-- Compilation of the canonical class `[a-z]` (byte range) in the
emission pass: one ANYOF node whose operand is exactly the characters
`a` through `z` followed by the NUL terminator. -/
theorem class_range_compile (f a z n zz : Nat) (rest b : List Nat)
    (ha0 : a ≠ 0) (ha45 : a ≠ 45) (ha : a ≤ 255)
    (hz0 : z ≠ 0) (hz : z ≤ 255) (haz : a ≤ z) :
    regatom (f + 4) ⟨LSQBRAC :: a :: 45 :: z :: RSQBRAC :: rest, n, true, zz, b⟩ =
      .ok (.idx b.length, ⟨true, true, false⟩,
        ⟨rest, n, true, zz, b ++ [ANYOF, 0, 0] ++ rangeList a z ++ [0]⟩) := by
  have hca : ¬(a = CARET) := by simp only [CARET, SPECIAL]; omega
  have hpa : ¬(a = RSQBRAC ∨ a = 45) := by simp only [RSQBRAC, SPECIAL]; omega
  have hd1 : ¬(LSQBRAC = CARET) := by decide
  have hd2 : ¬(LSQBRAC = DOLLAR) := by decide
  have hd3 : ¬(LSQBRAC = DOT) := by decide
  have hd4 : ¬(LSQBRAC = LSHBRAC) := by decide
  have hd5 : ¬(LSQBRAC = RSHBRAC) := by decide
  simp only [regatom, peek, adv, CompSt.tokens, CompSt.regnpar, CompSt.emitting,
    CompSt.buf, CompSt.regsize, regnode, List.headD, hca, hpa, hd1, hd2, hd3, hd4, hd5,
    Bool.not_true, Bool.not_false, Bool.false_eq_true, eq_self_iff_true,
    if_true, if_false, ite_true, ite_false, List.drop_succ_cons, List.drop_zero]
  rw [show (f + 3 : Nat) = (f + 2) + 1 from rfl,
    clstep_ord (f + 2) 0 a n zz (45 :: z :: RSQBRAC :: rest) (b ++ [ANYOF, 0, 0])
      ha0 ha45 ha,
    show (f + 2 : Nat) = (f + 1) + 1 from rfl,
    clstep_range (f + 1) a z n zz (RSQBRAC :: rest) (b ++ [ANYOF, 0, 0] ++ [a])
      ha hz0 hz haz,
    clstep_stop f z n zz rest]
  simp only [regc, peek, adv, CompSt.tokens, CompSt.emitting, CompSt.buf,
    CompSt.regnpar, CompSt.regsize, List.headD, ne_eq, eq_self_iff_true, not_true,
    if_true, if_false, ite_true, ite_false, List.drop_succ_cons, List.drop_zero,
    show Nat.land 0 255 = 0 from rfl]
  rw [rangeList_cons haz]
  simp only [List.append_assoc, List.cons_append, List.nil_append,
    List.singleton_append]

/-- Compilation of the negated class `[^a-z]`: an ANYBUT node with the
same expanded operand. -/
theorem class_range_compile_neg (f a z n zz : Nat) (rest b : List Nat)
    (ha0 : a ≠ 0) (ha45 : a ≠ 45) (ha : a ≤ 255)
    (hz0 : z ≠ 0) (hz : z ≤ 255) (haz : a ≤ z) :
    regatom (f + 4) ⟨LSQBRAC :: CARET :: a :: 45 :: z :: RSQBRAC :: rest, n, true, zz, b⟩ =
      .ok (.idx b.length, ⟨true, true, false⟩,
        ⟨rest, n, true, zz, b ++ [ANYBUT, 0, 0] ++ rangeList a z ++ [0]⟩) := by
  have hpa : ¬(a = RSQBRAC ∨ a = 45) := by simp only [RSQBRAC, SPECIAL]; omega
  have hd1 : ¬(LSQBRAC = CARET) := by decide
  have hd2 : ¬(LSQBRAC = DOLLAR) := by decide
  have hd3 : ¬(LSQBRAC = DOT) := by decide
  have hd4 : ¬(LSQBRAC = LSHBRAC) := by decide
  have hd5 : ¬(LSQBRAC = RSHBRAC) := by decide
  simp only [regatom, peek, adv, CompSt.tokens, CompSt.regnpar, CompSt.emitting,
    CompSt.buf, CompSt.regsize, regnode, List.headD, hpa, hd1, hd2, hd3, hd4, hd5,
    Bool.not_true, Bool.not_false, Bool.false_eq_true, eq_self_iff_true,
    if_true, if_false, ite_true, ite_false, List.drop_succ_cons, List.drop_zero]
  rw [show (f + 3 : Nat) = (f + 2) + 1 from rfl,
    clstep_ord (f + 2) 0 a n zz (45 :: z :: RSQBRAC :: rest) (b ++ [ANYBUT, 0, 0])
      ha0 ha45 ha,
    show (f + 2 : Nat) = (f + 1) + 1 from rfl,
    clstep_range (f + 1) a z n zz (RSQBRAC :: rest) (b ++ [ANYBUT, 0, 0] ++ [a])
      ha hz0 hz haz,
    clstep_stop f z n zz rest]
  simp only [regc, peek, adv, CompSt.tokens, CompSt.emitting, CompSt.buf,
    CompSt.regnpar, CompSt.regsize, List.headD, ne_eq, eq_self_iff_true, not_true,
    if_true, if_false, ite_true, ite_false, List.drop_succ_cons, List.drop_zero,
    show Nat.land 0 255 = 0 from rfl]
  rw [rangeList_cons haz]
  simp only [List.append_assoc, List.cons_append, List.nil_append,
    List.singleton_append]

/-- A descending range `[a-z]` with `z < a` is rejected with the
invalid-range error. -/
theorem class_range_descending (f a z n zz : Nat) (rest b : List Nat)
    (ha0 : a ≠ 0) (ha45 : a ≠ 45) (ha : a ≤ 255)
    (hz0 : z ≠ 0) (hz : z ≤ 255) (haz : z < a) :
    regatom (f + 4) ⟨LSQBRAC :: a :: 45 :: z :: RSQBRAC :: rest, n, true, zz, b⟩ =
      .error .invalidRange := by
  have hca : ¬(a = CARET) := by simp only [CARET, SPECIAL]; omega
  have hpa : ¬(a = RSQBRAC ∨ a = 45) := by simp only [RSQBRAC, SPECIAL]; omega
  have hd1 : ¬(LSQBRAC = CARET) := by decide
  have hd2 : ¬(LSQBRAC = DOLLAR) := by decide
  have hd3 : ¬(LSQBRAC = DOT) := by decide
  have hd4 : ¬(LSQBRAC = LSHBRAC) := by decide
  have hd5 : ¬(LSQBRAC = RSHBRAC) := by decide
  simp only [regatom, peek, adv, CompSt.tokens, CompSt.regnpar, CompSt.emitting,
    CompSt.buf, CompSt.regsize, regnode, List.headD, hca, hpa, hd1, hd2, hd3, hd4, hd5,
    Bool.not_true, Bool.not_false, Bool.false_eq_true, eq_self_iff_true,
    if_true, if_false, ite_true, ite_false, List.drop_succ_cons, List.drop_zero]
  rw [show (f + 3 : Nat) = (f + 2) + 1 from rfl,
    clstep_ord (f + 2) 0 a n zz (45 :: z :: RSQBRAC :: rest) (b ++ [ANYOF, 0, 0])
      ha0 ha45 ha,
    show (f + 2 : Nat) = (f + 1) + 1 from rfl,
    clstep_desc (f + 1) a z n zz (RSQBRAC :: rest) (b ++ [ANYOF, 0, 0] ++ [a])
      ha hz0 hz haz]

/-- The compiled form of `[a-c]` (checked against `regcomp` inside the
claim below). -/
def classProg : Regexp :=
  ⟨[156, 6, 0, 10, 4, 0, 7, 97, 98, 99, 0, 0, 0, 0], 0, false, none, 0⟩

/-- The compiled form of `[^a-c]`. -/
def nclassProg : Regexp :=
  ⟨[156, 6, 0, 10, 5, 0, 7, 97, 98, 99, 0, 0, 0, 0], 0, false, none, 0⟩

/-- C7: an ascending byte range `a-z` in a class compiles to an ANYOF
node (ANYBUT when the class opens with `^`) whose operand holds exactly
the characters `a` through `z` (plus the NUL terminator of the operand),
membership in the expansion being exactly the interval test; a
descending range fails compilation with the invalid-range error; and at
match time ANYOF consumes one byte exactly when the current byte is
non-NUL and in the operand, ANYBUT exactly when it is non-NUL and not in
the operand.  Concretely `[a-c]` accepts `b` and rejects `d`, `[^a-c]`
does the opposite, and `[c-a]` fails to compile. -/
theorem claim_C7 :
    (∀ (f a z n zz : Nat) (rest b : List Nat), a ≠ 0 → a ≠ 45 → a ≤ 255 →
      z ≠ 0 → z ≤ 255 → a ≤ z →
      regatom (f + 4) ⟨LSQBRAC :: a :: 45 :: z :: RSQBRAC :: rest, n, true, zz, b⟩ =
        .ok (.idx b.length, ⟨true, true, false⟩,
          ⟨rest, n, true, zz, b ++ [ANYOF, 0, 0] ++ rangeList a z ++ [0]⟩)) ∧
    (∀ (f a z n zz : Nat) (rest b : List Nat), a ≠ 0 → a ≠ 45 → a ≤ 255 →
      z ≠ 0 → z ≤ 255 → a ≤ z →
      regatom (f + 4)
          ⟨LSQBRAC :: CARET :: a :: 45 :: z :: RSQBRAC :: rest, n, true, zz, b⟩ =
        .ok (.idx b.length, ⟨true, true, false⟩,
          ⟨rest, n, true, zz, b ++ [ANYBUT, 0, 0] ++ rangeList a z ++ [0]⟩)) ∧
    (∀ (f a z n zz : Nat) (rest b : List Nat), a ≠ 0 → a ≠ 45 → a ≤ 255 →
      z ≠ 0 → z ≤ 255 → z < a →
      regatom (f + 4) ⟨LSQBRAC :: a :: 45 :: z :: RSQBRAC :: rest, n, true, zz, b⟩ =
        .error .invalidRange) ∧
    (∀ a z c : Nat, c ∈ rangeList a z ↔ a ≤ c ∧ c ≤ z) ∧
    (∀ (prog sub : List Nat) (pc f : Nat) (s : MState), OP prog pc = ANYOF →
      regmatch prog sub (f + 1) (some pc) s =
        if byteAt sub s.input = 0 ||
            !(strFrom prog (OPERAND pc)).contains (byteAt sub s.input)
        then some (false, s)
        else regmatch prog sub f (regnext prog pc) { s with input := s.input + 1 }) ∧
    (∀ (prog sub : List Nat) (pc f : Nat) (s : MState), OP prog pc = ANYBUT →
      regmatch prog sub (f + 1) (some pc) s =
        if byteAt sub s.input = 0 ||
            (strFrom prog (OPERAND pc)).contains (byteAt sub s.input)
        then some (false, s)
        else regmatch prog sub f (regnext prog pc) { s with input := s.input + 1 }) ∧
    regcomp [91, 97, 45, 99, 93] false = .ok classProg ∧
    regexec 100 classProg [98] =
      some (true, some ⟨1, [some 0] ++ List.replicate 9 none,
        [some 1] ++ List.replicate 9 none⟩) ∧
    regexec 100 classProg [100] = some (false, some ⟨1, List.replicate 10 none,
      List.replicate 10 none⟩) ∧
    regcomp [91, 94, 97, 45, 99, 93] false = .ok nclassProg ∧
    regexec 100 nclassProg [100] =
      some (true, some ⟨1, [some 0] ++ List.replicate 9 none,
        [some 1] ++ List.replicate 9 none⟩) ∧
    regexec 100 nclassProg [98] = some (false, some ⟨1, List.replicate 10 none,
      List.replicate 10 none⟩) ∧
    regcomp [91, 99, 45, 97, 93] false = .error .invalidRange :=
  ⟨fun f a z n zz rest b h1 h2 h3 h4 h5 h6 =>
     class_range_compile f a z n zz rest b h1 h2 h3 h4 h5 h6,
   fun f a z n zz rest b h1 h2 h3 h4 h5 h6 =>
     class_range_compile_neg f a z n zz rest b h1 h2 h3 h4 h5 h6,
   fun f a z n zz rest b h1 h2 h3 h4 h5 h6 =>
     class_range_descending f a z n zz rest b h1 h2 h3 h4 h5 h6,
   fun a z c => rangeList_mem a z c,
   fun _ _ _ _ _ h => step_ANYOF h,
   fun _ _ _ _ _ h => step_ANYBUT h,
   by rfl, by rfl, by rfl, by rfl, by rfl, by rfl, by rfl⟩

/-- Witness for C7: the range `a-c` (97-99) compiled inside `[a-c]` at
the start of an emission buffer, membership of `b` and non-membership of
`d` in the expansion, and the ANYOF step on the compiled program. -/
theorem claim_C7_witness :
    (((97 : Nat) ≠ 0 ∧ (97 : Nat) ≠ 45 ∧ (97 : Nat) ≤ 255 ∧
      (99 : Nat) ≠ 0 ∧ (99 : Nat) ≤ 255 ∧ (97 : Nat) ≤ 99) ∧
     regatom 4 ⟨LSQBRAC :: 97 :: 45 :: 99 :: RSQBRAC :: [], 1, true, 0, [156]⟩ =
       .ok (.idx 1, ⟨true, true, false⟩,
         ⟨[], 1, true, 0, [156] ++ [ANYOF, 0, 0] ++ rangeList 97 99 ++ [0]⟩)) ∧
    ((98 ∈ rangeList 97 99 ↔ (97 : Nat) ≤ 98 ∧ (98 : Nat) ≤ 99) ∧
     (100 ∈ rangeList 97 99 ↔ (97 : Nat) ≤ 100 ∧ (100 : Nat) ≤ 99)) ∧
    (OP classProg.program 4 = ANYOF ∧
     regmatch classProg.program [98] 11 (some 4) ⟨0, [], []⟩ =
       if byteAt [98] 0 = 0 ||
           !(strFrom classProg.program (OPERAND 4)).contains (byteAt [98] 0)
       then some (false, ⟨0, [], []⟩)
       else regmatch classProg.program [98] 10 (regnext classProg.program 4)
         ⟨1, [], []⟩) :=
  ⟨⟨⟨by decide, by decide, by decide, by decide, by decide, by decide⟩,
    claim_C7.1 0 97 99 1 0 [] [156] (by decide) (by decide) (by decide) (by decide)
      (by decide) (by decide)⟩,
   ⟨claim_C7.2.2.2.1 97 99 98, claim_C7.2.2.2.1 97 99 100⟩,
   ⟨rfl, claim_C7.2.2.2.2.1 classProg.program [98] 4 10 ⟨0, [], []⟩ rfl⟩⟩

/-- The spec's expansion length of a substitution template: the number of
bytes `regsub` must write, counting ordinary bytes, `&` and `\0`-`\9`
capture expansions (an unset group expands to nothing) and the final NUL
terminator.  This definition follows the specification's wording; the
claim compares it with `regsubLoop` from the source. -/
def expandLen (sub : List Nat) (startp endp : List (Option Nat)) : List Nat → Nat
  | [] => 1
  | 38 :: src =>
    (match startp.getD 0 none, endp.getD 0 none with
     | some sp, some ep => ep - sp
     | _, _ => 0) + expandLen sub startp endp src
  | [92] => 1 + expandLen sub startp endp []
  | 92 :: d :: src2 =>
    if 48 ≤ d && d ≤ 57 then
      (match startp.getD (d - 48) none, endp.getD (d - 48) none with
       | some sp, some ep => ep - sp
       | _, _ => 0) + expandLen sub startp endp src2
    else if d = 92 || d = 38 then 1 + expandLen sub startp endp src2
    else 1 + expandLen sub startp endp (d :: src2)
  | c :: src => if c = 0 then 1 else 1 + expandLen sub startp endp src

theorem regsubLoop_other (sub : List Nat) (startp endp : List (Option Nat))
    (c : Nat) (src : List Nat) (n : Nat) (dst : List Nat)
    (h38 : c ≠ 38) (h92 : c ≠ 92) :
    regsubLoop sub startp endp (c :: src) n dst =
      if c = 0 then (if n = 0 then .error (.lineTooLong, dst) else .ok (dst ++ [0]))
      else if n = 0 then .error (.lineTooLong, dst)
      else regsubLoop sub startp endp src (n - 1) (dst ++ [c]) := by
  rw [regsubLoop.eq_def]
  split <;> simp_all

theorem expandLen_other (sub : List Nat) (startp endp : List (Option Nat))
    (c : Nat) (src : List Nat)
    (h38 : c ≠ 38) (h92 : c ≠ 92) :
    expandLen sub startp endp (c :: src) =
      if c = 0 then 1 else 1 + expandLen sub startp endp src := by
  rw [expandLen.eq_def]
  split <;> simp_all

theorem getLastD_append_right (l1 l2 : List Nat) (h : l2 ≠ []) :
    (l1 ++ l2).getLastD 0 = l2.getLastD 0 := by
  rw [List.getLastD_eq_getLast?, List.getLastD_eq_getLast?,
    List.getLast?_append_of_ne_nil l1 h]

theorem getLastD_mem (l : List Nat) (h : l ≠ []) : l.getLastD 0 ∈ l := by
  rw [List.getLastD_eq_getLast?]
  rcases h2 : l.getLast? with _ | x
  · exact absurd (List.getLast?_eq_none_iff.mp h2) h
  · simpa using List.mem_of_mem_getLast? (by rw [h2]; rfl)

theorem regsubLoop_spec_aux (sub : List Nat) (startp endp : List (Option Nat))
    (h0 : ∀ b ∈ sub, b ≠ 0)
    (hwf : ∀ k sp ep, startp.getD k none = some sp → endp.getD k none = some ep →
      sp ≤ ep ∧ ep ≤ sub.length) :
    ∀ (L : Nat) (src : List Nat), src.length ≤ L → ∀ (n : Nat) (dst : List Nat),
      (expandLen sub startp endp src ≤ n →
        ∃ out, regsubLoop sub startp endp src n dst = .ok out ∧
          out.length = dst.length + expandLen sub startp endp src) ∧
      (n < expandLen sub startp endp src →
        ∃ dst', regsubLoop sub startp endp src n dst = .error (.lineTooLong, dst') ∧
          dst'.length ≤ dst.length + n) := by
  have hnil : ∀ (n : Nat) (dst : List Nat),
      (expandLen sub startp endp [] ≤ n →
        ∃ out, regsubLoop sub startp endp [] n dst = .ok out ∧
          out.length = dst.length + expandLen sub startp endp []) ∧
      (n < expandLen sub startp endp [] →
        ∃ dst', regsubLoop sub startp endp [] n dst = .error (.lineTooLong, dst') ∧
          dst'.length ≤ dst.length + n) := by
    intro n dst
    constructor
    · intro h
      simp only [expandLen] at h ⊢
      have hn : n ≠ 0 := by omega
      exact ⟨dst ++ [0], by simp [regsubLoop, hn], by simp⟩
    · intro h
      simp only [expandLen] at h
      have hn : n = 0 := by omega
      subst hn
      exact ⟨dst, by simp [regsubLoop], by omega⟩
  intro L
  induction L with
  | zero =>
    intro src hsrc n dst
    have hs : src = [] := List.eq_nil_of_length_eq_zero (Nat.le_zero.mp hsrc)
    subst hs
    exact hnil n dst
  | succ L ih =>
    intro src hsrc n dst
    rcases src with _ | ⟨c, src'⟩
    · exact hnil n dst
    by_cases hc38 : c = 38
    · subst hc38
      have hs : src'.length ≤ L := by simp at hsrc; omega
      simp only [regsubLoop, expandLen]
      rcases hsp : startp.getD 0 none with _ | sp <;>
        rcases hep : endp.getD 0 none with _ | ep <;>
        simp only [Nat.zero_add]
      · exact ih src' hs n dst
      · exact ih src' hs n dst
      · exact ih src' hs n dst
      · obtain ⟨hle, hlen⟩ := hwf 0 sp ep hsp hep
        have hcopy : ((sub.drop sp).take (ep - sp)).length = ep - sp := by
          rw [List.length_take, List.length_drop]; omega
        by_cases hbig : ep - sp > n
        · rw [if_pos hbig]
          constructor
          · intro h; exact absurd h (by omega)
          · intro h; exact ⟨dst, rfl, by omega⟩
        · push_neg at hbig
          rw [if_neg (by omega)]
          have hguard : (decide (ep - sp ≠ 0) &&
              decide ((dst ++ (sub.drop sp).take (ep - sp)).getLastD 0 = 0)) = false := by
            rcases Nat.eq_zero_or_pos (ep - sp) with h | h
            · simp [h]
            · have hne : (sub.drop sp).take (ep - sp) ≠ [] := by
                intro hc; rw [hc] at hcopy; simp at hcopy; omega
              have hlast := getLastD_append_right dst _ hne
              have hmem : ((sub.drop sp).take (ep - sp)).getLastD 0 ∈ sub :=
                List.mem_of_mem_drop (List.mem_of_mem_take (getLastD_mem _ hne))
              have hne0 := h0 _ hmem
              have hdec : decide ((dst ++ (sub.drop sp).take (ep - sp)).getLastD 0 = 0)
                  = false := by
                rw [hlast]; exact decide_eq_false hne0
              rw [hdec, Bool.and_false]
          rw [hguard]
          simp only [Bool.false_eq_true, if_false]
          obtain ⟨ihS, ihF⟩ := ih src' hs (n - (ep - sp))
            (dst ++ (sub.drop sp).take (ep - sp))
          constructor
          · intro h
            obtain ⟨out, hout, hlenout⟩ := ihS (by omega)
            exact ⟨out, hout, by
              rw [hlenout, List.length_append, hcopy]; omega⟩
          · intro h
            obtain ⟨dst'', herr, hlen''⟩ := ihF (by omega)
            refine ⟨dst'', herr, ?_⟩
            rw [List.length_append, hcopy] at hlen''
            omega
    by_cases hc92 : c = 92
    · subst hc92
      rcases src' with _ | ⟨d, src2⟩
      · -- lone backslash before the terminator
        have he : expandLen sub startp endp [92] = 1 + expandLen sub startp endp [] := by
          simp only [expandLen]
        have he0 : expandLen sub startp endp [] = 1 := by simp only [expandLen]
        have hr : regsubLoop sub startp endp [92] n dst =
            if n = 0 then .error (.lineTooLong, dst)
            else regsubLoop sub startp endp [] (n - 1) (dst ++ [92]) := by
          simp only [regsubLoop]
        rw [he, he0, hr]
        obtain ⟨ihS, ihF⟩ := hnil (n - 1) (dst ++ [92])
        rw [he0] at ihS ihF
        by_cases hn : n = 0
        · subst hn
          rw [if_pos rfl]
          constructor
          · intro h; exact absurd h (by omega)
          · intro _; exact ⟨dst, rfl, by omega⟩
        · rw [if_neg hn]
          constructor
          · intro h
            obtain ⟨out, hout, hlenout⟩ := ihS (by omega)
            refine ⟨out, hout, ?_⟩
            simp only [hlenout, List.length_append, List.length_cons, List.length_nil]
          · intro h
            obtain ⟨dst'', herr, hlen''⟩ := ihF (by omega)
            refine ⟨dst'', herr, ?_⟩
            simp only [List.length_append, List.length_cons, List.length_nil] at hlen''
            omega
      · simp only [regsubLoop, expandLen]
        by_cases hdig : (48 ≤ d && d ≤ 57) = true
        · rw [if_pos hdig, if_pos hdig]
          have hs : src2.length ≤ L := by simp at hsrc; omega
          rcases hsp : startp.getD (d - 48) none with _ | sp <;>
            rcases hep : endp.getD (d - 48) none with _ | ep <;>
            simp only [Nat.zero_add]
          · exact ih src2 hs n dst
          · exact ih src2 hs n dst
          · exact ih src2 hs n dst
          · obtain ⟨hle, hlen⟩ := hwf (d - 48) sp ep hsp hep
            have hcopy : ((sub.drop sp).take (ep - sp)).length = ep - sp := by
              rw [List.length_take, List.length_drop]; omega
            by_cases hbig : ep - sp > n
            · rw [if_pos hbig]
              constructor
              · intro h; exact absurd h (by omega)
              · intro h; exact ⟨dst, rfl, by omega⟩
            · push_neg at hbig
              rw [if_neg (by omega)]
              have hguard : (decide (ep - sp ≠ 0) &&
                  decide ((dst ++ (sub.drop sp).take (ep - sp)).getLastD 0 = 0)) = false := by
                rcases Nat.eq_zero_or_pos (ep - sp) with h | h
                · simp [h]
                · have hne : (sub.drop sp).take (ep - sp) ≠ [] := by
                    intro hc; rw [hc] at hcopy; simp at hcopy; omega
                  have hlast := getLastD_append_right dst _ hne
                  have hmem : ((sub.drop sp).take (ep - sp)).getLastD 0 ∈ sub :=
                    List.mem_of_mem_drop (List.mem_of_mem_take (getLastD_mem _ hne))
                  have hne0 := h0 _ hmem
                  have hdec : decide ((dst ++ (sub.drop sp).take (ep - sp)).getLastD 0 = 0)
                      = false := by
                    rw [hlast]; exact decide_eq_false hne0
                  rw [hdec, Bool.and_false]
              rw [hguard]
              simp only [Bool.false_eq_true, if_false]
              obtain ⟨ihS, ihF⟩ := ih src2 hs (n - (ep - sp))
                (dst ++ (sub.drop sp).take (ep - sp))
              constructor
              · intro h
                obtain ⟨out, hout, hlenout⟩ := ihS (by omega)
                exact ⟨out, hout, by
                  rw [hlenout, List.length_append, hcopy]; omega⟩
              · intro h
                obtain ⟨dst'', herr, hlen''⟩ := ihF (by omega)
                refine ⟨dst'', herr, ?_⟩
                rw [List.length_append, hcopy] at hlen''
                omega
        · rw [if_neg hdig, if_neg hdig]
          by_cases hesc : (d = 92 || d = 38) = true
          · rw [if_pos hesc, if_pos hesc]
            have hs : src2.length ≤ L := by simp at hsrc; omega
            by_cases hn : n = 0
            · subst hn
              rw [if_pos rfl]
              constructor
              · intro h; exact absurd h (by omega)
              · intro _; exact ⟨dst, rfl, by omega⟩
            · rw [if_neg hn]
              obtain ⟨ihS, ihF⟩ := ih src2 hs (n - 1) (dst ++ [d])
              constructor
              · intro h
                have harg : expandLen sub startp endp src2 ≤ n - 1 := by omega
                obtain ⟨out, hout, hlenout⟩ := ihS harg
                refine ⟨out, hout, ?_⟩
                simp only [hlenout, List.length_append, List.length_cons, List.length_nil]
                omega
              · intro h
                have harg : n - 1 < expandLen sub startp endp src2 := by
                  clear ihS ihF hnil ih
                  omega
                obtain ⟨dst'', herr, hlen''⟩ := ihF harg
                refine ⟨dst'', herr, ?_⟩
                simp only [List.length_append, List.length_cons, List.length_nil] at hlen''
                omega
          · rw [if_neg hesc, if_neg hesc]
            have hs : (d :: src2).length ≤ L := by simp at hsrc ⊢; omega
            by_cases hn : n = 0
            · subst hn
              rw [if_pos rfl]
              constructor
              · intro h; exact absurd h (by omega)
              · intro _; exact ⟨dst, rfl, by omega⟩
            · rw [if_neg hn]
              obtain ⟨ihS, ihF⟩ := ih (d :: src2) hs (n - 1) (dst ++ [92])
              constructor
              · intro h
                have harg : expandLen sub startp endp (d :: src2) ≤ n - 1 := by omega
                obtain ⟨out, hout, hlenout⟩ := ihS harg
                refine ⟨out, hout, ?_⟩
                simp only [hlenout, List.length_append, List.length_cons, List.length_nil]
                omega
              · intro h
                have harg : n - 1 < expandLen sub startp endp (d :: src2) := by
                  clear ihS ihF hnil ih
                  omega
                obtain ⟨dst'', herr, hlen''⟩ := ihF harg
                refine ⟨dst'', herr, ?_⟩
                simp only [List.length_append, List.length_cons, List.length_nil] at hlen''
                omega
    · -- ordinary byte, or an embedded NUL ending the template
      rw [regsubLoop_other sub startp endp c src' n dst hc38 hc92,
        expandLen_other sub startp endp c src' hc38 hc92]
      by_cases hc0 : c = 0
      · rw [if_pos hc0, if_pos hc0]
        by_cases hn : n = 0
        · subst hn
          rw [if_pos rfl]
          constructor
          · intro h; exact absurd h (by omega)
          · intro _; exact ⟨dst, rfl, by omega⟩
        · rw [if_neg hn]
          constructor
          · intro _; exact ⟨dst ++ [0], rfl, by simp⟩
          · intro h; exact absurd h (by omega)
      · rw [if_neg hc0, if_neg hc0]
        have hs : src'.length ≤ L := by simp at hsrc; omega
        by_cases hn : n = 0
        · subst hn
          rw [if_pos rfl]
          constructor
          · intro h; exact absurd h (by omega)
          · intro _; exact ⟨dst, rfl, by omega⟩
        · rw [if_neg hn]
          obtain ⟨ihS, ihF⟩ := ih src' hs (n - 1) (dst ++ [c])
          constructor
          · intro h
            have harg : expandLen sub startp endp src' ≤ n - 1 := by omega
            obtain ⟨out, hout, hlenout⟩ := ihS harg
            refine ⟨out, hout, ?_⟩
            simp only [hlenout, List.length_append, List.length_cons, List.length_nil]
            omega
          · intro h
            have harg : n - 1 < expandLen sub startp endp src' := by
              clear ihS ihF hnil ih
              omega
            obtain ⟨dst'', herr, hlen''⟩ := ihF harg
            refine ⟨dst'', herr, ?_⟩
            simp only [List.length_append, List.length_cons, List.length_nil] at hlen''
            omega

/-- C8: regsub respects the destination capacity: with a completed match
(well-formed capture slots into a NUL-free subject), the copy loop fails
with the line-too-long error exactly when the full expansion of the
template (ordinary bytes, `&` and digit-escape capture expansions, unset
groups expanding to nothing) plus the final NUL terminator exceeds the
remaining capacity `n`; on success it writes exactly that many bytes
(which is at most `n`), and on failure it stops having written at most
`n` bytes past what was already there, leaving the destination partially
written.  The concrete conjuncts show template `"&&&"` with a 2-byte-wide
match: capacity 6 fails after writing 6 bytes, capacity 7 succeeds. -/
theorem claim_C8 :
    (∀ (sub : List Nat) (startp endp : List (Option Nat)) (src : List Nat) (n : Nat)
        (dst : List Nat),
      (∀ b ∈ sub, b ≠ 0) →
      (∀ k sp ep, startp.getD k none = some sp → endp.getD k none = some ep →
        sp ≤ ep ∧ ep ≤ sub.length) →
      (expandLen sub startp endp src ≤ n →
        ∃ out, regsubLoop sub startp endp src n dst = .ok out ∧
          out.length = dst.length + expandLen sub startp endp src) ∧
      (n < expandLen sub startp endp src →
        ∃ dst', regsubLoop sub startp endp src n dst = .error (.lineTooLong, dst') ∧
          dst'.length ≤ dst.length + n)) ∧
    (∀ (prog : Regexp) (sub : List Nat) (startp endp : List (Option Nat))
        (src : List Nat) (n : Nat),
      byteAt prog.program 0 = MAGIC →
      (∀ b ∈ sub, b ≠ 0) →
      (∀ k sp ep, startp.getD k none = some sp → endp.getD k none = some ep →
        sp ≤ ep ∧ ep ≤ sub.length) →
      ((expandLen sub startp endp src ≤ n ↔
        ∃ out, regsub prog sub startp endp src n = .ok out ∧
          out.length = expandLen sub startp endp src ∧ out.length ≤ n) ∧
      (n < expandLen sub startp endp src ↔
        ∃ dst', regsub prog sub startp endp src n = .error (.lineTooLong, dst') ∧
          dst'.length ≤ n))) ∧
    (regsubLoop [97, 98] [some 0] [some 2] [38, 38, 38] 6 [] =
      .error (.lineTooLong, [97, 98, 97, 98, 97, 98])) ∧
    (regsubLoop [97, 98] [some 0] [some 2] [38, 38, 38] 7 [] =
      .ok [97, 98, 97, 98, 97, 98, 0]) := by
  refine ⟨?_, ?_, rfl, rfl⟩
  · intro sub startp endp src n dst h0 hwf
    exact regsubLoop_spec_aux sub startp endp h0 hwf src.length src le_rfl n dst
  · intro prog sub startp endp src n hmagic h0 hwf
    have hw : regsub prog sub startp endp src n = regsubLoop sub startp endp src n [] := by
      simp [regsub, hmagic]
    obtain ⟨hS, hF⟩ := regsubLoop_spec_aux sub startp endp h0 hwf src.length src le_rfl n []
    constructor
    · constructor
      · intro h
        obtain ⟨out, hout, hlenout⟩ := hS h
        have hl : out.length = expandLen sub startp endp src := by simpa using hlenout
        exact ⟨out, by rw [hw]; exact hout, hl, by omega⟩
      · rintro ⟨out, hout, hl, hle⟩
        by_contra hcon
        push_neg at hcon
        obtain ⟨dst', herr, _⟩ := hF hcon
        rw [hw, herr] at hout
        exact Except.noConfusion hout
    · constructor
      · intro h
        obtain ⟨dst', herr, hlen'⟩ := hF h
        exact ⟨dst', by rw [hw]; exact herr, by simpa using hlen'⟩
      · rintro ⟨dst', herr, _⟩
        by_contra hcon
        push_neg at hcon
        obtain ⟨out, hout, _⟩ := hS hcon
        rw [hw, hout] at herr
        exact Except.noConfusion herr

theorem claim_C8_witness :
    (∃ out, regsubLoop [97, 98] [some 0] [some 2] [38, 38, 38] 7 [] = .ok out ∧
      out.length = ([] : List Nat).length +
        expandLen [97, 98] [some 0] [some 2] [38, 38, 38]) ∧
    (∃ dst', regsubLoop [97, 98] [some 0] [some 2] [38, 38, 38] 6 [] =
        .error (.lineTooLong, dst') ∧
      dst'.length ≤ ([] : List Nat).length + 6) := by
  have hwf : ∀ k sp ep, ([some 0] : List (Option Nat)).getD k none = some sp →
      ([some 2] : List (Option Nat)).getD k none = some ep →
      sp ≤ ep ∧ ep ≤ ([97, 98] : List Nat).length := by
    intro k sp ep hsp hep
    match k with
    | 0 =>
      simp [List.getD] at hsp hep
      simp only [List.length_cons, List.length_nil]
      omega
    | k + 1 =>
      simp [List.getD] at hsp
  exact ⟨(claim_C8.1 [97, 98] [some 0] [some 2] [38, 38, 38] 7 [] (by decide) hwf).1
      (by decide),
    (claim_C8.1 [97, 98] [some 0] [some 2] [38, 38, 38] 6 [] (by decide) hwf).2
      (by decide)⟩

end Spencer
